import Mathlib

/-!
# HVML.c: term codec, arena, interaction rules, `reduce` and `normal`

A shallow embedding of `src/HVML.c`.  Machine words are natural numbers:
`Tag` is 8 bits, `Lab` and `Loc` are 32 bits, `Term` and the three counters
are 64 bits.  Arithmetic that the C program performs in a fixed width is
written with an explicit reduction (`u32`, `u64`).  A C function that
updates the heap returns the new heap next to its result.  The loop of
`reduce` is a step function (`reduce_iter`) iterated with fuel; `normal`
recurses on the same fuel.  A terminated run also lists the interaction
rules it fired, in order.
-/

namespace HVML

/-! ## Machine words -/

/-- Conversion to `uint32_t` (the C types `Lab` and `Loc`). -/
def u32 (n : Nat) : Nat := n % 2 ^ 32

/-- Conversion to `uint64_t` (the C types `Term` and `u64`). -/
def u64 (n : Nat) : Nat := n % 2 ^ 64

/-! ## Constants -/

def DP0 : Nat := 0x00
def DP1 : Nat := 0x01
def VAR : Nat := 0x02
def APP : Nat := 0x03
def ERA : Nat := 0x04
def LAM : Nat := 0x05
def SUP : Nat := 0x06
def SUB : Nat := 0x07

def VOID : Nat := 0x00000000000000

/-! ## Runtime types -/

/-- The C `Heap`: the evaluation stack, the global memory and the three
64-bit counters.  `stk` and `mem` are indexed by 32-bit locations. -/
structure Heap where
  stk : Nat → Nat
  mem : Nat → Nat
  ini : Nat
  end_ : Nat
  itr : Nat

/-! ## Term codec -/

/-- The C `new_term`; the parameters are a `Tag`, a `Lab` and a `Loc`. -/
def new_term (tag lab loc : Nat) : Nat :=
  let tag_enc := tag
  let lab_enc := lab <<< 8
  let loc_enc := loc <<< 32
  tag_enc ||| lab_enc ||| loc_enc

def get_tag (x : Nat) : Nat := x &&& 0xFF

def get_lab (x : Nat) : Nat := (x >>> 8) &&& 0xFFFFFF

def get_loc (x : Nat) : Nat := (x >>> 32) &&& 0xFFFFFFFF

def get_key (term : Nat) : Nat :=
  if get_tag term = VAR then u32 (get_loc term + 0)
  else if get_tag term = DP0 then u32 (get_loc term + 0)
  else if get_tag term = DP1 then u32 (get_loc term + 1)
  else 0

def get_ini (heap : Heap) : Nat := u32 heap.ini

def get_end (heap : Heap) : Nat := u32 heap.end_

def get_itr (heap : Heap) : Nat := u32 heap.itr

def set_ini (heap : Heap) (value : Nat) : Heap := { heap with ini := value }

def set_end (heap : Heap) (value : Nat) : Heap := { heap with end_ := value }

def set_itr (heap : Heap) (value : Nat) : Heap := { heap with itr := value }

/-! ## Memory -/

def got (heap : Heap) (loc : Nat) : Nat := heap.mem loc

def set (heap : Heap) (loc term : Nat) : Heap :=
  { heap with mem := fun i => if i = loc then term else heap.mem i }

/-- The C `swap`: the previous occupant and the heap after the exchange. -/
def swap (heap : Heap) (loc term : Nat) : Heap × Nat :=
  (set heap loc term, heap.mem loc)

def take (heap : Heap) (loc : Nat) : Heap × Nat := swap heap loc VOID

/-! ## Allocation -/

/-- The C `alloc_node`: a 64-bit fetch-and-add on `end`, whose old value is
returned as a `Loc`. -/
def alloc_node (heap : Heap) (arity : Nat) : Heap × Nat :=
  ({ heap with end_ := u64 (heap.end_ + arity) }, u32 heap.end_)

/-- The C `inc_itr`: a 64-bit fetch-and-add of 1 on `itr`. -/
def inc_itr (heap : Heap) : Heap × Nat :=
  ({ heap with itr := u64 (heap.itr + 1) }, u32 heap.itr)

/-! ## Interaction rules -/

def reduce_app_era (heap : Heap) (_app era : Nat) : Heap × Nat :=
  let heap := (inc_itr heap).1
  (heap, era)

def reduce_app_lam (heap : Heap) (app lam : Nat) : Heap × Nat :=
  let heap := (inc_itr heap).1
  let app_loc := get_loc app
  let lam_loc := get_loc lam
  let arg := got heap (u32 (app_loc + 1))
  let bod := got heap (u32 (lam_loc + 1))
  let heap := set heap (u32 (lam_loc + 0)) arg
  (heap, bod)

def reduce_app_sup (heap : Heap) (app sup : Nat) : Heap × Nat :=
  let heap := (inc_itr heap).1
  let app_loc := get_loc app
  let sup_loc := get_loc sup
  let arg := got heap (u32 (app_loc + 1))
  let tm0 := got heap (u32 (sup_loc + 0))
  let tm1 := got heap (u32 (sup_loc + 1))
  let du0 := (alloc_node heap 3).2
  let heap := (alloc_node heap 3).1
  let su0 := (alloc_node heap 2).2
  let heap := (alloc_node heap 2).1
  let ap0 := (alloc_node heap 2).2
  let heap := (alloc_node heap 2).1
  let ap1 := (alloc_node heap 2).2
  let heap := (alloc_node heap 2).1
  let heap := set heap (u32 (du0 + 0)) (new_term SUB 0 0)
  let heap := set heap (u32 (du0 + 1)) (new_term SUB 0 0)
  let heap := set heap (u32 (du0 + 2)) arg
  let heap := set heap (u32 (ap0 + 0)) tm0
  let heap := set heap (u32 (ap0 + 1)) (new_term DP0 0 du0)
  let heap := set heap (u32 (ap1 + 0)) tm1
  let heap := set heap (u32 (ap1 + 1)) (new_term DP1 0 du0)
  let heap := set heap (u32 (su0 + 0)) (new_term APP 0 ap0)
  let heap := set heap (u32 (su0 + 1)) (new_term APP 0 ap1)
  (heap, new_term SUP 0 su0)

def reduce_dup_era (heap : Heap) (dup era : Nat) : Heap × Nat :=
  let heap := (inc_itr heap).1
  let dup_loc := get_loc dup
  let dup_num := if get_tag dup = DP0 then 0 else 1
  let heap := set heap (u32 (dup_loc + 0)) era
  let heap := set heap (u32 (dup_loc + 1)) era
  (heap, got heap (u32 (dup_loc + dup_num)))

def reduce_dup_lam (heap : Heap) (dup lam : Nat) : Heap × Nat :=
  let heap := (inc_itr heap).1
  let dup_loc := get_loc dup
  let dup_num := if get_tag dup = DP0 then 0 else 1
  let lam_loc := get_loc lam
  let bod := got heap (u32 (lam_loc + 1))
  let du0 := (alloc_node heap 3).2
  let heap := (alloc_node heap 3).1
  let lm0 := (alloc_node heap 2).2
  let heap := (alloc_node heap 2).1
  let lm1 := (alloc_node heap 2).2
  let heap := (alloc_node heap 2).1
  let su0 := (alloc_node heap 2).2
  let heap := (alloc_node heap 2).1
  let heap := set heap (u32 (du0 + 0)) (new_term SUB 0 0)
  let heap := set heap (u32 (du0 + 1)) (new_term SUB 0 0)
  let heap := set heap (u32 (du0 + 2)) bod
  let heap := set heap (u32 (lm0 + 0)) (new_term SUB 0 0)
  let heap := set heap (u32 (lm0 + 1)) (new_term DP0 0 du0)
  let heap := set heap (u32 (lm1 + 0)) (new_term SUB 0 0)
  let heap := set heap (u32 (lm1 + 1)) (new_term DP1 0 du0)
  let heap := set heap (u32 (su0 + 0)) (new_term VAR 0 lm0)
  let heap := set heap (u32 (su0 + 1)) (new_term VAR 0 lm1)
  let heap := set heap (u32 (dup_loc + 0)) (new_term LAM 0 lm0)
  let heap := set heap (u32 (dup_loc + 1)) (new_term LAM 0 lm1)
  let heap := set heap (u32 (lam_loc + 0)) (new_term SUP 0 su0)
  (heap, got heap (u32 (dup_loc + dup_num)))

def reduce_dup_sup (heap : Heap) (dup sup : Nat) : Heap × Nat :=
  let heap := (inc_itr heap).1
  let dup_loc := get_loc dup
  let dup_num := if get_tag dup = DP0 then 0 else 1
  let sup_loc := get_loc sup
  let tm0 := got heap (u32 (sup_loc + 0))
  let tm1 := got heap (u32 (sup_loc + 1))
  let heap := set heap (u32 (dup_loc + 0)) tm0
  let heap := set heap (u32 (dup_loc + 1)) tm1
  (heap, got heap (u32 (dup_loc + dup_num)))

/-! ## Weak-head reduction -/

/-- The six interaction rules, named as in the comments of `HVML.c`. -/
inductive Rule where
  | APP_ERA
  | APP_LAM
  | APP_SUP
  | DUP_ERA
  | DUP_LAM
  | DUP_SUP
  deriving DecidableEq

/-- Outcome of one pass through the body of the `while (1)` of `reduce`:
either `continue` with a new heap, stack position and cursor (recording the
rule fired in this pass, if any), or `return`. -/
inductive Step where
  | go (fired : Option Rule) (heap : Heap) (spos next : Nat)
  | stop (heap : Heap) (term : Nat)

/-- The store `path[spos] = term` on the evaluation stack. -/
def stk_set (heap : Heap) (spos term : Nat) : Heap :=
  { heap with stk := fun i => if i = spos then term else heap.stk i }

/-- The code of `reduce` after its outer `switch` (reached by `break`):
return `next` on an empty stack, otherwise pop one host, write `next` into
its slot and return `path[0]`. -/
def reduce_exit (heap : Heap) (spos next : Nat) : Step :=
  if spos = 0 then .stop heap next
  else
    let spos := spos - 1
    let host := heap.stk spos
    let htag := get_tag host
    let hloc := get_loc host
    let heap :=
      if htag = APP then set heap (u32 (hloc + 0)) next
      else if htag = DP0 then set heap (u32 (hloc + 2)) next
      else if htag = DP1 then set heap (u32 (hloc + 2)) next
      else heap
    .stop heap (heap.stk 0)

/-- A rule call `next = reduce_xxx(heap, prev, next); continue;`. -/
def reduce_fire (rule : Rule) (res : Heap × Nat) (spos : Nat) : Step :=
  .go (some rule) res.1 spos res.2

/-- One pass through the body of the `while (1)` loop of `reduce`. -/
def reduce_iter (heap : Heap) (spos next : Nat) : Step :=
  let tag := get_tag next
  let loc := get_loc next
  if tag = APP then
    .go none (stk_set heap spos next) (u32 (spos + 1)) (got heap (u32 (loc + 0)))
  else if tag = DP0 ∨ tag = DP1 then
    let key := get_key next
    let sub := got heap key
    if get_tag sub = SUB then
      .go none (stk_set heap spos next) (u32 (spos + 1)) (got heap (u32 (loc + 2)))
    else
      .go none heap spos sub
  else if tag = VAR then
    let key := get_key next
    let sub := got heap key
    if get_tag sub = SUB then
      reduce_exit heap spos next
    else
      .go none heap spos sub
  else if spos = 0 then
    reduce_exit heap spos next
  else
    let spos := spos - 1
    let prev := heap.stk spos
    let ptag := get_tag prev
    if ptag = APP then
      if tag = ERA then reduce_fire .APP_ERA (reduce_app_era heap prev next) spos
      else if tag = LAM then reduce_fire .APP_LAM (reduce_app_lam heap prev next) spos
      else if tag = SUP then reduce_fire .APP_SUP (reduce_app_sup heap prev next) spos
      else reduce_exit heap spos next
    else if ptag = DP0 ∨ ptag = DP1 then
      if tag = ERA then reduce_fire .DUP_ERA (reduce_dup_era heap prev next) spos
      else if tag = LAM then reduce_fire .DUP_LAM (reduce_dup_lam heap prev next) spos
      else if tag = SUP then reduce_fire .DUP_SUP (reduce_dup_sup heap prev next) spos
      else reduce_exit heap spos next
    else reduce_exit heap spos next

/-- What a terminated run hands back: the final heap, the returned term and
the rules fired, in order. -/
structure Run where
  heap : Heap
  term : Nat
  fired : List Rule

/-- The `while (1)` loop of `reduce`, run for at most `fuel` passes. -/
def reduce_loop : Nat → Heap → Nat → Nat → Option Run
  | 0, _, _, _ => none
  | fuel + 1, heap, spos, next =>
    match reduce_iter heap spos next with
    | .stop heap term => some ⟨heap, term, []⟩
    | .go fired heap spos next =>
      match reduce_loop fuel heap spos next with
      | none => none
      | some r => some ⟨r.heap, r.term, fired.toList ++ r.fired⟩

/-- The C `reduce`: the loop started with an empty stack and `next = term`.
`none` means the loop did not return within `fuel` passes. -/
def reduce (fuel : Nat) (heap : Heap) (term : Nat) : Option Run :=
  reduce_loop fuel heap 0 term

/-! ## Normalization -/

/-- The C `normal`.  `fuel` bounds both the recursion depth and the number
of loop passes of each `reduce` it calls. -/
def normal : Nat → Heap → Nat → Option Run
  | 0, _, _ => none
  | fuel + 1, heap, term =>
    match reduce fuel heap term with
    | none => none
    | some r0 =>
      let heap := r0.heap
      let wnf := r0.term
      let tag := get_tag wnf
      let loc := get_loc wnf
      if tag = APP then
        match normal fuel heap (got heap (u32 (loc + 0))) with
        | none => none
        | some r1 =>
          match normal fuel r1.heap (got r1.heap (u32 (loc + 1))) with
          | none => none
          | some r2 =>
            let heap := set r2.heap (u32 (loc + 0)) r1.term
            let heap := set heap (u32 (loc + 1)) r2.term
            some ⟨heap, wnf, r0.fired ++ r1.fired ++ r2.fired⟩
      else if tag = LAM then
        match normal fuel heap (got heap (u32 (loc + 1))) with
        | none => none
        | some r1 =>
          some ⟨set r1.heap (u32 (loc + 1)) r1.term, wnf, r0.fired ++ r1.fired⟩
      else if tag = SUP then
        match normal fuel heap (got heap (u32 (loc + 0))) with
        | none => none
        | some r1 =>
          match normal fuel r1.heap (got r1.heap (u32 (loc + 1))) with
          | none => none
          | some r2 =>
            let heap := set r2.heap (u32 (loc + 0)) r1.term
            let heap := set heap (u32 (loc + 1)) r2.term
            some ⟨heap, wnf, r0.fired ++ r1.fired ++ r2.fired⟩
      else if tag = DP0 then
        match normal fuel heap (got heap (u32 (loc + 2))) with
        | none => none
        | some r1 =>
          some ⟨set r1.heap (u32 (loc + 2)) r1.term, wnf, r0.fired ++ r1.fired⟩
      else if tag = DP1 then
        match normal fuel heap (got heap (u32 (loc + 2))) with
        | none => none
        | some r1 =>
          some ⟨set r1.heap (u32 (loc + 2)) r1.term, wnf, r0.fired ++ r1.fired⟩
      else some r0

/-! ## Example heaps -/

/-- A small arena: an application node at 10, a superposition node at 12, a
lambda node at 14 and a duplicator node at 16, with the frontier at 20. -/
def heap_ex : Heap where
  stk := fun _ => 0
  mem := fun i =>
    if i = 10 then new_term LAM 0 14
    else if i = 11 then new_term ERA 0 0
    else if i = 12 then new_term ERA 0 0
    else if i = 13 then new_term LAM 0 14
    else if i = 14 then new_term SUB 0 0
    else if i = 15 then new_term VAR 0 14
    else if i = 16 then new_term SUB 0 0
    else if i = 17 then new_term SUB 0 0
    else if i = 18 then new_term LAM 0 14
    else 0
  ini := 0
  end_ := 20
  itr := 0

/-- The heap `heap_ex` with the interaction counter at its largest value. -/
def heap_wrap : Heap := { heap_ex with itr := 2 ^ 64 - 1 }

/-! ## Predicates on runs -/

/-- The interaction counter after one loop pass, relative to the heap the
pass started from: stepped once per rule fired, untouched otherwise. -/
def Step.counts (heap : Heap) : Step → Prop
  | .go fired heap1 _ _ => heap1.itr = u64 (heap.itr + fired.toList.length)
  | .stop heap1 _ => heap1.itr = heap.itr

/-- Every live entry of the traversal stack (index below `spos`) is a host
term: its tag is `APP`, `DP0` or `DP1`. -/
def stack_ok (heap : Heap) (spos : Nat) : Prop :=
  ∀ i, i < spos →
    get_tag (heap.stk i) = APP ∨ get_tag (heap.stk i) = DP0 ∨ get_tag (heap.stk i) = DP1

/-- Weak-head normal form as the specification words it: an eraser, a
lambda, a superposition, or a variable whose binder cell holds `SUB`. -/
def is_whnf (heap : Heap) (t : Nat) : Prop :=
  get_tag t = ERA ∨ get_tag t = LAM ∨ get_tag t = SUP ∨
    (get_tag t = VAR ∧ get_tag (got heap (get_key t)) = SUB)

/-- What `reduce` can return: a weak-head normal form, or a stuck host (the
bottom entry `path[0]` of the stack, of tag `APP`, `DP0` or `DP1`), or a
term whose tag is `SUB` or none of the eight tags. -/
def is_reduce_result (heap : Heap) (t : Nat) : Prop :=
  is_whnf heap t ∨
    ((get_tag t = APP ∨ get_tag t = DP0 ∨ get_tag t = DP1) ∧ t = heap.stk 0) ∨
    SUB ≤ get_tag t

/-- The invariant and the result property carried by one loop pass. -/
def Step.sound : Step → Prop
  | .go _ heap spos _ => stack_ok heap spos
  | .stop heap term => is_reduce_result heap term

/-- The part of `normal` that follows its call of `reduce`: the `switch` on
the tag of `wnf`, with `rec` standing for the recursive calls of `normal`. -/
def normal_body (rec : Heap → Nat → Option Run) (r0 : Run) : Option Run :=
  let heap := r0.heap
  let wnf := r0.term
  let tag := get_tag wnf
  let loc := get_loc wnf
  if tag = APP then
    match rec heap (got heap (u32 (loc + 0))) with
    | none => none
    | some r1 =>
      match rec r1.heap (got r1.heap (u32 (loc + 1))) with
      | none => none
      | some r2 =>
        let heap := set r2.heap (u32 (loc + 0)) r1.term
        let heap := set heap (u32 (loc + 1)) r2.term
        some ⟨heap, wnf, r0.fired ++ r1.fired ++ r2.fired⟩
  else if tag = LAM then
    match rec heap (got heap (u32 (loc + 1))) with
    | none => none
    | some r1 =>
      some ⟨set r1.heap (u32 (loc + 1)) r1.term, wnf, r0.fired ++ r1.fired⟩
  else if tag = SUP then
    match rec heap (got heap (u32 (loc + 0))) with
    | none => none
    | some r1 =>
      match rec r1.heap (got r1.heap (u32 (loc + 1))) with
      | none => none
      | some r2 =>
        let heap := set r2.heap (u32 (loc + 0)) r1.term
        let heap := set heap (u32 (loc + 1)) r2.term
        some ⟨heap, wnf, r0.fired ++ r1.fired ++ r2.fired⟩
  else if tag = DP0 then
    match rec heap (got heap (u32 (loc + 2))) with
    | none => none
    | some r1 =>
      some ⟨set r1.heap (u32 (loc + 2)) r1.term, wnf, r0.fired ++ r1.fired⟩
  else if tag = DP1 then
    match rec heap (got heap (u32 (loc + 2))) with
    | none => none
    | some r1 =>
      some ⟨set r1.heap (u32 (loc + 2)) r1.term, wnf, r0.fired ++ r1.fired⟩
  else some r0

/-- The number of cells a rule allocates: `reduce_app_sup` and
`reduce_dup_lam` call `alloc_node` for 3 + 2 + 2 + 2 cells, the other four
rules never call it. -/
def alloc_size : Rule → Nat
  | .APP_SUP => 9
  | .DUP_LAM => 9
  | _ => 0

/-- The sum of the allocation sizes of a list of fired rules. -/
def alloc_total (fired : List Rule) : Nat := (fired.map alloc_size).sum

/-- The frontier after one loop pass, relative to the heap the pass started
from: advanced by the allocation size of the rule fired, if any. -/
def Step.allocs (heap : Heap) : Step → Prop
  | .go fired heap1 _ _ => heap1.end_ = u64 (heap.end_ + alloc_total fired.toList)
  | .stop heap1 _ => heap1.end_ = heap.end_

/-- The term `(λx.λy.x) ⋆ ⋆` laid out from cell 0: `A = 0`, `B = 2`,
`L1 = 4`, `L2 = 6`, with the frontier at 8. -/
def heap_k : Heap where
  stk := fun _ => 0
  mem := fun i =>
    if i = 0 then new_term APP 0 2
    else if i = 1 then new_term ERA 0 0
    else if i = 2 then new_term LAM 0 4
    else if i = 3 then new_term ERA 0 0
    else if i = 4 then new_term SUB 0 0
    else if i = 5 then new_term LAM 0 6
    else if i = 6 then new_term SUB 0 0
    else if i = 7 then new_term VAR 0 4
    else 0
  ini := 0
  end_ := 8
  itr := 0

/-- Two heaps with the same arena cells and the same frontier; they may
differ in the stack, in `itr` and in `ini`. -/
def heap_eqv (h1 h2 : Heap) : Prop := h1.mem = h2.mem ∧ h1.end_ = h2.end_

/-- Two heaps whose stacks hold the same live entries (indices below `spos`). -/
def stk_agree (h1 h2 : Heap) (spos : Nat) : Prop := ∀ i, i < spos → h1.stk i = h2.stk i

/-- Two loop passes that take the same path: the same rule, stack position
and cursor on equivalent heaps, or the same returned term. -/
def Step.sim : Step → Step → Prop
  | .go f1 h1 s1 n1, .go f2 h2 s2 n2 =>
    f1 = f2 ∧ s1 = s2 ∧ n1 = n2 ∧ heap_eqv h1 h2 ∧ stk_agree h1 h2 s1
  | .stop h1 t1, .stop h2 t2 => t1 = t2 ∧ heap_eqv h1 h2
  | _, _ => False

/-- Two runs that return the same term on equivalent heaps, the first having
fired the rules `pre` before those of the second. -/
def run_sim (pre : List Rule) (r1 r2 : Run) : Prop :=
  r1.term = r2.term ∧ r1.fired = pre ++ r2.fired ∧ heap_eqv r1.heap r2.heap

/-- Both runs fail to return, or both return and are related by `run_sim`. -/
def opt_sim (pre : List Rule) : Option Run → Option Run → Prop
  | none, none => True
  | some r1, some r2 => run_sim pre r1 r2
  | _, _ => False

/-- The term `(λx.x) ⋆` laid out from cell 0: `A = 0` holds `[LAM(2), ERA]`
and `L = 2` holds `[SUB, VAR(2)]`, with the frontier at 4. -/
def heap_id : Heap where
  stk := fun _ => 0
  mem := fun i =>
    if i = 0 then new_term LAM 0 2
    else if i = 1 then new_term ERA 0 0
    else if i = 2 then new_term SUB 0 0
    else if i = 3 then new_term VAR 0 2
    else 0
  ini := 0
  end_ := 4
  itr := 0

/-- The duplicated identity `{x y} = λz.z` applied twice, laid out from cell
0: `A0 = 0` holds `[DP0(4), ERA]`, `A1 = 2` holds `[DP1(4), ERA]`, `D = 4`
holds `[SUB, SUB, LAM(7)]` and `L = 7` holds `[SUB, VAR(7)]`; the frontier
is `frontier`. -/
def heap_dup (frontier : Nat) : Heap where
  stk := fun _ => 0
  mem := fun i =>
    if i = 0 then new_term DP0 0 4
    else if i = 1 then new_term ERA 0 0
    else if i = 2 then new_term DP1 0 4
    else if i = 3 then new_term ERA 0 1
    else if i = 4 then new_term SUB 0 0
    else if i = 5 then new_term SUB 0 0
    else if i = 6 then new_term LAM 0 7
    else if i = 7 then new_term SUB 0 0
    else if i = 8 then new_term VAR 0 7
    else 0
  ini := 0
  end_ := frontier
  itr := 0

/-- The state at the head of the `while (1)` loop of `reduce` after `n`
passes: the heap, the stack position `spos` and the cursor `next`; `none` when
the loop has returned within those passes. -/
def reduce_state : Nat → Heap → Nat → Nat → Option (Heap × Nat × Nat)
  | 0, heap, spos, next => some (heap, spos, next)
  | n + 1, heap, spos, next =>
    match reduce_iter heap spos next with
    | .stop _ _ => none
    | .go _ heap spos next => reduce_state n heap spos next

/-- The write-back site the specification names for a host: location + 0 for
an `APP` host, location + 2 for a `DP0` or `DP1` host (a `Loc` sum). -/
def host_slot (host : Nat) : Nat :=
  if get_tag host = APP then u32 (get_loc host + 0) else u32 (get_loc host + 2)

/-- An arena in which an application node and a duplicator node overlap: the
application node at 11 (cells 11 and 12) lies on the last two cells of the
duplicator node at 10 (cells 10 to 12).  Cell 12 holds `SUP(20)`, node 20 is
`[APP(11), DP0(30)]`, the duplicator node at 30 holds `[SUB, _, SUP(40)]`,
node 40 is `[VAR(50), _]` and cell 50 holds `SUB`. -/
def heap_alias : Heap where
  stk := fun _ => 0
  mem := fun i =>
    if i = 10 then new_term SUB 0 0
    else if i = 11 then new_term DP0 0 10
    else if i = 12 then new_term SUP 0 20
    else if i = 20 then new_term APP 0 11
    else if i = 21 then new_term DP0 0 30
    else if i = 30 then new_term SUB 0 0
    else if i = 32 then new_term SUP 0 40
    else if i = 40 then new_term VAR 0 50
    else if i = 50 then new_term SUB 0 0
    else 0
  ini := 0
  end_ := 51
  itr := 0

/-- The C `print_heap`, as the list of the lines it prints: for each location
`i` below `get_end`, in increasing order, whose cell holds a term other than
0, the location and the tag, label and location that `print_term` shows. -/
def print_heap (heap : Heap) : List (Nat × Nat × Nat × Nat) :=
  let end_ := get_end heap
  (List.range end_).filterMap fun i =>
    let term := got heap i
    if term ≠ 0 then some (i, get_tag term, get_lab term, get_loc term) else none

/-- Two application nodes at disjoint locations, one under the other, over a
term that forms no redex: the node at 10 is `[APP(12), _]` and the node at 12
is `[SUB, _]`. -/
def heap_stuck : Heap where
  stk := fun _ => 0
  mem := fun i =>
    if i = 10 then new_term APP 0 12
    else if i = 12 then new_term SUB 0 0
    else 0
  ini := 0
  end_ := 14
  itr := 0

/-! ## Codec lemmas -/

theorem get_tag_eq_mod (x : Nat) : get_tag x = x % 256 := by
  unfold get_tag
  exact Nat.and_pow_two_sub_one_eq_mod x 8

theorem get_lab_eq (x : Nat) : get_lab x = x / 2 ^ 8 % 2 ^ 24 := by
  unfold get_lab
  rw [Nat.shiftRight_eq_div_pow]
  exact Nat.and_pow_two_sub_one_eq_mod _ 24

theorem get_loc_eq (x : Nat) : get_loc x = x / 2 ^ 32 % 2 ^ 32 := by
  unfold get_loc
  rw [Nat.shiftRight_eq_div_pow]
  exact Nat.and_pow_two_sub_one_eq_mod _ 32

theorem get_tag_lt (x : Nat) : get_tag x < 2 ^ 8 := by
  rw [get_tag_eq_mod]; omega

theorem get_loc_lt (x : Nat) : get_loc x < 2 ^ 32 := by
  rw [get_loc_eq]; omega

theorem new_term_eq_add (tag lab loc : Nat) (ht : tag < 2 ^ 8) (hl : lab < 2 ^ 24) :
    new_term tag lab loc = tag + lab * 2 ^ 8 + loc * 2 ^ 32 := by
  unfold new_term
  simp only [Nat.shiftLeft_eq]
  have h1 : tag ||| lab * 2 ^ 8 = 2 ^ 8 * lab + tag := by
    rw [Nat.or_comm, Nat.mul_comm lab, ← Nat.mul_add_lt_is_or ht]
  have h2 : 2 ^ 8 * lab + tag < 2 ^ 32 := by omega
  rw [h1, Nat.or_comm, Nat.mul_comm loc, ← Nat.mul_add_lt_is_or h2]
  omega

theorem new_term_fields (tag lab loc : Nat)
    (ht : tag < 2 ^ 8) (hl : lab < 2 ^ 24) (hc : loc < 2 ^ 32) :
    get_tag (new_term tag lab loc) = tag ∧
    get_lab (new_term tag lab loc) = lab ∧
    get_loc (new_term tag lab loc) = loc := by
  rw [get_tag_eq_mod, get_lab_eq, get_loc_eq, new_term_eq_add tag lab loc ht hl]
  refine ⟨?_, ?_, ?_⟩ <;> omega

theorem get_lab_new_term_zero (tag loc : Nat) (ht : tag < 2 ^ 8) (hc : loc < 2 ^ 32) :
    get_lab (new_term tag 0 loc) = 0 :=
  (new_term_fields tag 0 loc ht (by decide) hc).2.1

/-! ## Word and arena lemmas -/

theorem u32_of_lt {n : Nat} (h : n < 2 ^ 32) : u32 n = n := Nat.mod_eq_of_lt h

theorem u64_of_lt {n : Nat} (h : n < 2 ^ 64) : u64 n = n := Nat.mod_eq_of_lt h

theorem u32_get_loc (x : Nat) : u32 (get_loc x) = get_loc x :=
  u32_of_lt (get_loc_lt x)

theorem u32_get_loc_add_zero (x : Nat) : u32 (get_loc x + 0) = get_loc x :=
  u32_get_loc x

theorem u32_succ_ne (d : Nat) : u32 (d + 1) ≠ d := by
  unfold u32; omega

theorem got_set_ne (heap : Heap) (loc term i : Nat) (hne : i ≠ loc) :
    got (set heap loc term) i = got heap i := by
  simp [set, got, hne]

theorem got_set_eq (heap : Heap) (loc term i : Nat) (heq : i = loc) :
    got (set heap loc term) i = term := by
  simp [set, got, heq]

/-! ## The term codec (C9, C10) -/

/-- C9: for a tag of 8 bits, a label below 2^24 and a location of 32 bits,
`new_term` is the sum `tag + label * 2^8 + loc * 2^32`, and `get_tag`,
`get_lab`, `get_loc` recover the three fields. -/
theorem codec_roundtrip (tag lab loc : Nat)
    (ht : tag < 2 ^ 8) (hl : lab < 2 ^ 24) (hc : loc < 2 ^ 32) :
    new_term tag lab loc = tag + lab * 2 ^ 8 + loc * 2 ^ 32 ∧
    get_tag (new_term tag lab loc) = tag ∧
    get_lab (new_term tag lab loc) = lab ∧
    get_loc (new_term tag lab loc) = loc :=
  ⟨new_term_eq_add tag lab loc ht hl, new_term_fields tag lab loc ht hl hc⟩

theorem codec_roundtrip_witness :
    new_term 6 5 7 = 6 + 5 * 2 ^ 8 + 7 * 2 ^ 32 ∧
    get_tag (new_term 6 5 7) = 6 ∧
    get_lab (new_term 6 5 7) = 5 ∧
    get_loc (new_term 6 5 7) = 7 :=
  codec_roundtrip 6 5 7 (by decide) (by decide) (by decide)

/-- C10: `get_key t` is `get_loc t` for a `VAR` or `DP0` term, `get_loc t + 1`
for a `DP1` term (a `Loc` sum, so taken modulo 2^32; it is the plain sum
whenever `get_loc t + 1` fits in 32 bits), and 0 for every other tag. -/
theorem get_key_spec (t : Nat) :
    (get_tag t = VAR ∨ get_tag t = DP0 → get_key t = get_loc t) ∧
    (get_tag t = DP1 → get_key t = (get_loc t + 1) % 2 ^ 32 ∧
      (get_loc t + 1 < 2 ^ 32 → get_key t = get_loc t + 1)) ∧
    (get_tag t ≠ VAR → get_tag t ≠ DP0 → get_tag t ≠ DP1 → get_key t = 0) := by
  have hlt := get_loc_lt t
  refine ⟨?_, ?_, ?_⟩
  · intro h
    have hk : get_key t = u32 (get_loc t + 0) := by
      rcases h with h | h <;> simp [get_key, h, VAR, DP0]
    rw [hk]; unfold u32; omega
  · intro h
    have hk : get_key t = u32 (get_loc t + 1) := by
      simp [get_key, h, VAR, DP0, DP1]
    rw [hk]; unfold u32; omega
  · intro h1 h2 h3
    simp only [get_key, h1, h2, h3, if_false]

theorem get_key_spec_witness :
    get_key (new_term DP1 0 5) = 6 ∧ get_key (new_term VAR 0 5) = 5 ∧
    get_key (new_term LAM 0 5) = 0 :=
  ⟨((get_key_spec (new_term DP1 0 5)).2.1 (by decide)).2 (by decide),
   (get_key_spec (new_term VAR 0 5)).1 (Or.inl (by decide)),
   (get_key_spec (new_term LAM 0 5)).2.2 (by decide) (by decide) (by decide)⟩

/-! ## The interaction rules (C1 to C6)

Cell addresses are `Loc` values: `u32 (x + 1)` is the cell the C program
addresses as `x + 1`. -/

/-- C6: `reduce_app_era` returns `era` itself; no arena cell changes (in
particular the argument cell `get_loc app + 1`), the frontier `end` does
not move, and the heap differs from the old one in `itr` only. -/
theorem reduce_app_era_spec (heap : Heap) (app era : Nat) :
    (reduce_app_era heap app era).2 = era ∧
    (∀ i, got (reduce_app_era heap app era).1 i = got heap i) ∧
    got (reduce_app_era heap app era).1 (u32 (get_loc app + 1)) =
      got heap (u32 (get_loc app + 1)) ∧
    (reduce_app_era heap app era).1.end_ = heap.end_ ∧
    (reduce_app_era heap app era).1 = { heap with itr := u64 (heap.itr + 1) } :=
  ⟨rfl, fun _ => rfl, rfl, rfl, rfl⟩

/-- C1: `reduce_app_lam` returns the term that cell `get_loc lam + 1` (the
body) held before the call; afterwards cell `get_loc lam + 0` (the binder)
holds what cell `get_loc app + 1` (the argument) held; every other cell and
the frontier `end` are unchanged. -/
theorem reduce_app_lam_spec (heap : Heap) (app lam : Nat) :
    (reduce_app_lam heap app lam).2 = got heap (u32 (get_loc lam + 1)) ∧
    got (reduce_app_lam heap app lam).1 (get_loc lam) =
      got heap (u32 (get_loc app + 1)) ∧
    (∀ i, i ≠ get_loc lam → got (reduce_app_lam heap app lam).1 i = got heap i) ∧
    (reduce_app_lam heap app lam).1.end_ = heap.end_ := by
  refine ⟨rfl, ?_, ?_, rfl⟩
  · simp [reduce_app_lam, inc_itr, set, got, u32_get_loc]
  · intro i hi
    simp [reduce_app_lam, inc_itr, set, got, u32_get_loc, hi]

/-- C4: `reduce_dup_sup` leaves cell `d` holding `a` and cell `d + 1` holding
`b`, where `d = get_loc dup` and `a`, `b` are the old cells `s + 0`, `s + 1`
of `s = get_loc sup`; no other cell changes and the frontier does not move;
it returns `a` for a `DP0` and `b` for a `DP1`; `itr` is stepped once. -/
theorem reduce_dup_sup_spec (heap : Heap) (dup sup : Nat) :
    got (reduce_dup_sup heap dup sup).1 (get_loc dup) = got heap (get_loc sup) ∧
    got (reduce_dup_sup heap dup sup).1 (u32 (get_loc dup + 1)) =
      got heap (u32 (get_loc sup + 1)) ∧
    (∀ i, i ≠ get_loc dup → i ≠ u32 (get_loc dup + 1) →
      got (reduce_dup_sup heap dup sup).1 i = got heap i) ∧
    (reduce_dup_sup heap dup sup).1.end_ = heap.end_ ∧
    (get_tag dup = DP0 → (reduce_dup_sup heap dup sup).2 = got heap (get_loc sup)) ∧
    (get_tag dup = DP1 →
      (reduce_dup_sup heap dup sup).2 = got heap (u32 (get_loc sup + 1))) ∧
    (reduce_dup_sup heap dup sup).1.itr = (inc_itr heap).1.itr ∧
    (reduce_dup_sup heap dup sup).1.itr = u64 (heap.itr + 1) := by
  have hne := u32_succ_ne (get_loc dup)
  refine ⟨?_, ?_, ?_, rfl, ?_, ?_, rfl, rfl⟩
  · simp [reduce_dup_sup, inc_itr, set, got, u32_get_loc, hne.symm]
  · simp [reduce_dup_sup, inc_itr, set, got]
  · intro i h1 h2
    simp [reduce_dup_sup, inc_itr, set, got, u32_get_loc, h1, h2]
  · intro h
    simp [reduce_dup_sup, inc_itr, set, got, u32_get_loc, h, hne.symm]
  · intro h
    simp [reduce_dup_sup, inc_itr, set, got, h, DP0, DP1]

theorem reduce_dup_sup_spec_witness :
    (reduce_dup_sup heap_ex (new_term DP0 0 16) (new_term SUP 0 12)).2 = new_term ERA 0 0 ∧
    (reduce_dup_sup heap_ex (new_term DP1 0 16) (new_term SUP 0 12)).2 =
      new_term LAM 0 14 :=
  ⟨(reduce_dup_sup_spec heap_ex (new_term DP0 0 16) (new_term SUP 0 12)).2.2.2.2.1
      (by decide),
   (reduce_dup_sup_spec heap_ex (new_term DP1 0 16) (new_term SUP 0 12)).2.2.2.2.2.1
      (by decide)⟩

/-- C5: `reduce_dup_era` leaves both output cells `d` and `d + 1` of the
duplicator (`d = get_loc dup`) holding `era`; no other cell changes and the
frontier does not move; it returns `era`, an `ERA`-tagged term when `era`
is one, for either projection; `itr` is stepped once. -/
theorem reduce_dup_era_spec (heap : Heap) (dup era : Nat) :
    (reduce_dup_era heap dup era).2 = era ∧
    (get_tag era = ERA → get_tag (reduce_dup_era heap dup era).2 = ERA) ∧
    got (reduce_dup_era heap dup era).1 (get_loc dup) = era ∧
    got (reduce_dup_era heap dup era).1 (u32 (get_loc dup + 1)) = era ∧
    (∀ i, i ≠ get_loc dup → i ≠ u32 (get_loc dup + 1) →
      got (reduce_dup_era heap dup era).1 i = got heap i) ∧
    (reduce_dup_era heap dup era).1.end_ = heap.end_ ∧
    (reduce_dup_era heap dup era).1.itr = (inc_itr heap).1.itr ∧
    (reduce_dup_era heap dup era).1.itr = u64 (heap.itr + 1) := by
  have hne := u32_succ_ne (get_loc dup)
  have hret : (reduce_dup_era heap dup era).2 = era := by
    by_cases h : get_tag dup = DP0
    · simp [reduce_dup_era, inc_itr, set, got, u32_get_loc, h]
    · simp [reduce_dup_era, inc_itr, set, got, h]
  refine ⟨hret, ?_, ?_, ?_, ?_, rfl, rfl, rfl⟩
  · intro h; rw [hret]; exact h
  · simp [reduce_dup_era, inc_itr, set, got, u32_get_loc, hne.symm]
  · simp [reduce_dup_era, inc_itr, set, got]
  · intro i h1 h2
    simp [reduce_dup_era, inc_itr, set, got, u32_get_loc, h1, h2]

theorem reduce_dup_era_spec_witness :
    get_tag (reduce_dup_era heap_ex (new_term DP1 0 16) (new_term ERA 0 0)).2 = ERA :=
  (reduce_dup_era_spec heap_ex (new_term DP1 0 16) (new_term ERA 0 0)).2.1 (by decide)

/-- C3: on a heap with frontier `e`, `e + 9 < 2^32`, `reduce_app_sup` returns
`SUP` with label 0 at location `e + 3` and sets `end` to `e + 9`; cells `e`,
`e + 1` hold `SUB` and `e + 2` the old argument (old cell `a + 1`); cell
`e + 3` holds `APP(e + 5)` and `e + 4` holds `APP(e + 7)`; cell `e + 5` holds
the old cell `s + 0` and `e + 6` holds `DP0(e)`; cell `e + 7` holds the old
cell `s + 1` and `e + 8` holds `DP1(e)`; every created term has label 0 and
every cell outside `[e, e + 9)` is unchanged. -/
theorem reduce_app_sup_spec (heap heap1 : Heap) (app sup ret e : Nat)
    (he : heap.end_ = e) (hlt : e + 9 < 2 ^ 32)
    (hrun : reduce_app_sup heap app sup = (heap1, ret)) :
    ret = new_term SUP 0 (e + 3) ∧ get_tag ret = SUP ∧ get_lab ret = 0 ∧
    get_loc ret = e + 3 ∧
    heap1.end_ = e + 9 ∧
    got heap1 e = new_term SUB 0 0 ∧
    got heap1 (e + 1) = new_term SUB 0 0 ∧
    got heap1 (e + 2) = got heap (u32 (get_loc app + 1)) ∧
    got heap1 (e + 3) = new_term APP 0 (e + 5) ∧
    got heap1 (e + 4) = new_term APP 0 (e + 7) ∧
    got heap1 (e + 5) = got heap (get_loc sup) ∧
    got heap1 (e + 6) = new_term DP0 0 e ∧
    got heap1 (e + 7) = got heap (u32 (get_loc sup + 1)) ∧
    got heap1 (e + 8) = new_term DP1 0 e ∧
    (∀ t ∈ [new_term SUB 0 0, new_term APP 0 (e + 5), new_term APP 0 (e + 7),
        new_term DP0 0 e, new_term DP1 0 e, new_term SUP 0 (e + 3)], get_lab t = 0) ∧
    (∀ i, i < e ∨ e + 9 ≤ i → got heap1 i = got heap i) := by
  subst he
  have hrun1 := congrArg Prod.fst hrun
  have hrun2 := congrArg Prod.snd hrun
  simp (disch := omega) only [reduce_app_sup, inc_itr, alloc_node, u32_of_lt, u64_of_lt,
    u32_get_loc, Nat.add_assoc, Nat.reduceAdd, Nat.add_zero] at hrun1 hrun2
  subst hrun1 hrun2
  have hret := new_term_fields SUP 0 (heap.end_ + 3) (by decide) (by decide) (by omega)
  refine ⟨rfl, hret.1, hret.2.1, hret.2.2, rfl, ?_, ?_, ?_, ?_, ?_, ?_, ?_, ?_, ?_, ?_, ?_⟩
  iterate 9 (simp [set, got])
  · intro t ht
    simp only [List.mem_cons, List.mem_singleton, List.not_mem_nil, or_false] at ht
    rcases ht with h | h | h | h | h | h <;> subst h <;>
      exact get_lab_new_term_zero _ _ (by decide) (by omega)
  · intro i hi
    have h0 : i ≠ heap.end_ := by omega
    have h1 : i ≠ heap.end_ + 1 := by omega
    have h2 : i ≠ heap.end_ + 2 := by omega
    have h3 : i ≠ heap.end_ + 3 := by omega
    have h4 : i ≠ heap.end_ + 4 := by omega
    have h5 : i ≠ heap.end_ + 5 := by omega
    have h6 : i ≠ heap.end_ + 6 := by omega
    have h7 : i ≠ heap.end_ + 7 := by omega
    have h8 : i ≠ heap.end_ + 8 := by omega
    simp [set, got, h0, h1, h2, h3, h4, h5, h6, h7, h8]

theorem reduce_app_sup_spec_witness :
    heap_ex.end_ = 20 ∧ 20 + 9 < 2 ^ 32 ∧
    (reduce_app_sup heap_ex (new_term APP 0 10) (new_term SUP 0 12)).2 =
      new_term SUP 0 (20 + 3) ∧
    (reduce_app_sup heap_ex (new_term APP 0 10) (new_term SUP 0 12)).1.end_ = 20 + 9 :=
  have h := reduce_app_sup_spec heap_ex
    (reduce_app_sup heap_ex (new_term APP 0 10) (new_term SUP 0 12)).1
    (new_term APP 0 10) (new_term SUP 0 12)
    (reduce_app_sup heap_ex (new_term APP 0 10) (new_term SUP 0 12)).2 20
    rfl (by decide) rfl
  ⟨rfl, by decide, h.1, h.2.2.2.2.1⟩

/-- C2: on a heap with frontier `e`, `e + 9 < 2^32`, for a duplicator at `d`
and a lambda at `l` with `d + 1 < e`, `l + 1 < e` and `l` not in `{d, d + 1}`,
`reduce_dup_lam` sets `end` to `e + 9`; cells `e`, `e + 1` hold `SUB` and
`e + 2` the old body (old cell `l + 1`); `e + 3` holds `SUB`, `e + 4` holds
`DP0(e)`; `e + 5` holds `SUB`, `e + 6` holds `DP1(e)`; `e + 7` holds
`VAR(e + 3)`, `e + 8` holds `VAR(e + 5)`; cell `d` holds `LAM(e + 3)`, cell
`d + 1` holds `LAM(e + 5)`, cell `l` holds `SUP(e + 7)`; all created terms
have label 0 and every other cell is unchanged.  The result is `LAM(e + 3)`
for a `DP0` and `LAM(e + 5)` for a `DP1`. -/
theorem reduce_dup_lam_spec (heap heap1 : Heap) (dup lam ret e d l : Nat)
    (he : heap.end_ = e) (hlt : e + 9 < 2 ^ 32)
    (hd : get_loc dup = d) (hl : get_loc lam = l)
    (hde : d + 1 < e) (hle : l + 1 < e) (hld : l ≠ d) (hld1 : l ≠ d + 1)
    (hrun : reduce_dup_lam heap dup lam = (heap1, ret)) :
    heap1.end_ = e + 9 ∧
    got heap1 e = new_term SUB 0 0 ∧
    got heap1 (e + 1) = new_term SUB 0 0 ∧
    got heap1 (e + 2) = got heap (l + 1) ∧
    got heap1 (e + 3) = new_term SUB 0 0 ∧
    got heap1 (e + 4) = new_term DP0 0 e ∧
    got heap1 (e + 5) = new_term SUB 0 0 ∧
    got heap1 (e + 6) = new_term DP1 0 e ∧
    got heap1 (e + 7) = new_term VAR 0 (e + 3) ∧
    got heap1 (e + 8) = new_term VAR 0 (e + 5) ∧
    got heap1 d = new_term LAM 0 (e + 3) ∧
    got heap1 (d + 1) = new_term LAM 0 (e + 5) ∧
    got heap1 l = new_term SUP 0 (e + 7) ∧
    (∀ t ∈ [new_term SUB 0 0, new_term DP0 0 e, new_term DP1 0 e, new_term VAR 0 (e + 3),
        new_term VAR 0 (e + 5), new_term LAM 0 (e + 3), new_term LAM 0 (e + 5),
        new_term SUP 0 (e + 7)], get_lab t = 0) ∧
    (∀ i, i < e ∨ e + 9 ≤ i → i ≠ d → i ≠ d + 1 → i ≠ l → got heap1 i = got heap i) ∧
    (get_tag dup = DP0 → ret = new_term LAM 0 (e + 3)) ∧
    (get_tag dup = DP1 → ret = new_term LAM 0 (e + 5)) := by
  subst he hd hl
  have hrun1 := congrArg Prod.fst hrun
  have hrun2 := congrArg Prod.snd hrun
  simp (disch := omega) only [reduce_dup_lam, inc_itr, alloc_node, u32_of_lt, u64_of_lt,
    u32_get_loc, Nat.add_assoc, Nat.reduceAdd, Nat.add_zero] at hrun1 hrun2
  subst hrun1
  refine ⟨rfl, ?_, ?_, ?_, ?_, ?_, ?_, ?_, ?_, ?_, ?_, ?_, ?_, ?_, ?_, ?_, ?_⟩
  iterate 12 (simp (disch := omega) only [got_set_ne, got_set_eq]; try rfl)
  · intro t ht
    simp only [List.mem_cons, List.mem_singleton, List.not_mem_nil, or_false] at ht
    rcases ht with h | h | h | h | h | h | h | h <;> subst h <;>
      exact get_lab_new_term_zero _ _ (by decide) (by omega)
  · intro i hi h1 h2 h3
    simp (disch := omega) only [got_set_ne]
    rfl
  · intro h
    rw [← hrun2]
    simp (disch := omega) only [h, if_true, Nat.add_zero, u32_get_loc, got_set_ne, got_set_eq]
  · intro h
    rw [← hrun2]
    have h01 : ¬ (DP1 = DP0) := by decide
    simp (disch := omega) only [h, h01, if_false, u32_of_lt, got_set_ne, got_set_eq]

theorem reduce_dup_lam_spec_witness :
    heap_ex.end_ = 20 ∧ 20 + 9 < 2 ^ 32 ∧ 16 + 1 < 20 ∧ 14 + 1 < 20 ∧ 14 ≠ 16 ∧
    14 ≠ 16 + 1 ∧
    (reduce_dup_lam heap_ex (new_term DP0 0 16) (new_term LAM 0 14)).1.end_ = 20 + 9 ∧
    (reduce_dup_lam heap_ex (new_term DP0 0 16) (new_term LAM 0 14)).2 =
      new_term LAM 0 (20 + 3) :=
  have h := reduce_dup_lam_spec heap_ex
    (reduce_dup_lam heap_ex (new_term DP0 0 16) (new_term LAM 0 14)).1
    (new_term DP0 0 16) (new_term LAM 0 14)
    (reduce_dup_lam heap_ex (new_term DP0 0 16) (new_term LAM 0 14)).2 20 16 14
    rfl (by decide) (by decide) (by decide) (by decide) (by decide) (by decide)
    (by decide) rfl
  ⟨rfl, by decide, by decide, by decide, by decide, by decide, h.1,
    h.2.2.2.2.2.2.2.2.2.2.2.2.2.2.2.1 (by decide)⟩

/-! ## One loop pass of `reduce` -/

/-- Case analysis on one pass of the loop of `reduce`, one hypothesis per
path through its nested `switch` statements. -/
theorem reduce_iter_cases {P : Step → Prop} (heap : Heap) (spos next : Nat)
    (happ : get_tag next = APP →
      P (.go none (stk_set heap spos next) (u32 (spos + 1))
        (got heap (u32 (get_loc next + 0)))))
    (hpush : get_tag next = DP0 ∨ get_tag next = DP1 →
      get_tag (got heap (get_key next)) = SUB →
      P (.go none (stk_set heap spos next) (u32 (spos + 1))
        (got heap (u32 (get_loc next + 2)))))
    (hderef : get_tag next = DP0 ∨ get_tag next = DP1 ∨ get_tag next = VAR →
      get_tag (got heap (get_key next)) ≠ SUB →
      P (.go none heap spos (got heap (get_key next))))
    (hvar : get_tag next = VAR → get_tag (got heap (get_key next)) = SUB →
      P (reduce_exit heap spos next))
    (hempty : get_tag next ≠ APP → get_tag next ≠ DP0 → get_tag next ≠ DP1 →
      get_tag next ≠ VAR → spos = 0 → P (reduce_exit heap spos next))
    (happ_era : spos ≠ 0 → get_tag (heap.stk (spos - 1)) = APP → get_tag next = ERA →
      P (reduce_fire .APP_ERA (reduce_app_era heap (heap.stk (spos - 1)) next) (spos - 1)))
    (happ_lam : spos ≠ 0 → get_tag (heap.stk (spos - 1)) = APP → get_tag next = LAM →
      P (reduce_fire .APP_LAM (reduce_app_lam heap (heap.stk (spos - 1)) next) (spos - 1)))
    (happ_sup : spos ≠ 0 → get_tag (heap.stk (spos - 1)) = APP → get_tag next = SUP →
      P (reduce_fire .APP_SUP (reduce_app_sup heap (heap.stk (spos - 1)) next) (spos - 1)))
    (hdup_era : spos ≠ 0 →
      get_tag (heap.stk (spos - 1)) = DP0 ∨ get_tag (heap.stk (spos - 1)) = DP1 →
      get_tag next = ERA →
      P (reduce_fire .DUP_ERA (reduce_dup_era heap (heap.stk (spos - 1)) next) (spos - 1)))
    (hdup_lam : spos ≠ 0 →
      get_tag (heap.stk (spos - 1)) = DP0 ∨ get_tag (heap.stk (spos - 1)) = DP1 →
      get_tag next = LAM →
      P (reduce_fire .DUP_LAM (reduce_dup_lam heap (heap.stk (spos - 1)) next) (spos - 1)))
    (hdup_sup : spos ≠ 0 →
      get_tag (heap.stk (spos - 1)) = DP0 ∨ get_tag (heap.stk (spos - 1)) = DP1 →
      get_tag next = SUP →
      P (reduce_fire .DUP_SUP (reduce_dup_sup heap (heap.stk (spos - 1)) next) (spos - 1)))
    (hstuck : get_tag next ≠ APP → get_tag next ≠ DP0 → get_tag next ≠ DP1 →
      get_tag next ≠ VAR → spos ≠ 0 →
      ¬ ((get_tag (heap.stk (spos - 1)) = APP ∨ get_tag (heap.stk (spos - 1)) = DP0 ∨
            get_tag (heap.stk (spos - 1)) = DP1) ∧
          (get_tag next = ERA ∨ get_tag next = LAM ∨ get_tag next = SUP)) →
      P (reduce_exit heap (spos - 1) next)) :
    P (reduce_iter heap spos next) := by
  unfold reduce_iter
  dsimp only
  by_cases h1 : get_tag next = APP
  · rw [if_pos h1]; exact happ h1
  rw [if_neg h1]
  by_cases h2 : get_tag next = DP0 ∨ get_tag next = DP1
  · rw [if_pos h2]
    by_cases h3 : get_tag (got heap (get_key next)) = SUB
    · rw [if_pos h3]; exact hpush h2 h3
    · rw [if_neg h3]
      exact hderef (h2.elim Or.inl (fun h => Or.inr (Or.inl h))) h3
  rw [if_neg h2]
  by_cases h4 : get_tag next = VAR
  · rw [if_pos h4]
    by_cases h3 : get_tag (got heap (get_key next)) = SUB
    · rw [if_pos h3]; exact hvar h4 h3
    · rw [if_neg h3]; exact hderef (Or.inr (Or.inr h4)) h3
  rw [if_neg h4]
  have h20 : get_tag next ≠ DP0 := fun h => h2 (Or.inl h)
  have h21 : get_tag next ≠ DP1 := fun h => h2 (Or.inr h)
  by_cases h5 : spos = 0
  · rw [if_pos h5]; exact hempty h1 h20 h21 h4 h5
  rw [if_neg h5]
  by_cases h6 : get_tag (heap.stk (spos - 1)) = APP
  · rw [if_pos h6]
    by_cases h7 : get_tag next = ERA
    · rw [if_pos h7]; exact happ_era h5 h6 h7
    rw [if_neg h7]
    by_cases h8 : get_tag next = LAM
    · rw [if_pos h8]; exact happ_lam h5 h6 h8
    rw [if_neg h8]
    by_cases h9 : get_tag next = SUP
    · rw [if_pos h9]; exact happ_sup h5 h6 h9
    rw [if_neg h9]
    exact hstuck h1 h20 h21 h4 h5 (fun hc => hc.2.elim h7 (fun h => h.elim h8 h9))
  rw [if_neg h6]
  by_cases h10 : get_tag (heap.stk (spos - 1)) = DP0 ∨ get_tag (heap.stk (spos - 1)) = DP1
  · rw [if_pos h10]
    by_cases h7 : get_tag next = ERA
    · rw [if_pos h7]; exact hdup_era h5 h10 h7
    rw [if_neg h7]
    by_cases h8 : get_tag next = LAM
    · rw [if_pos h8]; exact hdup_lam h5 h10 h8
    rw [if_neg h8]
    by_cases h9 : get_tag next = SUP
    · rw [if_pos h9]; exact hdup_sup h5 h10 h9
    rw [if_neg h9]
    exact hstuck h1 h20 h21 h4 h5 (fun hc => hc.2.elim h7 (fun h => h.elim h8 h9))
  rw [if_neg h10]
  exact hstuck h1 h20 h21 h4 h5 (fun hc => hc.1.elim h6 h10)

/-! ## Fuel -/

theorem reduce_loop_succ (fuel : Nat) :
    ∀ (heap : Heap) (spos next : Nat) (r : Run),
      reduce_loop fuel heap spos next = some r →
      reduce_loop (fuel + 1) heap spos next = some r := by
  induction fuel with
  | zero => intro heap spos next r h; simp [reduce_loop] at h
  | succ n ih =>
    intro heap spos next r h
    rw [reduce_loop] at h
    rw [reduce_loop]
    cases hstep : reduce_iter heap spos next with
    | stop heap1 term => rw [hstep] at h; exact h
    | go fired heap1 spos1 next1 =>
      rw [hstep] at h
      simp only [] at h ⊢
      cases hrec : reduce_loop n heap1 spos1 next1 with
      | none => rw [hrec] at h; simp at h
      | some r1 =>
        rw [hrec] at h
        rw [ih heap1 spos1 next1 r1 hrec]
        exact h

theorem reduce_loop_mono (fuel k : Nat) (heap : Heap) (spos next : Nat) (r : Run)
    (h : reduce_loop fuel heap spos next = some r) :
    reduce_loop (fuel + k) heap spos next = some r := by
  induction k with
  | zero => exact h
  | succ k ih => exact reduce_loop_succ (fuel + k) heap spos next r ih

theorem reduce_mono (fuel k : Nat) (heap : Heap) (term : Nat) (r : Run)
    (h : reduce fuel heap term = some r) : reduce (fuel + k) heap term = some r :=
  reduce_loop_mono fuel k heap 0 term r h

theorem normal_succ (fuel : Nat) :
    ∀ (heap : Heap) (term : Nat) (r : Run),
      normal fuel heap term = some r → normal (fuel + 1) heap term = some r := by
  induction fuel with
  | zero => intro heap term r h; simp [normal] at h
  | succ n ih =>
    intro heap term r h
    rw [normal] at h
    rw [normal]
    cases h0 : reduce n heap term with
    | none => rw [h0] at h; simp at h
    | some r0 =>
      rw [h0] at h
      rw [reduce_mono n 1 heap term r0 h0]
      dsimp only at h ⊢
      split_ifs at h ⊢
      · cases h1 : normal n r0.heap (got r0.heap (u32 (get_loc r0.term + 0))) with
        | none => rw [h1] at h; simp at h
        | some r1 =>
          rw [h1] at h
          rw [ih _ _ r1 h1]
          dsimp only at h ⊢
          cases h2 : normal n r1.heap (got r1.heap (u32 (get_loc r0.term + 1))) with
          | none => rw [h2] at h; simp at h
          | some r2 =>
            rw [h2] at h
            rw [ih _ _ r2 h2]
            exact h
      · cases h1 : normal n r0.heap (got r0.heap (u32 (get_loc r0.term + 1))) with
        | none => rw [h1] at h; simp at h
        | some r1 =>
          rw [h1] at h
          rw [ih _ _ r1 h1]
          exact h
      · cases h1 : normal n r0.heap (got r0.heap (u32 (get_loc r0.term + 0))) with
        | none => rw [h1] at h; simp at h
        | some r1 =>
          rw [h1] at h
          rw [ih _ _ r1 h1]
          dsimp only at h ⊢
          cases h2 : normal n r1.heap (got r1.heap (u32 (get_loc r0.term + 1))) with
          | none => rw [h2] at h; simp at h
          | some r2 =>
            rw [h2] at h
            rw [ih _ _ r2 h2]
            exact h
      · cases h1 : normal n r0.heap (got r0.heap (u32 (get_loc r0.term + 2))) with
        | none => rw [h1] at h; simp at h
        | some r1 =>
          rw [h1] at h
          rw [ih _ _ r1 h1]
          exact h
      · cases h1 : normal n r0.heap (got r0.heap (u32 (get_loc r0.term + 2))) with
        | none => rw [h1] at h; simp at h
        | some r1 =>
          rw [h1] at h
          rw [ih _ _ r1 h1]
          exact h
      · exact h

theorem normal_mono (fuel k : Nat) (heap : Heap) (term : Nat) (r : Run)
    (h : normal fuel heap term = some r) : normal (fuel + k) heap term = some r := by
  induction k with
  | zero => exact h
  | succ k ih => exact normal_succ (fuel + k) heap term r ih

/-! ## The interaction counter (C7) -/

theorem reduce_exit_counts (heap : Heap) (spos next : Nat) :
    (reduce_exit heap spos next).counts heap := by
  unfold reduce_exit
  dsimp only
  split_ifs <;> rfl

theorem rule_itr (heap : Heap) (a b : Nat) :
    (reduce_app_era heap a b).1.itr = u64 (heap.itr + 1) ∧
    (reduce_app_lam heap a b).1.itr = u64 (heap.itr + 1) ∧
    (reduce_app_sup heap a b).1.itr = u64 (heap.itr + 1) ∧
    (reduce_dup_era heap a b).1.itr = u64 (heap.itr + 1) ∧
    (reduce_dup_lam heap a b).1.itr = u64 (heap.itr + 1) ∧
    (reduce_dup_sup heap a b).1.itr = u64 (heap.itr + 1) :=
  ⟨rfl, rfl, rfl, rfl, rfl, rfl⟩

theorem reduce_iter_counts (heap : Heap) (spos next : Nat) (hi : heap.itr < 2 ^ 64) :
    (reduce_iter heap spos next).counts heap := by
  have h0 : heap.itr = u64 (heap.itr + 0) := (u64_of_lt hi).symm
  apply reduce_iter_cases heap spos next
  · intro _; exact h0
  · intro _ _; exact h0
  · intro _ _; exact h0
  · intro _ _; exact reduce_exit_counts heap spos next
  · intro _ _ _ _ _; exact reduce_exit_counts heap spos next
  · intro _ _ _; exact (rule_itr heap _ _).1
  · intro _ _ _; exact (rule_itr heap _ _).2.1
  · intro _ _ _; exact (rule_itr heap _ _).2.2.1
  · intro _ _ _; exact (rule_itr heap _ _).2.2.2.1
  · intro _ _ _; exact (rule_itr heap _ _).2.2.2.2.1
  · intro _ _ _; exact (rule_itr heap _ _).2.2.2.2.2
  · intro _ _ _ _ _ _; exact reduce_exit_counts heap _ next

theorem u64_add_u64 (a b c : Nat) : u64 (u64 (a + b) + c) = u64 (a + (b + c)) := by
  unfold u64; omega

theorem u64_lt (a : Nat) : u64 a < 2 ^ 64 := by
  unfold u64; omega

theorem reduce_loop_counts (fuel : Nat) :
    ∀ (heap : Heap) (spos next : Nat) (r : Run), heap.itr < 2 ^ 64 →
      reduce_loop fuel heap spos next = some r →
      r.heap.itr = u64 (heap.itr + r.fired.length) := by
  induction fuel with
  | zero => intro heap spos next r _ h; simp [reduce_loop] at h
  | succ n ih =>
    intro heap spos next r hi h
    have hc := reduce_iter_counts heap spos next hi
    rw [reduce_loop] at h
    cases hstep : reduce_iter heap spos next with
    | stop heap1 term =>
      rw [hstep] at h hc
      simp only [Option.some.injEq] at h
      subst h
      simp only [Step.counts] at hc
      simp [hc, u64_of_lt hi]
    | go fired heap1 spos1 next1 =>
      rw [hstep] at h hc
      simp only [Step.counts] at hc
      simp only [] at h
      cases hrec : reduce_loop n heap1 spos1 next1 with
      | none => rw [hrec] at h; simp at h
      | some r1 =>
        rw [hrec] at h
        simp only [Option.some.injEq] at h
        subst h
        have hlt : heap1.itr < 2 ^ 64 := by rw [hc]; exact u64_lt _
        have := ih heap1 spos1 next1 r1 hlt hrec
        simp only [List.length_append]
        rw [this, hc, u64_add_u64]

theorem set_heap_itr (heap : Heap) (loc term : Nat) : (set heap loc term).itr = heap.itr := rfl

theorem normal_counts (fuel : Nat) :
    ∀ (heap : Heap) (term : Nat) (r : Run), heap.itr < 2 ^ 64 →
      normal fuel heap term = some r →
      r.heap.itr = u64 (heap.itr + r.fired.length) := by
  induction fuel with
  | zero => intro heap term r _ h; simp [normal] at h
  | succ n ih =>
    intro heap term r hi h
    rw [normal] at h
    cases h0 : reduce n heap term with
    | none => rw [h0] at h; simp at h
    | some r0 =>
      rw [h0] at h
      have c0 := reduce_loop_counts n heap 0 term r0 hi h0
      have l0 : r0.heap.itr < 2 ^ 64 := by rw [c0]; exact u64_lt _
      dsimp only at h
      split_ifs at h
      · cases h1 : normal n r0.heap (got r0.heap (u32 (get_loc r0.term + 0))) with
        | none => rw [h1] at h; simp at h
        | some r1 =>
          rw [h1] at h
          have c1 := ih _ _ r1 l0 h1
          have l1 : r1.heap.itr < 2 ^ 64 := by rw [c1]; exact u64_lt _
          dsimp only at h
          cases h2 : normal n r1.heap (got r1.heap (u32 (get_loc r0.term + 1))) with
          | none => rw [h2] at h; simp at h
          | some r2 =>
            rw [h2] at h
            have c2 := ih _ _ r2 l1 h2
            simp only [Option.some.injEq] at h
            subst h
            simp only [set_heap_itr, List.length_append]
            rw [c2, c1, c0, u64_add_u64, u64_add_u64, Nat.add_assoc]
      · cases h1 : normal n r0.heap (got r0.heap (u32 (get_loc r0.term + 1))) with
        | none => rw [h1] at h; simp at h
        | some r1 =>
          rw [h1] at h
          have c1 := ih _ _ r1 l0 h1
          simp only [Option.some.injEq] at h
          subst h
          simp only [set_heap_itr, List.length_append]
          rw [c1, c0, u64_add_u64]
      · cases h1 : normal n r0.heap (got r0.heap (u32 (get_loc r0.term + 0))) with
        | none => rw [h1] at h; simp at h
        | some r1 =>
          rw [h1] at h
          have c1 := ih _ _ r1 l0 h1
          have l1 : r1.heap.itr < 2 ^ 64 := by rw [c1]; exact u64_lt _
          dsimp only at h
          cases h2 : normal n r1.heap (got r1.heap (u32 (get_loc r0.term + 1))) with
          | none => rw [h2] at h; simp at h
          | some r2 =>
            rw [h2] at h
            have c2 := ih _ _ r2 l1 h2
            simp only [Option.some.injEq] at h
            subst h
            simp only [set_heap_itr, List.length_append]
            rw [c2, c1, c0, u64_add_u64, u64_add_u64, Nat.add_assoc]
      · cases h1 : normal n r0.heap (got r0.heap (u32 (get_loc r0.term + 2))) with
        | none => rw [h1] at h; simp at h
        | some r1 =>
          rw [h1] at h
          have c1 := ih _ _ r1 l0 h1
          simp only [Option.some.injEq] at h
          subst h
          simp only [set_heap_itr, List.length_append]
          rw [c1, c0, u64_add_u64]
      · cases h1 : normal n r0.heap (got r0.heap (u32 (get_loc r0.term + 2))) with
        | none => rw [h1] at h; simp at h
        | some r1 =>
          rw [h1] at h
          have c1 := ih _ _ r1 l0 h1
          simp only [Option.some.injEq] at h
          subst h
          simp only [set_heap_itr, List.length_append]
          rw [c1, c0, u64_add_u64]
      · simp only [Option.some.injEq] at h
        subst h
        exact c0

/-- C7 (as amended): each of the six rules steps the 64-bit counter `itr`
exactly once, `itr' = (itr + 1) mod 2^64`; a terminating `reduce` or `normal`
run started with `itr < 2^64` ends with `itr' = (itr + n) mod 2^64`, where
`n` is the number of rule firings it performed; whenever `itr + n < 2^64`
(the counter does not wrap) `itr' = itr + n`, so `itr` does not decrease. -/
theorem itr_counts_firings :
    (∀ (heap : Heap) (a b : Nat),
      (reduce_app_era heap a b).1.itr = u64 (heap.itr + 1) ∧
      (reduce_app_lam heap a b).1.itr = u64 (heap.itr + 1) ∧
      (reduce_app_sup heap a b).1.itr = u64 (heap.itr + 1) ∧
      (reduce_dup_era heap a b).1.itr = u64 (heap.itr + 1) ∧
      (reduce_dup_lam heap a b).1.itr = u64 (heap.itr + 1) ∧
      (reduce_dup_sup heap a b).1.itr = u64 (heap.itr + 1)) ∧
    (∀ (heap : Heap) (a b : Nat), heap.itr + 1 < 2 ^ 64 →
      (reduce_app_era heap a b).1.itr = heap.itr + 1 ∧
      (reduce_app_lam heap a b).1.itr = heap.itr + 1 ∧
      (reduce_app_sup heap a b).1.itr = heap.itr + 1 ∧
      (reduce_dup_era heap a b).1.itr = heap.itr + 1 ∧
      (reduce_dup_lam heap a b).1.itr = heap.itr + 1 ∧
      (reduce_dup_sup heap a b).1.itr = heap.itr + 1) ∧
    (∀ (fuel : Nat) (heap : Heap) (term : Nat) (r : Run), heap.itr < 2 ^ 64 →
      reduce fuel heap term = some r →
      r.heap.itr = u64 (heap.itr + r.fired.length)) ∧
    (∀ (fuel : Nat) (heap : Heap) (term : Nat) (r : Run), heap.itr < 2 ^ 64 →
      normal fuel heap term = some r →
      r.heap.itr = u64 (heap.itr + r.fired.length)) ∧
    (∀ (fuel : Nat) (heap : Heap) (term : Nat) (r : Run),
      reduce fuel heap term = some r → heap.itr + r.fired.length < 2 ^ 64 →
      r.heap.itr = heap.itr + r.fired.length ∧ heap.itr ≤ r.heap.itr) ∧
    (∀ (fuel : Nat) (heap : Heap) (term : Nat) (r : Run),
      normal fuel heap term = some r → heap.itr + r.fired.length < 2 ^ 64 →
      r.heap.itr = heap.itr + r.fired.length ∧ heap.itr ≤ r.heap.itr) := by
  refine ⟨rule_itr, ?_, ?_, ?_, ?_, ?_⟩
  · intro heap a b hlt
    have h := rule_itr heap a b
    rw [u64_of_lt hlt] at h
    exact h
  · intro fuel heap term r hi hrun
    exact reduce_loop_counts fuel heap 0 term r hi hrun
  · intro fuel heap term r hi hrun
    exact normal_counts fuel heap term r hi hrun
  · intro fuel heap term r hrun hlt
    have h := reduce_loop_counts fuel heap 0 term r (by omega) hrun
    rw [u64_of_lt hlt] at h
    exact ⟨h, by omega⟩
  · intro fuel heap term r hrun hlt
    have h := normal_counts fuel heap term r (by omega) hrun
    rw [u64_of_lt hlt] at h
    exact ⟨h, by omega⟩

theorem itr_counts_firings_witness :
    ∃ r, normal 8 heap_ex (new_term APP 0 10) = some r ∧
      heap_ex.itr + r.fired.length < 2 ^ 64 ∧
      r.heap.itr = heap_ex.itr + r.fired.length ∧ heap_ex.itr ≤ r.heap.itr ∧
      r.fired = [Rule.APP_LAM] :=
  have hrun : normal 8 heap_ex (new_term APP 0 10) =
      some ((normal 8 heap_ex (new_term APP 0 10)).get (by decide)) :=
    (Option.some_get _).symm
  have h := itr_counts_firings.2.2.2.2.2 8 heap_ex (new_term APP 0 10) _ hrun (by decide)
  ⟨_, hrun, by decide, h.1, h.2, by decide⟩

/-- C7 as stated fails when the counter wraps: from `itr = 2^64 - 1` one
firing of `reduce_app_era`, and likewise a terminating `reduce` run that
fires one rule, leaves `itr = 0`, which is neither `itr + 1` nor at least
the old value. -/
theorem itr_wraps_counterexample :
    heap_wrap.itr = 2 ^ 64 - 1 ∧
    (reduce_app_era heap_wrap (new_term APP 0 10) (new_term ERA 0 0)).1.itr = 0 ∧
    ¬ ((reduce_app_era heap_wrap (new_term APP 0 10) (new_term ERA 0 0)).1.itr =
        heap_wrap.itr + 1) ∧
    ¬ (heap_wrap.itr ≤
        (reduce_app_era heap_wrap (new_term APP 0 10) (new_term ERA 0 0)).1.itr) ∧
    (reduce 4 heap_wrap (new_term APP 0 10)).map (fun r => (r.heap.itr, r.fired)) =
      some (0, [Rule.APP_LAM]) := by
  decide

/-! ## The result of `reduce` (C8) -/

theorem stack_ok_push (heap : Heap) (spos next : Nat) (hs : stack_ok heap spos)
    (hn : get_tag next = APP ∨ get_tag next = DP0 ∨ get_tag next = DP1) :
    stack_ok (stk_set heap spos next) (u32 (spos + 1)) := by
  intro i hi
  have hle : i < spos + 1 := lt_of_lt_of_le hi (Nat.mod_le _ _)
  by_cases heq : i = spos
  · simpa [stk_set, heq] using hn
  · have := hs i (by omega)
    simpa [stk_set, heq] using this

theorem stack_ok_pop (heap : Heap) (spos : Nat) (hs : stack_ok heap spos) :
    stack_ok heap (spos - 1) :=
  fun i hi => hs i (by omega)

theorem stack_ok_congr (heap heap1 : Heap) (spos : Nat) (he : heap1.stk = heap.stk)
    (hs : stack_ok heap spos) : stack_ok heap1 spos := by
  intro i hi
  rw [he]
  exact hs i hi

theorem set_stk (heap : Heap) (loc term : Nat) : (set heap loc term).stk = heap.stk := rfl

theorem alloc_node_stk (heap : Heap) (n : Nat) : (alloc_node heap n).1.stk = heap.stk := rfl

theorem inc_itr_stk (heap : Heap) : (inc_itr heap).1.stk = heap.stk := rfl

theorem rule_stk (heap : Heap) (a b : Nat) :
    (reduce_app_era heap a b).1.stk = heap.stk ∧
    (reduce_app_lam heap a b).1.stk = heap.stk ∧
    (reduce_app_sup heap a b).1.stk = heap.stk ∧
    (reduce_dup_era heap a b).1.stk = heap.stk ∧
    (reduce_dup_lam heap a b).1.stk = heap.stk ∧
    (reduce_dup_sup heap a b).1.stk = heap.stk := by
  refine ⟨rfl, rfl, ?_, rfl, ?_, rfl⟩
  · simp only [reduce_app_sup, set_stk, alloc_node_stk, inc_itr_stk]
  · simp only [reduce_dup_lam, set_stk, alloc_node_stk, inc_itr_stk]

theorem reduce_exit_zero (heap : Heap) (next : Nat) :
    reduce_exit heap 0 next = .stop heap next := by
  simp [reduce_exit]

theorem reduce_exit_pos (heap : Heap) (spos next : Nat) (hs : spos ≠ 0) :
    ∃ heap1, reduce_exit heap spos next = .stop heap1 (heap.stk 0) ∧
      heap1.stk = heap.stk := by
  unfold reduce_exit
  rw [if_neg hs]
  dsimp only
  split_ifs <;> exact ⟨_, rfl, rfl⟩

theorem reduce_exit_sound (heap : Heap) (spos next : Nat) (hs : stack_ok heap spos)
    (h1 : get_tag next ≠ APP) (h2 : get_tag next ≠ DP0) (h3 : get_tag next ≠ DP1)
    (h4 : get_tag next = VAR → get_tag (got heap (get_key next)) = SUB) :
    (reduce_exit heap spos next).sound := by
  by_cases h0 : spos = 0
  · subst h0
    rw [reduce_exit_zero]
    show is_reduce_result heap next
    unfold is_reduce_result is_whnf
    by_cases hv : get_tag next = VAR
    · exact Or.inl (Or.inr (Or.inr (Or.inr ⟨hv, h4 hv⟩)))
    · simp only [APP, DP0, DP1, VAR, ERA, LAM, SUP, SUB] at *
      omega
  · obtain ⟨heap1, he, hstk⟩ := reduce_exit_pos heap spos next h0
    rw [he]
    show is_reduce_result heap1 (heap.stk 0)
    exact Or.inr (Or.inl ⟨hs 0 (by omega), by rw [hstk]⟩)

theorem reduce_iter_sound (heap : Heap) (spos next : Nat) (hs : stack_ok heap spos) :
    (reduce_iter heap spos next).sound := by
  have hpop := stack_ok_pop heap spos hs
  have hr := rule_stk heap (heap.stk (spos - 1)) next
  apply reduce_iter_cases heap spos next
  · intro h; exact stack_ok_push heap spos next hs (Or.inl h)
  · intro h _; exact stack_ok_push heap spos next hs (Or.inr h)
  · intro _ _; exact hs
  · intro h hb
    refine reduce_exit_sound heap spos next hs ?_ ?_ ?_ (fun _ => hb) <;>
      simp [h, VAR, APP, DP0, DP1]
  · intro h1 h2 h3 h4 _
    exact reduce_exit_sound heap spos next hs h1 h2 h3 (fun h => absurd h h4)
  · intro _ _ _; exact stack_ok_congr heap _ _ hr.1 hpop
  · intro _ _ _; exact stack_ok_congr heap _ _ hr.2.1 hpop
  · intro _ _ _; exact stack_ok_congr heap _ _ hr.2.2.1 hpop
  · intro _ _ _; exact stack_ok_congr heap _ _ hr.2.2.2.1 hpop
  · intro _ _ _; exact stack_ok_congr heap _ _ hr.2.2.2.2.1 hpop
  · intro _ _ _; exact stack_ok_congr heap _ _ hr.2.2.2.2.2 hpop
  · intro h1 h2 h3 h4 _ _
    exact reduce_exit_sound heap (spos - 1) next hpop h1 h2 h3 (fun h => absurd h h4)

theorem tag_consts_ne :
    DP0 ≠ APP ∧ DP1 ≠ APP ∧ VAR ≠ APP ∧ VAR ≠ DP0 ∧ VAR ≠ DP1 ∧
    ERA ≠ APP ∧ ERA ≠ DP0 ∧ ERA ≠ DP1 ∧ ERA ≠ VAR ∧
    LAM ≠ APP ∧ LAM ≠ DP0 ∧ LAM ≠ DP1 ∧ LAM ≠ VAR ∧ LAM ≠ ERA ∧
    SUP ≠ APP ∧ SUP ≠ DP0 ∧ SUP ≠ DP1 ∧ SUP ≠ VAR ∧ SUP ≠ ERA ∧ SUP ≠ LAM := by
  decide

/-- A passive candidate: a term that reaches the `default` case of the outer
`switch` of `reduce`. -/
theorem passive_of_tag (next : Nat)
    (h : get_tag next = ERA ∨ get_tag next = LAM ∨ get_tag next = SUP) :
    get_tag next ≠ APP ∧ ¬ (get_tag next = DP0 ∨ get_tag next = DP1) ∧
      get_tag next ≠ VAR := by
  rcases h with h | h | h <;> rw [h] <;> decide

theorem reduce_iter_app (heap : Heap) (spos next : Nat) (ht : get_tag next = APP) :
    reduce_iter heap spos next =
      .go none (stk_set heap spos next) (u32 (spos + 1))
        (got heap (u32 (get_loc next + 0))) := by
  unfold reduce_iter
  dsimp only
  rw [if_pos ht]

theorem reduce_iter_dup_push (heap : Heap) (spos next : Nat)
    (ht : get_tag next = DP0 ∨ get_tag next = DP1)
    (hs : get_tag (got heap (get_key next)) = SUB) :
    reduce_iter heap spos next =
      .go none (stk_set heap spos next) (u32 (spos + 1))
        (got heap (u32 (get_loc next + 2))) := by
  have h1 : ¬ get_tag next = APP := by rcases ht with h | h <;> rw [h] <;> decide
  unfold reduce_iter
  dsimp only
  rw [if_neg h1, if_pos ht, if_pos hs]

theorem reduce_iter_dup_deref (heap : Heap) (spos next : Nat)
    (ht : get_tag next = DP0 ∨ get_tag next = DP1)
    (hs : get_tag (got heap (get_key next)) ≠ SUB) :
    reduce_iter heap spos next = .go none heap spos (got heap (get_key next)) := by
  have h1 : ¬ get_tag next = APP := by rcases ht with h | h <;> rw [h] <;> decide
  unfold reduce_iter
  dsimp only
  rw [if_neg h1, if_pos ht, if_neg hs]

theorem reduce_iter_var_stop (heap : Heap) (spos next : Nat) (ht : get_tag next = VAR)
    (hs : get_tag (got heap (get_key next)) = SUB) :
    reduce_iter heap spos next = reduce_exit heap spos next := by
  have h1 : ¬ get_tag next = APP := by rw [ht]; decide
  have h2 : ¬ (get_tag next = DP0 ∨ get_tag next = DP1) := by rw [ht]; decide
  unfold reduce_iter
  dsimp only
  rw [if_neg h1, if_neg h2, if_pos ht, if_pos hs]

theorem reduce_iter_var_deref (heap : Heap) (spos next : Nat) (ht : get_tag next = VAR)
    (hs : get_tag (got heap (get_key next)) ≠ SUB) :
    reduce_iter heap spos next = .go none heap spos (got heap (get_key next)) := by
  have h1 : ¬ get_tag next = APP := by rw [ht]; decide
  have h2 : ¬ (get_tag next = DP0 ∨ get_tag next = DP1) := by rw [ht]; decide
  unfold reduce_iter
  dsimp only
  rw [if_neg h1, if_neg h2, if_pos ht, if_neg hs]

theorem reduce_iter_passive_empty (heap : Heap) (next : Nat)
    (h1 : get_tag next ≠ APP) (h2 : ¬ (get_tag next = DP0 ∨ get_tag next = DP1))
    (h3 : get_tag next ≠ VAR) :
    reduce_iter heap 0 next = .stop heap next := by
  unfold reduce_iter
  dsimp only
  rw [if_neg h1, if_neg h2, if_neg h3, if_pos rfl]
  simp [reduce_exit]

theorem reduce_iter_app_era (heap : Heap) (spos next : Nat) (hs : spos ≠ 0)
    (hp : get_tag (heap.stk (spos - 1)) = APP) (ht : get_tag next = ERA) :
    reduce_iter heap spos next =
      .go (some .APP_ERA) (reduce_app_era heap (heap.stk (spos - 1)) next).1 (spos - 1)
        (reduce_app_era heap (heap.stk (spos - 1)) next).2 := by
  obtain ⟨h1, h2, h3⟩ := passive_of_tag next (Or.inl ht)
  unfold reduce_iter
  dsimp only
  rw [if_neg h1, if_neg h2, if_neg h3, if_neg hs, if_pos hp, if_pos ht]
  rfl

theorem reduce_iter_app_lam (heap : Heap) (spos next : Nat) (hs : spos ≠ 0)
    (hp : get_tag (heap.stk (spos - 1)) = APP) (ht : get_tag next = LAM) :
    reduce_iter heap spos next =
      .go (some .APP_LAM) (reduce_app_lam heap (heap.stk (spos - 1)) next).1 (spos - 1)
        (reduce_app_lam heap (heap.stk (spos - 1)) next).2 := by
  obtain ⟨h1, h2, h3⟩ := passive_of_tag next (Or.inr (Or.inl ht))
  have h4 : ¬ get_tag next = ERA := by rw [ht]; decide
  unfold reduce_iter
  dsimp only
  rw [if_neg h1, if_neg h2, if_neg h3, if_neg hs, if_pos hp, if_neg h4, if_pos ht]
  rfl

theorem reduce_iter_app_sup (heap : Heap) (spos next : Nat) (hs : spos ≠ 0)
    (hp : get_tag (heap.stk (spos - 1)) = APP) (ht : get_tag next = SUP) :
    reduce_iter heap spos next =
      .go (some .APP_SUP) (reduce_app_sup heap (heap.stk (spos - 1)) next).1 (spos - 1)
        (reduce_app_sup heap (heap.stk (spos - 1)) next).2 := by
  obtain ⟨h1, h2, h3⟩ := passive_of_tag next (Or.inr (Or.inr ht))
  have h4 : ¬ get_tag next = ERA := by rw [ht]; decide
  have h5 : ¬ get_tag next = LAM := by rw [ht]; decide
  unfold reduce_iter
  dsimp only
  rw [if_neg h1, if_neg h2, if_neg h3, if_neg hs, if_pos hp, if_neg h4, if_neg h5,
    if_pos ht]
  rfl

theorem dup_host_not_app (prev : Nat) (hp : get_tag prev = DP0 ∨ get_tag prev = DP1) :
    ¬ get_tag prev = APP := by
  rcases hp with h | h <;> rw [h] <;> decide

theorem reduce_iter_dup_era (heap : Heap) (spos next : Nat) (hs : spos ≠ 0)
    (hp : get_tag (heap.stk (spos - 1)) = DP0 ∨ get_tag (heap.stk (spos - 1)) = DP1)
    (ht : get_tag next = ERA) :
    reduce_iter heap spos next =
      .go (some .DUP_ERA) (reduce_dup_era heap (heap.stk (spos - 1)) next).1 (spos - 1)
        (reduce_dup_era heap (heap.stk (spos - 1)) next).2 := by
  obtain ⟨h1, h2, h3⟩ := passive_of_tag next (Or.inl ht)
  have h0 := dup_host_not_app _ hp
  unfold reduce_iter
  dsimp only
  rw [if_neg h1, if_neg h2, if_neg h3, if_neg hs, if_neg h0, if_pos hp, if_pos ht]
  rfl

theorem reduce_iter_dup_lam (heap : Heap) (spos next : Nat) (hs : spos ≠ 0)
    (hp : get_tag (heap.stk (spos - 1)) = DP0 ∨ get_tag (heap.stk (spos - 1)) = DP1)
    (ht : get_tag next = LAM) :
    reduce_iter heap spos next =
      .go (some .DUP_LAM) (reduce_dup_lam heap (heap.stk (spos - 1)) next).1 (spos - 1)
        (reduce_dup_lam heap (heap.stk (spos - 1)) next).2 := by
  obtain ⟨h1, h2, h3⟩ := passive_of_tag next (Or.inr (Or.inl ht))
  have h0 := dup_host_not_app _ hp
  have h4 : ¬ get_tag next = ERA := by rw [ht]; decide
  unfold reduce_iter
  dsimp only
  rw [if_neg h1, if_neg h2, if_neg h3, if_neg hs, if_neg h0, if_pos hp, if_neg h4,
    if_pos ht]
  rfl

theorem reduce_iter_dup_sup (heap : Heap) (spos next : Nat) (hs : spos ≠ 0)
    (hp : get_tag (heap.stk (spos - 1)) = DP0 ∨ get_tag (heap.stk (spos - 1)) = DP1)
    (ht : get_tag next = SUP) :
    reduce_iter heap spos next =
      .go (some .DUP_SUP) (reduce_dup_sup heap (heap.stk (spos - 1)) next).1 (spos - 1)
        (reduce_dup_sup heap (heap.stk (spos - 1)) next).2 := by
  obtain ⟨h1, h2, h3⟩ := passive_of_tag next (Or.inr (Or.inr ht))
  have h0 := dup_host_not_app _ hp
  have h4 : ¬ get_tag next = ERA := by rw [ht]; decide
  have h5 : ¬ get_tag next = LAM := by rw [ht]; decide
  unfold reduce_iter
  dsimp only
  rw [if_neg h1, if_neg h2, if_neg h3, if_neg hs, if_neg h0, if_pos hp, if_neg h4,
    if_neg h5, if_pos ht]
  rfl

theorem reduce_iter_app_stuck (heap : Heap) (spos next : Nat) (hs : spos ≠ 0)
    (hp : get_tag (heap.stk (spos - 1)) = APP)
    (h1 : get_tag next ≠ APP) (h2 : ¬ (get_tag next = DP0 ∨ get_tag next = DP1))
    (h3 : get_tag next ≠ VAR) (h4 : get_tag next ≠ ERA) (h5 : get_tag next ≠ LAM)
    (h6 : get_tag next ≠ SUP) :
    reduce_iter heap spos next = reduce_exit heap (spos - 1) next := by
  unfold reduce_iter
  dsimp only
  rw [if_neg h1, if_neg h2, if_neg h3, if_neg hs, if_pos hp, if_neg h4, if_neg h5,
    if_neg h6]

/-! ## Unfolding the loop -/

theorem reduce_loop_stop (fuel : Nat) (heap : Heap) (spos next : Nat) (heap1 : Heap)
    (term : Nat) (hstep : reduce_iter heap spos next = .stop heap1 term) :
    reduce_loop (fuel + 1) heap spos next = some ⟨heap1, term, []⟩ := by
  rw [reduce_loop, hstep]

theorem reduce_loop_go (fuel : Nat) (heap : Heap) (spos next : Nat) (fired : Option Rule)
    (heap1 : Heap) (spos1 next1 : Nat)
    (hstep : reduce_iter heap spos next = .go fired heap1 spos1 next1) :
    reduce_loop (fuel + 1) heap spos next =
      (reduce_loop fuel heap1 spos1 next1).map
        (fun r => ⟨r.heap, r.term, fired.toList ++ r.fired⟩) := by
  rw [reduce_loop, hstep]
  dsimp only
  cases reduce_loop fuel heap1 spos1 next1 <;> rfl

/-! ## Unfolding `normal` -/

theorem normal_succ_eq (fuel : Nat) (heap : Heap) (term : Nat) :
    normal (fuel + 1) heap term =
      (reduce fuel heap term).bind (normal_body (normal fuel)) := by
  rw [normal]
  cases reduce fuel heap term with
  | none => rfl
  | some r0 => rfl

theorem normal_body_leaf (rec : Heap → Nat → Option Run) (r0 : Run)
    (h1 : get_tag r0.term ≠ APP) (h2 : get_tag r0.term ≠ LAM) (h3 : get_tag r0.term ≠ SUP)
    (h4 : get_tag r0.term ≠ DP0) (h5 : get_tag r0.term ≠ DP1) :
    normal_body rec r0 = some r0 := by
  unfold normal_body
  dsimp only
  rw [if_neg h1, if_neg h2, if_neg h3, if_neg h4, if_neg h5]

theorem normal_body_term (rec : Heap → Nat → Option Run) (r0 r : Run)
    (h : normal_body rec r0 = some r) : r.term = r0.term := by
  unfold normal_body at h
  dsimp only at h
  split_ifs at h
  all_goals first
    | (simp only [Option.some.injEq] at h; subst h; rfl)
    | (split at h
       · simp at h
       · first
         | (simp only [Option.some.injEq] at h; subst h; rfl)
         | (split at h
            · simp at h
            · simp only [Option.some.injEq] at h; subst h; rfl))

theorem reduce_loop_go_none (fuel : Nat) (heap : Heap) (spos next : Nat)
    (heap1 : Heap) (spos1 next1 : Nat)
    (hstep : reduce_iter heap spos next = .go none heap1 spos1 next1) :
    reduce_loop (fuel + 1) heap spos next = reduce_loop fuel heap1 spos1 next1 := by
  rw [reduce_loop_go fuel heap spos next none heap1 spos1 next1 hstep]
  cases reduce_loop fuel heap1 spos1 next1 <;> rfl

theorem reduce_loop_det (f1 f2 : Nat) (heap : Heap) (spos next : Nat) (r1 r2 : Run)
    (h1 : reduce_loop f1 heap spos next = some r1)
    (h2 : reduce_loop f2 heap spos next = some r2) : r1 = r2 := by
  have e1 := reduce_loop_mono f1 f2 heap spos next r1 h1
  have e2 := reduce_loop_mono f2 f1 heap spos next r2 h2
  rw [Nat.add_comm] at e2
  rw [e1] at e2
  exact Option.some.inj e2

theorem normal_det (f1 f2 : Nat) (heap : Heap) (term : Nat) (r1 r2 : Run)
    (h1 : normal f1 heap term = some r1) (h2 : normal f2 heap term = some r2) :
    r1 = r2 := by
  have e1 := normal_mono f1 f2 heap term r1 h1
  have e2 := normal_mono f2 f1 heap term r2 h2
  rw [Nat.add_comm] at e2
  rw [e1] at e2
  exact Option.some.inj e2

theorem reduce_loop_go_some (fuel : Nat) (heap : Heap) (spos next : Nat)
    (fired : Option Rule) (heap1 : Heap) (spos1 next1 : Nat) (r : Run)
    (hstep : reduce_iter heap spos next = .go fired heap1 spos1 next1)
    (hrest : reduce_loop fuel heap1 spos1 next1 = some r) :
    reduce_loop (fuel + 1) heap spos next =
      some ⟨r.heap, r.term, fired.toList ++ r.fired⟩ := by
  rw [reduce_loop_go fuel heap spos next fired heap1 spos1 next1 hstep, hrest]
  rfl

theorem get_key_loc (t : Nat) :
    (get_tag t = VAR ∨ get_tag t = DP0 → get_key t = get_loc t) ∧
    (get_tag t = DP1 → get_key t = u32 (get_loc t + 1)) := by
  constructor
  · intro h
    have hk : get_key t = u32 (get_loc t + 0) := by
      rcases h with h | h <;> simp [get_key, h, VAR, DP0]
    rw [hk, u32_get_loc_add_zero]
  · intro h
    simp [get_key, h, VAR, DP0, DP1]

/-! ## `normal` returns what `reduce` returns (C11) -/

/-- C11: when `normal` terminates on `(heap, term)`, `reduce` terminates on
it too, the term `normal` returns is the term `reduce` returns, and when the
tag of that term is none of `APP`, `LAM`, `SUP`, `DP0`, `DP1` the final heap
(and the list of rules fired) of `normal` is that of `reduce`. -/
theorem normal_returns_reduce (fuel : Nat) (heap : Heap) (term : Nat) (r : Run)
    (hrun : normal fuel heap term = some r) :
    (∃ r0, reduce fuel heap term = some r0) ∧
    ∀ (fuel0 : Nat) (r0 : Run), reduce fuel0 heap term = some r0 →
      r.term = r0.term ∧
      (get_tag r0.term ≠ APP → get_tag r0.term ≠ LAM → get_tag r0.term ≠ SUP →
        get_tag r0.term ≠ DP0 → get_tag r0.term ≠ DP1 →
        r.heap = r0.heap ∧ r.fired = r0.fired) := by
  cases fuel with
  | zero => simp [normal] at hrun
  | succ n =>
    rw [normal_succ_eq] at hrun
    cases h0 : reduce n heap term with
    | none => rw [h0] at hrun; simp at hrun
    | some r1 =>
      rw [h0] at hrun
      simp only [Option.some_bind] at hrun
      refine ⟨⟨r1, reduce_mono n 1 heap term r1 h0⟩, ?_⟩
      intro fuel0 r0 hred
      have heq : r0 = r1 := reduce_loop_det fuel0 n heap 0 term r0 r1 hred h0
      subst heq
      refine ⟨normal_body_term _ _ _ hrun, ?_⟩
      intro h1 h2 h3 h4 h5
      rw [normal_body_leaf _ _ h1 h2 h3 h4 h5] at hrun
      simp only [Option.some.injEq] at hrun
      subst hrun
      exact ⟨rfl, rfl⟩

theorem normal_returns_reduce_witness :
    ∃ r r0, normal 8 heap_ex (new_term APP 0 10) = some r ∧
      reduce 8 heap_ex (new_term APP 0 10) = some r0 ∧ r.term = r0.term ∧
      get_tag r0.term = ERA :=
  have hrun : normal 8 heap_ex (new_term APP 0 10) =
      some ((normal 8 heap_ex (new_term APP 0 10)).get (by decide)) :=
    (Option.some_get _).symm
  have hred : reduce 8 heap_ex (new_term APP 0 10) =
      some ((reduce 8 heap_ex (new_term APP 0 10)).get (by decide)) :=
    (Option.some_get _).symm
  ⟨_, _, hrun, hred,
    ((normal_returns_reduce 8 heap_ex (new_term APP 0 10) _ hrun).2 8 _ hred).1,
    by decide⟩

/-! ## Dereference steps (C20) -/

theorem reduce_eq_iff_of_succ (heap : Heap) (t s : Nat)
    (h : ∀ fuel, reduce (fuel + 1) heap t = reduce fuel heap s) (r : Run) :
    (∃ fuel, reduce fuel heap t = some r) ↔ (∃ fuel, reduce fuel heap s = some r) := by
  constructor
  · rintro ⟨fuel, hf⟩
    cases fuel with
    | zero => simp [reduce, reduce_loop] at hf
    | succ n => exact ⟨n, by rw [← h n]; exact hf⟩
  · rintro ⟨fuel, hf⟩
    exact ⟨fuel + 1, by rw [h fuel]; exact hf⟩

/-- C20: when cell `k` holds a term `s` whose tag is not `SUB`, `reduce` of a
`VAR` or `DP0` term of location `k` runs as `reduce` of `s` after one loop
pass that changes nothing: the two return the same run (term, heap, rules
fired) or both fail to return; likewise for a `DP1` term of location `k` when
cell `k + 1` holds such an `s`.  When the binder cell of a `VAR` term holds
`SUB`, `reduce` returns that term at once and changes nothing. -/
theorem reduce_deref (heap : Heap) (t : Nat) :
    (get_tag t = VAR ∨ get_tag t = DP0 → get_tag (got heap (get_loc t)) ≠ SUB →
      (∀ fuel, reduce (fuel + 1) heap t = reduce fuel heap (got heap (get_loc t))) ∧
      ∀ r, (∃ fuel, reduce fuel heap t = some r) ↔
        (∃ fuel, reduce fuel heap (got heap (get_loc t)) = some r)) ∧
    (get_tag t = DP1 → get_tag (got heap (u32 (get_loc t + 1))) ≠ SUB →
      (∀ fuel, reduce (fuel + 1) heap t =
        reduce fuel heap (got heap (u32 (get_loc t + 1)))) ∧
      ∀ r, (∃ fuel, reduce fuel heap t = some r) ↔
        (∃ fuel, reduce fuel heap (got heap (u32 (get_loc t + 1))) = some r)) ∧
    (get_tag t = VAR → get_tag (got heap (get_loc t)) = SUB →
      ∀ fuel, reduce (fuel + 1) heap t = some ⟨heap, t, []⟩) := by
  refine ⟨?_, ?_, ?_⟩
  · intro ht hs
    have hk : get_key t = get_loc t := (get_key_loc t).1 (ht.elim Or.inl Or.inr)
    have hstep : reduce_iter heap 0 t = .go none heap 0 (got heap (get_loc t)) := by
      rw [← hk] at hs ⊢
      rcases ht with ht | ht
      · exact reduce_iter_var_deref heap 0 t ht hs
      · exact reduce_iter_dup_deref heap 0 t (Or.inl ht) hs
    have hall : ∀ fuel, reduce (fuel + 1) heap t = reduce fuel heap (got heap (get_loc t)) :=
      fun fuel => reduce_loop_go_none fuel heap 0 t heap 0 _ hstep
    exact ⟨hall, reduce_eq_iff_of_succ heap t _ hall⟩
  · intro ht hs
    have hk : get_key t = u32 (get_loc t + 1) := (get_key_loc t).2 ht
    have hstep : reduce_iter heap 0 t =
        .go none heap 0 (got heap (u32 (get_loc t + 1))) := by
      rw [← hk] at hs ⊢
      exact reduce_iter_dup_deref heap 0 t (Or.inr ht) hs
    have hall : ∀ fuel, reduce (fuel + 1) heap t =
        reduce fuel heap (got heap (u32 (get_loc t + 1))) :=
      fun fuel => reduce_loop_go_none fuel heap 0 t heap 0 _ hstep
    exact ⟨hall, reduce_eq_iff_of_succ heap t _ hall⟩
  · intro ht hs fuel
    have hk : get_key t = get_loc t := (get_key_loc t).1 (Or.inl ht)
    rw [← hk] at hs
    have hstep : reduce_iter heap 0 t = .stop heap t := by
      rw [reduce_iter_var_stop heap 0 t ht hs, reduce_exit_zero]
    exact reduce_loop_stop fuel heap 0 t heap t hstep

theorem reduce_deref_witness :
    reduce 3 heap_ex (new_term VAR 0 13) = reduce 2 heap_ex (got heap_ex 13) ∧
    reduce 1 heap_ex (new_term VAR 0 14) = some ⟨heap_ex, new_term VAR 0 14, []⟩ :=
  ⟨((reduce_deref heap_ex (new_term VAR 0 13)).1 (Or.inl (by decide)) (by decide)).1 2,
   (reduce_deref heap_ex (new_term VAR 0 14)).2.2 (by decide) (by decide) 0⟩

/-! ## Ill-formed redex (C18) -/

theorem stk_set_stk_self (heap : Heap) (spos term : Nat) :
    (stk_set heap spos term).stk spos = term := by
  simp [stk_set]

theorem got_stk_set (heap : Heap) (spos term i : Nat) :
    got (stk_set heap spos term) i = got heap i := rfl

theorem u32_one : u32 (0 + 1) = 1 := by decide

/-- C18, what the code does: when cell `L` holds a term `x` whose tag is none
of `APP`, `DP0`, `DP1`, `VAR`, `ERA`, `LAM`, `SUP`, `reduce` of an `APP` term
of location `L` fires no rule and changes no arena cell, the frontier or
`itr`, but it returns `x`, the content of cell `L`, and not the host: the
host was popped before the redex test and the stack is empty at the exit. -/
theorem reduce_ill_formed_redex (fuel : Nat) (heap : Heap) (t : Nat)
    (ht : get_tag t = APP)
    (h1 : get_tag (got heap (get_loc t)) ≠ APP)
    (h2 : get_tag (got heap (get_loc t)) ≠ DP0)
    (h3 : get_tag (got heap (get_loc t)) ≠ DP1)
    (h4 : get_tag (got heap (get_loc t)) ≠ VAR)
    (h5 : get_tag (got heap (get_loc t)) ≠ ERA)
    (h6 : get_tag (got heap (get_loc t)) ≠ LAM)
    (h7 : get_tag (got heap (get_loc t)) ≠ SUP) :
    reduce (fuel + 2) heap t = some ⟨stk_set heap 0 t, got heap (get_loc t), []⟩ ∧
    got heap (get_loc t) ≠ t ∧
    (∀ i, got (stk_set heap 0 t) i = got heap i) ∧
    (stk_set heap 0 t).itr = heap.itr ∧ (stk_set heap 0 t).end_ = heap.end_ := by
  have hstep1 := reduce_iter_app heap 0 t ht
  rw [u32_get_loc_add_zero, u32_one] at hstep1
  have hp : get_tag ((stk_set heap 0 t).stk (1 - 1)) = APP := by
    rw [show 1 - 1 = 0 from rfl, stk_set_stk_self]; exact ht
  have hstep2 := reduce_iter_app_stuck (stk_set heap 0 t) 1 (got heap (get_loc t))
    (by decide) hp h1 (fun h => h.elim h2 h3) h4 h5 h6 h7
  rw [show 1 - 1 = 0 from rfl, reduce_exit_zero] at hstep2
  refine ⟨?_, ?_, fun _ => rfl, rfl, rfl⟩
  · unfold reduce
    rw [reduce_loop_go_none (fuel + 1) heap 0 t _ _ _ hstep1]
    exact reduce_loop_stop fuel _ 1 _ _ _ hstep2
  · intro he
    rw [he] at h1
    exact h1 ht

theorem reduce_ill_formed_redex_witness :
    reduce 2 heap_ex (new_term APP 0 14) =
      some ⟨stk_set heap_ex 0 (new_term APP 0 14), got heap_ex 14, []⟩ ∧
    got heap_ex 14 = new_term SUB 0 0 ∧ got heap_ex 14 ≠ new_term APP 0 14 :=
  have h := reduce_ill_formed_redex 0 heap_ex (new_term APP 0 14) (by decide) (by decide)
    (by decide) (by decide) (by decide) (by decide) (by decide) (by decide)
  ⟨h.1, by decide, h.2.1⟩

/-! ## Eraser application (C14) -/

/-- C14: on a heap holding an application node `A = [e, a]` with `e` an
`ERA`-tagged term and `a` any term, `normal` of an `APP` term of location `A`
terminates, returns `e`, fires exactly one rule (`APP_ERA`), steps `itr`
once, and changes no arena cell and not the frontier. -/
theorem normal_app_era (fuel : Nat) (heap : Heap) (t : Nat)
    (ht : get_tag t = APP) (he : get_tag (got heap (get_loc t)) = ERA) :
    ∃ r, normal (fuel + 4) heap t = some r ∧
      r.term = got heap (get_loc t) ∧ r.fired = [Rule.APP_ERA] ∧
      r.heap.itr = u64 (heap.itr + 1) ∧
      (heap.itr + 1 < 2 ^ 64 → r.heap.itr = heap.itr + 1) ∧
      (∀ i, got r.heap i = got heap i) ∧ r.heap.end_ = heap.end_ := by
  have hstep1 := reduce_iter_app heap 0 t ht
  rw [u32_get_loc_add_zero, u32_one] at hstep1
  have hp : get_tag ((stk_set heap 0 t).stk (1 - 1)) = APP := by
    rw [show 1 - 1 = 0 from rfl, stk_set_stk_self]; exact ht
  have hstep2 := reduce_iter_app_era (stk_set heap 0 t) 1 (got heap (get_loc t))
    (by decide) hp he
  obtain ⟨p1, p2, p3⟩ := passive_of_tag (got heap (get_loc t)) (Or.inl he)
  have hstep3 := reduce_iter_passive_empty
    (reduce_app_era (stk_set heap 0 t) ((stk_set heap 0 t).stk (1 - 1))
      (got heap (get_loc t))).1 (got heap (get_loc t)) p1 p2 p3
  have s3 := reduce_loop_stop fuel _ 0 _ _ _ hstep3
  have s2 := reduce_loop_go_some (fuel + 1) _ 1 _ _ _ _ _ _ hstep2 s3
  have hred : reduce (fuel + 3) heap t =
      some ⟨(reduce_app_era (stk_set heap 0 t) ((stk_set heap 0 t).stk (1 - 1))
        (got heap (get_loc t))).1, got heap (get_loc t), [Rule.APP_ERA]⟩ :=
    reduce_loop_go_some (fuel + 2) heap 0 t _ _ _ _ _ hstep1 s2
  refine ⟨⟨(reduce_app_era (stk_set heap 0 t) ((stk_set heap 0 t).stk (1 - 1))
        (got heap (get_loc t))).1, got heap (get_loc t), [Rule.APP_ERA]⟩,
    ?_, rfl, rfl, rfl, ?_, fun _ => rfl, rfl⟩
  · rw [normal_succ_eq, hred, Option.some_bind]
    exact normal_body_leaf _ _ (by rw [he]; decide) (by rw [he]; decide)
      (by rw [he]; decide) (by rw [he]; decide) (by rw [he]; decide)
  · intro hlt
    exact u64_of_lt hlt

theorem normal_app_era_witness :
    ∃ r, normal 4 heap_ex (new_term APP 0 12) = some r ∧
      r.term = got heap_ex 12 ∧ r.fired = [Rule.APP_ERA] ∧ r.heap.itr = 1 :=
  have h := normal_app_era 0 heap_ex (new_term APP 0 12) (by decide) (by decide)
  h.elim fun r hr => ⟨r, hr.1, hr.2.1, hr.2.2.1, hr.2.2.2.1⟩

/-! ## Normal forms are fixed points (C15) -/

theorem normal_body_lam (rec : Heap → Nat → Option Run) (r0 r1 : Run)
    (ht : get_tag r0.term = LAM)
    (hrec : rec r0.heap (got r0.heap (u32 (get_loc r0.term + 1))) = some r1) :
    normal_body rec r0 =
      some ⟨set r1.heap (u32 (get_loc r0.term + 1)) r1.term, r0.term,
        r0.fired ++ r1.fired⟩ := by
  have h1 : ¬ get_tag r0.term = APP := by rw [ht]; decide
  unfold normal_body
  dsimp only
  rw [if_neg h1, if_pos ht, hrec]

/-- C15: on a heap holding a lambda node `L = [SUB, VAR(L)]`, `normal` of a
`LAM` term of location `L` terminates, returns that term, fires no rule
(`itr` unchanged), and leaves every arena cell and the frontier equal to
their initial values. -/
theorem normal_lam_id (fuel : Nat) (heap : Heap) (t : Nat)
    (ht : get_tag t = LAM) (hb : get_tag (got heap (get_loc t)) = SUB)
    (hv : get_tag (got heap (u32 (get_loc t + 1))) = VAR)
    (hvl : get_loc (got heap (u32 (get_loc t + 1))) = get_loc t) :
    ∃ r, normal (fuel + 3) heap t = some r ∧
      r.term = t ∧ r.fired = [] ∧ r.heap.itr = heap.itr ∧
      (∀ i, got r.heap i = got heap i) ∧ r.heap.end_ = heap.end_ := by
  obtain ⟨p1, p2, p3⟩ := passive_of_tag t (Or.inr (Or.inl ht))
  have hred : reduce (fuel + 2) heap t = some ⟨heap, t, []⟩ :=
    reduce_loop_stop (fuel + 1) heap 0 t heap t (reduce_iter_passive_empty heap t p1 p2 p3)
  have hk : get_key (got heap (u32 (get_loc t + 1))) = get_loc t := by
    rw [(get_key_loc _).1 (Or.inl hv), hvl]
  have hredv : reduce (fuel + 1) heap (got heap (u32 (get_loc t + 1))) =
      some ⟨heap, got heap (u32 (get_loc t + 1)), []⟩ := by
    have hstep : reduce_iter heap 0 (got heap (u32 (get_loc t + 1))) =
        .stop heap (got heap (u32 (get_loc t + 1))) := by
      rw [reduce_iter_var_stop heap 0 _ hv (by rw [hk]; exact hb), reduce_exit_zero]
    exact reduce_loop_stop fuel heap 0 _ heap _ hstep
  have hnv : normal (fuel + 2) heap (got heap (u32 (get_loc t + 1))) =
      some ⟨heap, got heap (u32 (get_loc t + 1)), []⟩ := by
    rw [normal_succ_eq, hredv, Option.some_bind]
    exact normal_body_leaf _ _ (by rw [hv]; decide) (by rw [hv]; decide)
      (by rw [hv]; decide) (by rw [hv]; decide) (by rw [hv]; decide)
  refine ⟨⟨set heap (u32 (get_loc t + 1)) (got heap (u32 (get_loc t + 1))), t, []⟩,
    ?_, rfl, rfl, rfl, ?_, rfl⟩
  · rw [normal_succ_eq, hred, Option.some_bind]
    exact normal_body_lam _ ⟨heap, t, []⟩ _ ht hnv
  · intro i
    by_cases hi : i = u32 (get_loc t + 1)
    · rw [got_set_eq _ _ _ _ hi, hi]
    · rw [got_set_ne _ _ _ _ hi]

theorem normal_lam_id_witness :
    ∃ r, normal 3 heap_ex (new_term LAM 0 14) = some r ∧
      r.term = new_term LAM 0 14 ∧ r.fired = [] ∧ r.heap.itr = heap_ex.itr :=
  have h := normal_lam_id 0 heap_ex (new_term LAM 0 14) (by decide) (by decide)
    (by decide) (by decide)
  h.elim fun r hr => ⟨r, hr.1, hr.2.1, hr.2.2.1, hr.2.2.2.1⟩

/-- Inversion of a terminated `normal_body`: the reduced term was a leaf, or
one child cell was normalized and written back (`LAM`, `DP0`, `DP1`), or two
were (`APP`, `SUP`). -/
theorem normal_body_some (rec : Heap → Nat → Option Run) (r0 r : Run)
    (h : normal_body rec r0 = some r) :
    r = r0 ∨
    (∃ k r1, rec r0.heap (got r0.heap (u32 (get_loc r0.term + k))) = some r1 ∧
      r = ⟨set r1.heap (u32 (get_loc r0.term + k)) r1.term, r0.term,
        r0.fired ++ r1.fired⟩) ∨
    (∃ r1 r2, rec r0.heap (got r0.heap (u32 (get_loc r0.term + 0))) = some r1 ∧
      rec r1.heap (got r1.heap (u32 (get_loc r0.term + 1))) = some r2 ∧
      r = ⟨set (set r2.heap (u32 (get_loc r0.term + 0)) r1.term)
          (u32 (get_loc r0.term + 1)) r2.term, r0.term,
        r0.fired ++ r1.fired ++ r2.fired⟩) := by
  unfold normal_body at h
  dsimp only at h
  split_ifs at h
  · cases h1 : rec r0.heap (got r0.heap (u32 (get_loc r0.term + 0))) with
    | none => rw [h1] at h; simp at h
    | some r1 =>
      rw [h1] at h
      dsimp only at h
      cases h2 : rec r1.heap (got r1.heap (u32 (get_loc r0.term + 1))) with
      | none => rw [h2] at h; simp at h
      | some r2 =>
        rw [h2] at h
        exact Or.inr (Or.inr ⟨r1, r2, rfl, h2, (Option.some.inj h).symm⟩)
  · cases h1 : rec r0.heap (got r0.heap (u32 (get_loc r0.term + 1))) with
    | none => rw [h1] at h; simp at h
    | some r1 =>
      rw [h1] at h
      exact Or.inr (Or.inl ⟨1, r1, h1, (Option.some.inj h).symm⟩)
  · cases h1 : rec r0.heap (got r0.heap (u32 (get_loc r0.term + 0))) with
    | none => rw [h1] at h; simp at h
    | some r1 =>
      rw [h1] at h
      dsimp only at h
      cases h2 : rec r1.heap (got r1.heap (u32 (get_loc r0.term + 1))) with
      | none => rw [h2] at h; simp at h
      | some r2 =>
        rw [h2] at h
        exact Or.inr (Or.inr ⟨r1, r2, rfl, h2, (Option.some.inj h).symm⟩)
  · cases h1 : rec r0.heap (got r0.heap (u32 (get_loc r0.term + 2))) with
    | none => rw [h1] at h; simp at h
    | some r1 =>
      rw [h1] at h
      exact Or.inr (Or.inl ⟨2, r1, h1, (Option.some.inj h).symm⟩)
  · cases h1 : rec r0.heap (got r0.heap (u32 (get_loc r0.term + 2))) with
    | none => rw [h1] at h; simp at h
    | some r1 =>
      rw [h1] at h
      exact Or.inr (Or.inl ⟨2, r1, h1, (Option.some.inj h).symm⟩)
  · exact Or.inl (Option.some.inj h).symm

/-- Inversion of a terminated `normal`. -/
theorem normal_some (fuel : Nat) (heap : Heap) (term : Nat) (r : Run)
    (h : normal fuel heap term = some r) :
    ∃ n r0, fuel = n + 1 ∧ reduce n heap term = some r0 ∧
      normal_body (normal n) r0 = some r := by
  cases fuel with
  | zero => simp [normal] at h
  | succ n =>
    rw [normal_succ_eq] at h
    cases h0 : reduce n heap term with
    | none => rw [h0] at h; simp at h
    | some r0 =>
      rw [h0] at h
      exact ⟨n, r0, rfl, h0, h⟩

/-! ## The frontier (C17) -/

theorem alloc_total_append (a b : List Rule) :
    alloc_total (a ++ b) = alloc_total a + alloc_total b := by
  simp [alloc_total]

theorem alloc_size_le (rule : Rule) : alloc_size rule ≤ 9 := by
  cases rule <;> decide

theorem alloc_total_le (fired : List Rule) : alloc_total fired ≤ 9 * fired.length := by
  induction fired with
  | nil => simp [alloc_total]
  | cons a l ih =>
    have h := alloc_size_le a
    simp only [alloc_total, List.map_cons, List.sum_cons, List.length_cons] at ih ⊢
    omega

theorem set_heap_end (heap : Heap) (loc term : Nat) : (set heap loc term).end_ = heap.end_ :=
  rfl

theorem rule_end (heap : Heap) (a b : Nat) :
    (reduce_app_era heap a b).1.end_ = heap.end_ ∧
    (reduce_app_lam heap a b).1.end_ = heap.end_ ∧
    (reduce_app_sup heap a b).1.end_ = u64 (heap.end_ + 9) ∧
    (reduce_dup_era heap a b).1.end_ = heap.end_ ∧
    (reduce_dup_lam heap a b).1.end_ = u64 (heap.end_ + 9) ∧
    (reduce_dup_sup heap a b).1.end_ = heap.end_ := by
  have h9 : u64 (u64 (u64 (u64 (heap.end_ + 3) + 2) + 2) + 2) = u64 (heap.end_ + 9) := by
    unfold u64; omega
  refine ⟨rfl, rfl, ?_, rfl, ?_, rfl⟩
  · rw [← h9]; rfl
  · rw [← h9]; rfl

theorem reduce_exit_allocs (heap : Heap) (spos next : Nat) :
    (reduce_exit heap spos next).allocs heap := by
  unfold reduce_exit
  dsimp only
  split_ifs <;> rfl

theorem reduce_iter_allocs (heap : Heap) (spos next : Nat) (hi : heap.end_ < 2 ^ 64) :
    (reduce_iter heap spos next).allocs heap := by
  have h0 : heap.end_ = u64 (heap.end_ + 0) := (u64_of_lt hi).symm
  have hr := rule_end heap (heap.stk (spos - 1)) next
  apply reduce_iter_cases heap spos next
  · intro _; exact h0
  · intro _ _; exact h0
  · intro _ _; exact h0
  · intro _ _; exact reduce_exit_allocs heap spos next
  · intro _ _ _ _ _; exact reduce_exit_allocs heap spos next
  · intro _ _ _; exact hr.1.trans h0
  · intro _ _ _; exact hr.2.1.trans h0
  · intro _ _ _; exact hr.2.2.1
  · intro _ _ _; exact hr.2.2.2.1.trans h0
  · intro _ _ _; exact hr.2.2.2.2.1
  · intro _ _ _; exact hr.2.2.2.2.2.trans h0
  · intro _ _ _ _ _ _; exact reduce_exit_allocs heap _ next

theorem reduce_loop_allocs (fuel : Nat) :
    ∀ (heap : Heap) (spos next : Nat) (r : Run), heap.end_ < 2 ^ 64 →
      reduce_loop fuel heap spos next = some r →
      r.heap.end_ = u64 (heap.end_ + alloc_total r.fired) := by
  induction fuel with
  | zero => intro heap spos next r _ h; simp [reduce_loop] at h
  | succ n ih =>
    intro heap spos next r hi h
    have hc := reduce_iter_allocs heap spos next hi
    cases hstep : reduce_iter heap spos next with
    | stop heap1 term =>
      rw [reduce_loop_stop n heap spos next heap1 term hstep] at h
      rw [hstep] at hc
      rw [← Option.some.inj h]
      exact hc.trans (u64_of_lt hi).symm
    | go fired heap1 spos1 next1 =>
      rw [reduce_loop_go n heap spos next fired heap1 spos1 next1 hstep] at h
      rw [hstep] at hc
      cases hrec : reduce_loop n heap1 spos1 next1 with
      | none => rw [hrec] at h; simp at h
      | some r1 =>
        rw [hrec] at h
        rw [← Option.some.inj h]
        have hc1 : heap1.end_ = u64 (heap.end_ + alloc_total fired.toList) := hc
        have hlt : heap1.end_ < 2 ^ 64 := by rw [hc1]; exact u64_lt _
        have h1 := ih heap1 spos1 next1 r1 hlt hrec
        show r1.heap.end_ = u64 (heap.end_ + alloc_total (fired.toList ++ r1.fired))
        rw [h1, hc1, u64_add_u64, alloc_total_append]

theorem normal_allocs (fuel : Nat) :
    ∀ (heap : Heap) (term : Nat) (r : Run), heap.end_ < 2 ^ 64 →
      normal fuel heap term = some r →
      r.heap.end_ = u64 (heap.end_ + alloc_total r.fired) := by
  induction fuel with
  | zero => intro heap term r _ h; simp [normal] at h
  | succ n ih =>
    intro heap term r hi h
    obtain ⟨m, r0, hm, hred, hbody⟩ := normal_some (n + 1) heap term r h
    have hmn : m = n := by omega
    subst hmn
    have c0 := reduce_loop_allocs m heap 0 term r0 hi hred
    have l0 : r0.heap.end_ < 2 ^ 64 := by rw [c0]; exact u64_lt _
    rcases normal_body_some _ r0 r hbody with he | ⟨k, r1, h1, he⟩ | ⟨r1, r2, h1, h2, he⟩
    · rw [he]; exact c0
    · have c1 := ih _ _ r1 l0 h1
      rw [he]
      show r1.heap.end_ = u64 (heap.end_ + alloc_total (r0.fired ++ r1.fired))
      rw [c1, c0, u64_add_u64, alloc_total_append]
    · have c1 := ih _ _ r1 l0 h1
      have l1 : r1.heap.end_ < 2 ^ 64 := by rw [c1]; exact u64_lt _
      have c2 := ih _ _ r2 l1 h2
      rw [he]
      show r2.heap.end_ = u64 (heap.end_ + alloc_total (r0.fired ++ r1.fired ++ r2.fired))
      rw [c2, c1, c0, u64_add_u64, u64_add_u64, alloc_total_append, alloc_total_append,
        Nat.add_assoc]


/-- C17 (as amended): `reduce_app_sup` and `reduce_dup_lam` advance the
frontier by 9 cells and the other four rules leave it alone; for a
terminating `reduce` or `normal` run whose frontier does not overflow (the
initial `end` plus the allocation sizes of the rules fired stays below
2^64), the final `end` is the initial `end` plus that sum, hence at least the
initial `end`, at most the initial `end` plus the sum, and at most 9 cells
per rule fired above it; when `itr` does not wrap either, the advance is at
most `9 * (itr_final - itr_initial)`. -/
theorem frontier_bound :
    (∀ (heap : Heap) (a b : Nat),
      (reduce_app_era heap a b).1.end_ = heap.end_ ∧
      (reduce_app_lam heap a b).1.end_ = heap.end_ ∧
      (reduce_app_sup heap a b).1.end_ = u64 (heap.end_ + 9) ∧
      (reduce_dup_era heap a b).1.end_ = heap.end_ ∧
      (reduce_dup_lam heap a b).1.end_ = u64 (heap.end_ + 9) ∧
      (reduce_dup_sup heap a b).1.end_ = heap.end_) ∧
    (∀ (fuel : Nat) (heap : Heap) (term : Nat) (r : Run),
      reduce fuel heap term = some r → heap.end_ + alloc_total r.fired < 2 ^ 64 →
      r.heap.end_ = heap.end_ + alloc_total r.fired ∧
      heap.end_ ≤ r.heap.end_ ∧ r.heap.end_ ≤ heap.end_ + alloc_total r.fired ∧
      r.heap.end_ - heap.end_ ≤ 9 * r.fired.length ∧
      (heap.itr + r.fired.length < 2 ^ 64 →
        r.heap.end_ - heap.end_ ≤ 9 * (r.heap.itr - heap.itr))) ∧
    (∀ (fuel : Nat) (heap : Heap) (term : Nat) (r : Run),
      normal fuel heap term = some r → heap.end_ + alloc_total r.fired < 2 ^ 64 →
      r.heap.end_ = heap.end_ + alloc_total r.fired ∧
      heap.end_ ≤ r.heap.end_ ∧ r.heap.end_ ≤ heap.end_ + alloc_total r.fired ∧
      r.heap.end_ - heap.end_ ≤ 9 * r.fired.length ∧
      (heap.itr + r.fired.length < 2 ^ 64 →
        r.heap.end_ - heap.end_ ≤ 9 * (r.heap.itr - heap.itr))) := by
  refine ⟨rule_end, ?_, ?_⟩
  · intro fuel heap term r hrun hlt
    have he := reduce_loop_allocs fuel heap 0 term r (by omega) hrun
    rw [u64_of_lt hlt] at he
    have hle := alloc_total_le r.fired
    refine ⟨he, by omega, by omega, by omega, ?_⟩
    intro hi
    have hc := reduce_loop_counts fuel heap 0 term r (by omega) hrun
    rw [u64_of_lt hi] at hc
    omega
  · intro fuel heap term r hrun hlt
    have he := normal_allocs fuel heap term r (by omega) hrun
    rw [u64_of_lt hlt] at he
    have hle := alloc_total_le r.fired
    refine ⟨he, by omega, by omega, by omega, ?_⟩
    intro hi
    have hc := normal_counts fuel heap term r (by omega) hrun
    rw [u64_of_lt hi] at hc
    omega

theorem frontier_bound_witness :
    ∃ r, reduce 3 heap_ex (new_term DP0 0 16) = some r ∧
      heap_ex.end_ + alloc_total r.fired < 2 ^ 64 ∧
      r.heap.end_ = heap_ex.end_ + alloc_total r.fired ∧
      r.fired = [Rule.DUP_LAM] ∧ r.heap.end_ = 29 :=
  have hrun : reduce 3 heap_ex (new_term DP0 0 16) =
      some ((reduce 3 heap_ex (new_term DP0 0 16)).get (by decide)) :=
    (Option.some_get _).symm
  have h := frontier_bound.2.1 3 heap_ex (new_term DP0 0 16) _ hrun (by decide)
  ⟨_, hrun, by decide, h.1, by decide, by decide⟩

/-- C17 as stated fails when `itr` wraps: from `itr = 2^64 - 1` a terminating
`reduce` run that fires `DUP_LAM` once moves the frontier from 20 to 29
without overflow and leaves `itr = 0`, so the advance of 9 cells is not at
most `9 * (itr_final - itr_initial)`. -/
theorem frontier_bound_counterexample :
    ∃ r, reduce 3 heap_wrap (new_term DP0 0 16) = some r ∧
      r.fired = [Rule.DUP_LAM] ∧
      heap_wrap.end_ = 20 ∧ r.heap.end_ = 29 ∧
      heap_wrap.itr = 2 ^ 64 - 1 ∧ r.heap.itr = 0 ∧
      ¬ ((r.heap.end_ : Int) - heap_wrap.end_ ≤ 9 * ((r.heap.itr : Int) - heap_wrap.itr)) :=
  ⟨(reduce 3 heap_wrap (new_term DP0 0 16)).get (by decide), (Option.some_get _).symm,
    by decide, by decide, by decide, by decide, by decide, by decide⟩

/-! ## Scenario `(λx.λy.x) ⋆ ⋆` (C12) -/

theorem reduce_app_lam_eq (heap : Heap) (app lam : Nat) :
    reduce_app_lam heap app lam =
      (set (inc_itr heap).1 (get_loc lam) (got heap (u32 (get_loc app + 1))),
        got heap (u32 (get_loc lam + 1))) := by
  unfold reduce_app_lam
  simp only [u32_get_loc_add_zero]
  rfl

theorem got_inc_itr (heap : Heap) (i : Nat) : got (inc_itr heap).1 i = got heap i := rfl

theorem inc_itr_stk_eq (heap : Heap) : (inc_itr heap).1.stk = heap.stk := rfl

theorem stk_set_stk_ne (heap : Heap) (spos term i : Nat) (h : i ≠ spos) :
    (stk_set heap spos term).stk i = heap.stk i := by
  simp [stk_set, h]

theorem reduce_iter_app_lam_eq (heap : Heap) (spos next prev : Nat) (hs : spos ≠ 0)
    (hprev : heap.stk (spos - 1) = prev) (hp : get_tag prev = APP)
    (ht : get_tag next = LAM) :
    reduce_iter heap spos next =
      .go (some .APP_LAM)
        (set (inc_itr heap).1 (get_loc next) (got heap (u32 (get_loc prev + 1))))
        (spos - 1) (got heap (u32 (get_loc next + 1))) := by
  rw [reduce_iter_app_lam heap spos next hs (by rw [hprev]; exact hp) ht, hprev,
    reduce_app_lam_eq]

/-- C12: on a heap holding `A = [APP(B), e1]`, `B = [LAM(L1), e2]`,
`L1 = [_, LAM(L2)]` and `L2 = [_, VAR(L1)]` at disjoint locations (node
`L1` apart from nodes `A` and `L2` is all the proof uses), with `e2` an
`ERA`-tagged term, `normal` of `APP(A)` terminates, returns the `ERA` term
`e2`, fires exactly two rules (`APP_LAM` twice), so that `itr` is stepped
twice, and does not move the frontier. -/
theorem normal_k_era_era (fuel : Nat) (heap : Heap) (A B L1 L2 e1 e2 : Nat)
    (hA : A + 1 < 2 ^ 32) (hB : B + 1 < 2 ^ 32) (hL1 : L1 + 1 < 2 ^ 32)
    (hL2 : L2 + 1 < 2 ^ 32)
    (dAL1 : A + 1 < L1 ∨ L1 + 1 < A) (dL : L1 + 1 < L2 ∨ L2 + 1 < L1)
    (cA0 : got heap A = new_term APP 0 B) (cA1 : got heap (A + 1) = e1)
    (cB0 : got heap B = new_term LAM 0 L1) (cB1 : got heap (B + 1) = e2)
    (cL11 : got heap (L1 + 1) = new_term LAM 0 L2)
    (cL21 : got heap (L2 + 1) = new_term VAR 0 L1)
    (he2 : get_tag e2 = ERA) :
    ∃ r, normal (fuel + 7) heap (new_term APP 0 A) = some r ∧
      r.term = e2 ∧ get_tag r.term = ERA ∧
      r.fired = [Rule.APP_LAM, Rule.APP_LAM] ∧
      r.heap.itr = u64 (heap.itr + 2) ∧
      (heap.itr + 2 < 2 ^ 64 → r.heap.itr = heap.itr + 2) ∧
      r.heap.end_ = heap.end_ := by
  have fA := new_term_fields APP 0 A (by decide) (by decide) (by omega)
  have fB := new_term_fields APP 0 B (by decide) (by decide) (by omega)
  have fl1 := new_term_fields LAM 0 L1 (by decide) (by decide) (by omega)
  have fl2 := new_term_fields LAM 0 L2 (by decide) (by decide) (by omega)
  have fv := new_term_fields VAR 0 L1 (by decide) (by decide) (by omega)
  -- pass 1: push `APP(A)`, descend into cell `A`
  have s1 : reduce_iter heap 0 (new_term APP 0 A) =
      .go none (stk_set heap 0 (new_term APP 0 A)) 1 (new_term APP 0 B) := by
    rw [reduce_iter_app heap 0 _ fA.1]
    simp (disch := omega) only [fA.2.2, u32_of_lt, Nat.add_zero, Nat.zero_add, cA0]
  -- pass 2: push `APP(B)`, descend into cell `B`
  have s2 : reduce_iter (stk_set heap 0 (new_term APP 0 A)) 1 (new_term APP 0 B) =
      .go none (stk_set (stk_set heap 0 (new_term APP 0 A)) 1 (new_term APP 0 B)) 2
        (new_term LAM 0 L1) := by
    rw [reduce_iter_app _ 1 _ fB.1]
    simp (disch := omega) only [fB.2.2, u32_of_lt, Nat.add_zero, Nat.reduceAdd, got_stk_set,
      cB0]
  -- pass 3: `APP(B)` meets `LAM(L1)`
  have s3 := reduce_iter_app_lam_eq
    (stk_set (stk_set heap 0 (new_term APP 0 A)) 1 (new_term APP 0 B)) 2
    (new_term LAM 0 L1) (new_term APP 0 B) (by decide) (stk_set_stk_self _ _ _) fB.1 fl1.1
  simp (disch := omega) only [fl1.2.2, fB.2.2, u32_of_lt, got_stk_set, cB1, cL11,
    Nat.reduceSub] at s3
  -- pass 4: `APP(A)` meets `LAM(L2)`
  have s4 := reduce_iter_app_lam_eq
    (set (inc_itr (stk_set (stk_set heap 0 (new_term APP 0 A)) 1 (new_term APP 0 B))).1 L1 e2)
    1 (new_term LAM 0 L2) (new_term APP 0 A) (by decide)
    (by
      show (stk_set (stk_set heap 0 (new_term APP 0 A)) 1 (new_term APP 0 B)).stk 0 = _
      rw [stk_set_stk_ne _ _ _ _ (by decide), stk_set_stk_self])
    fA.1 fl2.1
  simp (disch := omega) only [fl2.2.2, fA.2.2, u32_of_lt, got_set_ne, got_inc_itr,
    got_stk_set, cA1, cL21, Nat.reduceSub] at s4
  -- pass 5: `VAR(L1)` dereferences to `e2`; pass 6: `e2` on an empty stack
  obtain ⟨H4, hH4⟩ : ∃ H, H = set (inc_itr (set (inc_itr (stk_set (stk_set heap 0
      (new_term APP 0 A)) 1 (new_term APP 0 B))).1 L1 e2)).1 L2 e1 := ⟨_, rfl⟩
  rw [← hH4] at s4
  have c4 : got H4 L1 = e2 := by
    rw [hH4, got_set_ne _ _ _ _ (by omega : L1 ≠ L2), got_inc_itr, got_set_eq _ _ _ _ rfl]
  have k5 : get_key (new_term VAR 0 L1) = L1 := by
    rw [(get_key_loc _).1 (Or.inl fv.1), fv.2.2]
  have s5 : reduce_iter H4 0 (new_term VAR 0 L1) = .go none H4 0 e2 := by
    rw [reduce_iter_var_deref H4 0 _ fv.1 (by rw [k5, c4, he2]; decide), k5, c4]
  obtain ⟨p1, p2, p3⟩ := passive_of_tag e2 (Or.inl he2)
  have s6 := reduce_iter_passive_empty H4 e2 p1 p2 p3
  have r6 := reduce_loop_stop fuel H4 0 e2 H4 e2 s6
  have r5 := reduce_loop_go_some (fuel + 1) _ _ _ _ _ _ _ _ s5 r6
  have r4 := reduce_loop_go_some (fuel + 2) _ _ _ _ _ _ _ _ s4 r5
  have r3 := reduce_loop_go_some (fuel + 3) _ _ _ _ _ _ _ _ s3 r4
  have r2 := reduce_loop_go_some (fuel + 4) _ _ _ _ _ _ _ _ s2 r3
  have r1 : reduce (fuel + 6) heap (new_term APP 0 A) =
      some ⟨H4, e2, [Rule.APP_LAM, Rule.APP_LAM]⟩ :=
    reduce_loop_go_some (fuel + 5) _ _ _ _ _ _ _ _ s1 r2
  refine ⟨⟨H4, e2, [Rule.APP_LAM, Rule.APP_LAM]⟩, ?_, rfl, he2, rfl, ?_, ?_, ?_⟩
  · rw [normal_succ_eq, r1, Option.some_bind]
    exact normal_body_leaf _ _ (by rw [he2]; decide) (by rw [he2]; decide)
      (by rw [he2]; decide) (by rw [he2]; decide) (by rw [he2]; decide)
  · rw [hH4]
    show u64 (u64 (heap.itr + 1) + 1) = u64 (heap.itr + 2)
    rw [u64_add_u64]
  · intro hlt
    rw [hH4]
    show u64 (u64 (heap.itr + 1) + 1) = heap.itr + 2
    rw [u64_add_u64, u64_of_lt hlt]
  · rw [hH4]
    rfl

theorem normal_k_era_era_witness :
    ∃ r, normal 7 heap_k (new_term APP 0 0) = some r ∧
      r.term = new_term ERA 0 0 ∧ r.fired = [Rule.APP_LAM, Rule.APP_LAM] ∧
      r.heap.itr = u64 (heap_k.itr + 2) :=
  have h := normal_k_era_era 0 heap_k 0 2 4 6 (new_term ERA 0 0) (new_term ERA 0 0)
    (by decide) (by decide) (by decide) (by decide) (by decide) (by decide)
    rfl rfl rfl rfl rfl rfl (by decide)
  h.elim fun r hr => ⟨r, hr.1, hr.2.1, hr.2.2.2.1, hr.2.2.2.2.1⟩

/-! ## Runs on equivalent heaps -/

theorem heap_eqv_refl (h : Heap) : heap_eqv h h := ⟨rfl, rfl⟩

theorem got_eqv {h1 h2 : Heap} (he : heap_eqv h1 h2) (i : Nat) : got h1 i = got h2 i := by
  unfold got
  rw [he.1]

theorem set_eqv {h1 h2 : Heap} (he : heap_eqv h1 h2) (loc term : Nat) :
    heap_eqv (set h1 loc term) (set h2 loc term) := by
  obtain ⟨hm, hf⟩ := he
  constructor
  · simp only [set, hm]
  · exact hf

theorem stk_set_eqv {h1 h2 : Heap} (he : heap_eqv h1 h2) (s1 t1 s2 t2 : Nat) :
    heap_eqv (stk_set h1 s1 t1) (stk_set h2 s2 t2) := he

theorem rule_sim {h1 h2 : Heap} (he : heap_eqv h1 h2) (a b : Nat) :
    ((reduce_app_era h1 a b).2 = (reduce_app_era h2 a b).2 ∧
      heap_eqv (reduce_app_era h1 a b).1 (reduce_app_era h2 a b).1) ∧
    ((reduce_app_lam h1 a b).2 = (reduce_app_lam h2 a b).2 ∧
      heap_eqv (reduce_app_lam h1 a b).1 (reduce_app_lam h2 a b).1) ∧
    ((reduce_app_sup h1 a b).2 = (reduce_app_sup h2 a b).2 ∧
      heap_eqv (reduce_app_sup h1 a b).1 (reduce_app_sup h2 a b).1) ∧
    ((reduce_dup_era h1 a b).2 = (reduce_dup_era h2 a b).2 ∧
      heap_eqv (reduce_dup_era h1 a b).1 (reduce_dup_era h2 a b).1) ∧
    ((reduce_dup_lam h1 a b).2 = (reduce_dup_lam h2 a b).2 ∧
      heap_eqv (reduce_dup_lam h1 a b).1 (reduce_dup_lam h2 a b).1) ∧
    ((reduce_dup_sup h1 a b).2 = (reduce_dup_sup h2 a b).2 ∧
      heap_eqv (reduce_dup_sup h1 a b).1 (reduce_dup_sup h2 a b).1) := by
  obtain ⟨hm, hf⟩ := he
  refine ⟨⟨?_, ?_, ?_⟩, ⟨?_, ?_, ?_⟩, ⟨?_, ?_, ?_⟩, ⟨?_, ?_, ?_⟩, ⟨?_, ?_, ?_⟩, ⟨?_, ?_, ?_⟩⟩
  all_goals
    simp only [reduce_app_era, reduce_app_lam, reduce_app_sup, reduce_dup_era,
      reduce_dup_lam, reduce_dup_sup, inc_itr, alloc_node, set, got, hm, hf]


theorem reduce_exit_sim {h1 h2 : Heap} (he : heap_eqv h1 h2) (spos next : Nat)
    (hs : stk_agree h1 h2 spos) :
    (reduce_exit h1 spos next).sim (reduce_exit h2 spos next) := by
  by_cases h0 : spos = 0
  · subst h0
    rw [reduce_exit_zero, reduce_exit_zero]
    exact ⟨rfl, he⟩
  · have hhost : h1.stk (spos - 1) = h2.stk (spos - 1) := hs _ (by omega)
    have hbot : h1.stk 0 = h2.stk 0 := hs 0 (by omega)
    unfold reduce_exit
    rw [if_neg h0, if_neg h0]
    dsimp only
    rw [hhost]
    split_ifs
    · exact ⟨hbot, set_eqv he _ _⟩
    · exact ⟨hbot, set_eqv he _ _⟩
    · exact ⟨hbot, set_eqv he _ _⟩
    · exact ⟨hbot, he⟩

theorem reduce_iter_stuck (heap : Heap) (spos next : Nat)
    (h1 : get_tag next ≠ APP) (h2 : get_tag next ≠ DP0) (h3 : get_tag next ≠ DP1)
    (h4 : get_tag next ≠ VAR) (hs : spos ≠ 0)
    (hn : ¬ ((get_tag (heap.stk (spos - 1)) = APP ∨ get_tag (heap.stk (spos - 1)) = DP0 ∨
          get_tag (heap.stk (spos - 1)) = DP1) ∧
        (get_tag next = ERA ∨ get_tag next = LAM ∨ get_tag next = SUP))) :
    reduce_iter heap spos next = reduce_exit heap (spos - 1) next := by
  have h23 : ¬ (get_tag next = DP0 ∨ get_tag next = DP1) := fun h => h.elim h2 h3
  unfold reduce_iter
  dsimp only
  rw [if_neg h1, if_neg h23, if_neg h4, if_neg hs]
  by_cases hp : get_tag (heap.stk (spos - 1)) = APP
  · have h5 : ¬ get_tag next = ERA := fun h => hn ⟨Or.inl hp, Or.inl h⟩
    have h6 : ¬ get_tag next = LAM := fun h => hn ⟨Or.inl hp, Or.inr (Or.inl h)⟩
    have h7 : ¬ get_tag next = SUP := fun h => hn ⟨Or.inl hp, Or.inr (Or.inr h)⟩
    rw [if_pos hp, if_neg h5, if_neg h6, if_neg h7]
  · rw [if_neg hp]
    by_cases hd : get_tag (heap.stk (spos - 1)) = DP0 ∨ get_tag (heap.stk (spos - 1)) = DP1
    · have h5 : ¬ get_tag next = ERA := fun h => hn ⟨Or.inr hd, Or.inl h⟩
      have h6 : ¬ get_tag next = LAM := fun h => hn ⟨Or.inr hd, Or.inr (Or.inl h)⟩
      have h7 : ¬ get_tag next = SUP := fun h => hn ⟨Or.inr hd, Or.inr (Or.inr h)⟩
      rw [if_pos hd, if_neg h5, if_neg h6, if_neg h7]
    · rw [if_neg hd]

theorem stk_agree_push {h1 h2 : Heap} (spos next : Nat) (hs : stk_agree h1 h2 spos) :
    stk_agree (stk_set h1 spos next) (stk_set h2 spos next) (u32 (spos + 1)) := by
  intro i hi
  have hle : i < spos + 1 := lt_of_lt_of_le hi (Nat.mod_le _ _)
  by_cases heq : i = spos
  · simp [stk_set, heq]
  · have := hs i (by omega)
    simpa [stk_set, heq] using this

theorem stk_agree_fire {h1 h2 g1 g2 : Heap} (spos : Nat) (hs : stk_agree h1 h2 spos)
    (e1 : g1.stk = h1.stk) (e2 : g2.stk = h2.stk) : stk_agree g1 g2 (spos - 1) := by
  intro i hi
  rw [e1, e2]
  exact hs i (by omega)

theorem reduce_iter_sim {h1 h2 : Heap} (he : heap_eqv h1 h2) (spos next : Nat)
    (hs : stk_agree h1 h2 spos) :
    (reduce_iter h1 spos next).sim (reduce_iter h2 spos next) := by
  have hg : ∀ i, got h1 i = got h2 i := got_eqv he
  have hr := rule_sim he (h2.stk (spos - 1)) next
  have hk1 := rule_stk h1 (h2.stk (spos - 1)) next
  have hk2 := rule_stk h2 (h2.stk (spos - 1)) next
  apply reduce_iter_cases (P := fun st => Step.sim st (reduce_iter h2 spos next)) h1 spos next
  · intro ht
    rw [reduce_iter_app h2 spos next ht, hg]
    exact ⟨rfl, rfl, rfl, he, stk_agree_push spos next hs⟩
  · intro ht hb
    rw [reduce_iter_dup_push h2 spos next ht (by rw [← hg]; exact hb), hg]
    exact ⟨rfl, rfl, rfl, he, stk_agree_push spos next hs⟩
  · intro ht hb
    rw [hg] at hb ⊢
    rcases ht with ht | ht | ht
    · rw [reduce_iter_dup_deref h2 spos next (Or.inl ht) hb]
      exact ⟨rfl, rfl, rfl, he, hs⟩
    · rw [reduce_iter_dup_deref h2 spos next (Or.inr ht) hb]
      exact ⟨rfl, rfl, rfl, he, hs⟩
    · rw [reduce_iter_var_deref h2 spos next ht hb]
      exact ⟨rfl, rfl, rfl, he, hs⟩
  · intro ht hb
    rw [reduce_iter_var_stop h2 spos next ht (by rw [← hg]; exact hb)]
    exact reduce_exit_sim he spos next hs
  · intro p1 p2 p3 p4 h0
    subst h0
    rw [reduce_iter_passive_empty h2 next p1 (fun h => h.elim p2 p3) p4, reduce_exit_zero]
    exact ⟨rfl, he⟩
  · intro h0 hp ht
    have hprev : h1.stk (spos - 1) = h2.stk (spos - 1) := hs _ (by omega)
    rw [hprev] at hp ⊢
    rw [reduce_iter_app_era h2 spos next h0 hp ht]
    exact ⟨rfl, rfl, hr.1.1, hr.1.2, stk_agree_fire spos hs hk1.1 hk2.1⟩
  · intro h0 hp ht
    have hprev : h1.stk (spos - 1) = h2.stk (spos - 1) := hs _ (by omega)
    rw [hprev] at hp ⊢
    rw [reduce_iter_app_lam h2 spos next h0 hp ht]
    exact ⟨rfl, rfl, hr.2.1.1, hr.2.1.2, stk_agree_fire spos hs hk1.2.1 hk2.2.1⟩
  · intro h0 hp ht
    have hprev : h1.stk (spos - 1) = h2.stk (spos - 1) := hs _ (by omega)
    rw [hprev] at hp ⊢
    rw [reduce_iter_app_sup h2 spos next h0 hp ht]
    exact ⟨rfl, rfl, hr.2.2.1.1, hr.2.2.1.2, stk_agree_fire spos hs hk1.2.2.1 hk2.2.2.1⟩
  · intro h0 hp ht
    have hprev : h1.stk (spos - 1) = h2.stk (spos - 1) := hs _ (by omega)
    rw [hprev] at hp ⊢
    rw [reduce_iter_dup_era h2 spos next h0 hp ht]
    exact ⟨rfl, rfl, hr.2.2.2.1.1, hr.2.2.2.1.2,
      stk_agree_fire spos hs hk1.2.2.2.1 hk2.2.2.2.1⟩
  · intro h0 hp ht
    have hprev : h1.stk (spos - 1) = h2.stk (spos - 1) := hs _ (by omega)
    rw [hprev] at hp ⊢
    rw [reduce_iter_dup_lam h2 spos next h0 hp ht]
    exact ⟨rfl, rfl, hr.2.2.2.2.1.1, hr.2.2.2.2.1.2,
      stk_agree_fire spos hs hk1.2.2.2.2.1 hk2.2.2.2.2.1⟩
  · intro h0 hp ht
    have hprev : h1.stk (spos - 1) = h2.stk (spos - 1) := hs _ (by omega)
    rw [hprev] at hp ⊢
    rw [reduce_iter_dup_sup h2 spos next h0 hp ht]
    exact ⟨rfl, rfl, hr.2.2.2.2.2.1, hr.2.2.2.2.2.2,
      stk_agree_fire spos hs hk1.2.2.2.2.2 hk2.2.2.2.2.2⟩
  · intro p1 p2 p3 p4 h0 hn
    have hprev : h1.stk (spos - 1) = h2.stk (spos - 1) := hs _ (by omega)
    rw [hprev] at hn
    rw [reduce_iter_stuck h2 spos next p1 p2 p3 p4 h0 hn]
    exact reduce_exit_sim he (spos - 1) next (fun i hi => hs i (by omega))

theorem reduce_loop_sim (fuel : Nat) :
    ∀ (h1 h2 : Heap) (spos next : Nat), heap_eqv h1 h2 → stk_agree h1 h2 spos →
      opt_sim [] (reduce_loop fuel h1 spos next) (reduce_loop fuel h2 spos next) := by
  induction fuel with
  | zero => intro h1 h2 spos next _ _; exact trivial
  | succ n ih =>
    intro h1 h2 spos next he hs
    have hsim := reduce_iter_sim he spos next hs
    cases e1 : reduce_iter h1 spos next with
    | stop g1 t1 =>
      cases e2 : reduce_iter h2 spos next with
      | stop g2 t2 =>
        rw [e1, e2] at hsim
        rw [reduce_loop_stop n h1 spos next g1 t1 e1, reduce_loop_stop n h2 spos next g2 t2 e2]
        exact ⟨hsim.1, rfl, hsim.2⟩
      | go f2 g2 s2 n2 => rw [e1, e2] at hsim; exact hsim.elim
    | go f1 g1 s1 n1 =>
      cases e2 : reduce_iter h2 spos next with
      | stop g2 t2 => rw [e1, e2] at hsim; exact hsim.elim
      | go f2 g2 s2 n2 =>
        rw [e1, e2] at hsim
        obtain ⟨hf, hs1, hn1, hg, ha⟩ := hsim
        subst hf hs1 hn1
        rw [reduce_loop_go n h1 spos next f1 g1 s1 n1 e1,
          reduce_loop_go n h2 spos next f1 g2 s1 n1 e2]
        have hrec := ih g1 g2 s1 n1 hg ha
        cases x1 : reduce_loop n g1 s1 n1 with
        | none =>
          cases x2 : reduce_loop n g2 s1 n1 with
          | none => exact trivial
          | some r2 => rw [x1, x2] at hrec; exact hrec.elim
        | some r1 =>
          cases x2 : reduce_loop n g2 s1 n1 with
          | none => rw [x1, x2] at hrec; exact hrec.elim
          | some r2 =>
            rw [x1, x2] at hrec
            obtain ⟨ht, hfi, hh⟩ := hrec
            refine ⟨ht, ?_, hh⟩
            show f1.toList ++ r1.fired = [] ++ (f1.toList ++ r2.fired)
            rw [hfi]
            rfl

theorem opt_sim_some_left {pre : List Rule} {o1 o2 : Option Run} (h : opt_sim pre o1 o2)
    (r1 : Run) (h1 : o1 = some r1) : ∃ r2, o2 = some r2 ∧ run_sim pre r1 r2 := by
  subst h1
  cases o2 with
  | none => exact h.elim
  | some r2 => exact ⟨r2, rfl, h⟩

theorem opt_sim_some_right {pre : List Rule} {o1 o2 : Option Run} (h : opt_sim pre o1 o2)
    (r2 : Run) (h2 : o2 = some r2) : ∃ r1, o1 = some r1 ∧ run_sim pre r1 r2 := by
  subst h2
  cases o1 with
  | none => exact h.elim
  | some r1 => exact ⟨r1, rfl, h⟩

theorem normal_body_sim (rec : Heap → Nat → Option Run)
    (hrec : ∀ (h1 h2 : Heap) (t : Nat), heap_eqv h1 h2 → opt_sim [] (rec h1 t) (rec h2 t))
    (pre : List Rule) (r1 r2 r : Run) (hsim : run_sim pre r1 r2)
    (h : normal_body rec r1 = some r) :
    ∃ r', normal_body rec r2 = some r' ∧ run_sim pre r r' := by
  obtain ⟨ht, hf, hh⟩ := hsim
  unfold normal_body at h ⊢
  dsimp only at h ⊢
  rw [← ht, ← got_eqv hh, ← got_eqv hh, ← got_eqv hh]
  split_ifs at h ⊢
  · cases x1 : rec r1.heap (got r1.heap (u32 (get_loc r1.term + 0))) with
    | none => rw [x1] at h; simp at h
    | some q1 =>
      rw [x1] at h
      obtain ⟨q1', y1, s1⟩ := opt_sim_some_left (hrec _ r2.heap _ hh) q1 x1
      rw [y1]
      dsimp only at h ⊢
      rw [← got_eqv s1.2.2]
      cases x2 : rec q1.heap (got q1.heap (u32 (get_loc r1.term + 1))) with
      | none => rw [x2] at h; simp at h
      | some q2 =>
        rw [x2] at h
        obtain ⟨q2', y2, s2⟩ := opt_sim_some_left (hrec _ q1'.heap _ s1.2.2) q2 x2
        rw [y2]
        refine ⟨_, rfl, ?_⟩
        rw [← Option.some.inj h]
        refine ⟨rfl, ?_, ?_⟩
        · show r1.fired ++ q1.fired ++ q2.fired = pre ++ (r2.fired ++ q1'.fired ++ q2'.fired)
          rw [hf, s1.2.1, s2.2.1]
          simp
        · rw [s1.1, s2.1]
          exact set_eqv (set_eqv s2.2.2 _ _) _ _
  · cases x1 : rec r1.heap (got r1.heap (u32 (get_loc r1.term + 1))) with
    | none => rw [x1] at h; simp at h
    | some q1 =>
      rw [x1] at h
      obtain ⟨q1', y1, s1⟩ := opt_sim_some_left (hrec _ r2.heap _ hh) q1 x1
      rw [y1]
      refine ⟨_, rfl, ?_⟩
      rw [← Option.some.inj h]
      refine ⟨rfl, ?_, ?_⟩
      · show r1.fired ++ q1.fired = pre ++ (r2.fired ++ q1'.fired)
        rw [hf, s1.2.1]
        simp
      · rw [s1.1]
        exact set_eqv s1.2.2 _ _
  · cases x1 : rec r1.heap (got r1.heap (u32 (get_loc r1.term + 0))) with
    | none => rw [x1] at h; simp at h
    | some q1 =>
      rw [x1] at h
      obtain ⟨q1', y1, s1⟩ := opt_sim_some_left (hrec _ r2.heap _ hh) q1 x1
      rw [y1]
      dsimp only at h ⊢
      rw [← got_eqv s1.2.2]
      cases x2 : rec q1.heap (got q1.heap (u32 (get_loc r1.term + 1))) with
      | none => rw [x2] at h; simp at h
      | some q2 =>
        rw [x2] at h
        obtain ⟨q2', y2, s2⟩ := opt_sim_some_left (hrec _ q1'.heap _ s1.2.2) q2 x2
        rw [y2]
        refine ⟨_, rfl, ?_⟩
        rw [← Option.some.inj h]
        refine ⟨rfl, ?_, ?_⟩
        · show r1.fired ++ q1.fired ++ q2.fired = pre ++ (r2.fired ++ q1'.fired ++ q2'.fired)
          rw [hf, s1.2.1, s2.2.1]
          simp
        · rw [s1.1, s2.1]
          exact set_eqv (set_eqv s2.2.2 _ _) _ _
  · cases x1 : rec r1.heap (got r1.heap (u32 (get_loc r1.term + 2))) with
    | none => rw [x1] at h; simp at h
    | some q1 =>
      rw [x1] at h
      obtain ⟨q1', y1, s1⟩ := opt_sim_some_left (hrec _ r2.heap _ hh) q1 x1
      rw [y1]
      refine ⟨_, rfl, ?_⟩
      rw [← Option.some.inj h]
      refine ⟨rfl, ?_, ?_⟩
      · show r1.fired ++ q1.fired = pre ++ (r2.fired ++ q1'.fired)
        rw [hf, s1.2.1]
        simp
      · rw [s1.1]
        exact set_eqv s1.2.2 _ _
  · cases x1 : rec r1.heap (got r1.heap (u32 (get_loc r1.term + 2))) with
    | none => rw [x1] at h; simp at h
    | some q1 =>
      rw [x1] at h
      obtain ⟨q1', y1, s1⟩ := opt_sim_some_left (hrec _ r2.heap _ hh) q1 x1
      rw [y1]
      refine ⟨_, rfl, ?_⟩
      rw [← Option.some.inj h]
      refine ⟨rfl, ?_, ?_⟩
      · show r1.fired ++ q1.fired = pre ++ (r2.fired ++ q1'.fired)
        rw [hf, s1.2.1]
        simp
      · rw [s1.1]
        exact set_eqv s1.2.2 _ _
  · refine ⟨_, rfl, ?_⟩
    rw [← Option.some.inj h]
    exact ⟨ht, hf, hh⟩

theorem normal_sim (fuel : Nat) :
    ∀ (h1 h2 : Heap) (t : Nat), heap_eqv h1 h2 →
      opt_sim [] (normal fuel h1 t) (normal fuel h2 t) := by
  induction fuel with
  | zero => intro h1 h2 t _; exact trivial
  | succ n ih =>
    intro h1 h2 t he
    have hred := reduce_loop_sim n h1 h2 0 t he (fun _ hi => absurd hi (Nat.not_lt_zero _))
    have heqv_symm : heap_eqv h2 h1 := ⟨he.1.symm, he.2.symm⟩
    rw [normal_succ_eq, normal_succ_eq]
    cases x1 : reduce n h1 t with
    | none =>
      cases x2 : reduce n h2 t with
      | none => exact trivial
      | some r2 =>
        unfold reduce at x1 x2
        rw [x1, x2] at hred
        exact hred.elim
    | some r1 =>
      cases x2 : reduce n h2 t with
      | none =>
        unfold reduce at x1 x2
        rw [x1, x2] at hred
        exact hred.elim
      | some r2 =>
        have hs : run_sim [] r1 r2 := by
          unfold reduce at x1 x2
          rw [x1, x2] at hred
          exact hred
        have hs' : run_sim [] r2 r1 :=
          ⟨hs.1.symm, by rw [hs.2.1]; rfl, ⟨hs.2.2.1.symm, hs.2.2.2.symm⟩⟩
        simp only [Option.some_bind]
        cases y1 : normal_body (normal n) r1 with
        | none =>
          cases y2 : normal_body (normal n) r2 with
          | none => exact trivial
          | some q2 =>
            obtain ⟨q1, z1, _⟩ := normal_body_sim (normal n) ih [] r2 r1 q2 hs' y2
            rw [y1] at z1
            exact absurd z1 (by simp)
        | some q1 =>
          obtain ⟨q2, z2, hq⟩ := normal_body_sim (normal n) ih [] r1 r2 q1 hs y1
          rw [z2]
          exact hq


theorem normal_body_sim_rev (rec : Heap → Nat → Option Run)
    (hrec : ∀ (h1 h2 : Heap) (t : Nat), heap_eqv h1 h2 → opt_sim [] (rec h1 t) (rec h2 t))
    (pre : List Rule) (r1 r2 r' : Run) (hsim : run_sim pre r1 r2)
    (h : normal_body rec r2 = some r') :
    ∃ r, normal_body rec r1 = some r ∧ run_sim pre r r' := by
  obtain ⟨ht, hf, hh⟩ := hsim
  unfold normal_body at h ⊢
  dsimp only at h ⊢
  rw [ht, got_eqv hh, got_eqv hh, got_eqv hh]
  split_ifs at h ⊢
  · cases x1 : rec r2.heap (got r2.heap (u32 (get_loc r2.term + 0))) with
    | none => rw [x1] at h; simp at h
    | some q1' =>
      rw [x1] at h
      obtain ⟨q1, y1, s1⟩ := opt_sim_some_right (hrec r1.heap _ _ hh) q1' x1
      rw [y1]
      dsimp only at h ⊢
      rw [got_eqv s1.2.2]
      cases x2 : rec q1'.heap (got q1'.heap (u32 (get_loc r2.term + 1))) with
      | none => rw [x2] at h; simp at h
      | some q2' =>
        rw [x2] at h
        obtain ⟨q2, y2, s2⟩ := opt_sim_some_right (hrec q1.heap _ _ s1.2.2) q2' x2
        rw [y2]
        refine ⟨_, rfl, ?_⟩
        rw [← Option.some.inj h]
        refine ⟨rfl, ?_, ?_⟩
        · show r1.fired ++ q1.fired ++ q2.fired = pre ++ (r2.fired ++ q1'.fired ++ q2'.fired)
          rw [hf, s1.2.1, s2.2.1]
          simp
        · rw [s1.1, s2.1]
          exact set_eqv (set_eqv s2.2.2 _ _) _ _
  · cases x1 : rec r2.heap (got r2.heap (u32 (get_loc r2.term + 1))) with
    | none => rw [x1] at h; simp at h
    | some q1' =>
      rw [x1] at h
      obtain ⟨q1, y1, s1⟩ := opt_sim_some_right (hrec r1.heap _ _ hh) q1' x1
      rw [y1]
      refine ⟨_, rfl, ?_⟩
      rw [← Option.some.inj h]
      refine ⟨rfl, ?_, ?_⟩
      · show r1.fired ++ q1.fired = pre ++ (r2.fired ++ q1'.fired)
        rw [hf, s1.2.1]
        simp
      · rw [s1.1]
        exact set_eqv s1.2.2 _ _
  · cases x1 : rec r2.heap (got r2.heap (u32 (get_loc r2.term + 0))) with
    | none => rw [x1] at h; simp at h
    | some q1' =>
      rw [x1] at h
      obtain ⟨q1, y1, s1⟩ := opt_sim_some_right (hrec r1.heap _ _ hh) q1' x1
      rw [y1]
      dsimp only at h ⊢
      rw [got_eqv s1.2.2]
      cases x2 : rec q1'.heap (got q1'.heap (u32 (get_loc r2.term + 1))) with
      | none => rw [x2] at h; simp at h
      | some q2' =>
        rw [x2] at h
        obtain ⟨q2, y2, s2⟩ := opt_sim_some_right (hrec q1.heap _ _ s1.2.2) q2' x2
        rw [y2]
        refine ⟨_, rfl, ?_⟩
        rw [← Option.some.inj h]
        refine ⟨rfl, ?_, ?_⟩
        · show r1.fired ++ q1.fired ++ q2.fired = pre ++ (r2.fired ++ q1'.fired ++ q2'.fired)
          rw [hf, s1.2.1, s2.2.1]
          simp
        · rw [s1.1, s2.1]
          exact set_eqv (set_eqv s2.2.2 _ _) _ _
  · cases x1 : rec r2.heap (got r2.heap (u32 (get_loc r2.term + 2))) with
    | none => rw [x1] at h; simp at h
    | some q1' =>
      rw [x1] at h
      obtain ⟨q1, y1, s1⟩ := opt_sim_some_right (hrec r1.heap _ _ hh) q1' x1
      rw [y1]
      refine ⟨_, rfl, ?_⟩
      rw [← Option.some.inj h]
      refine ⟨rfl, ?_, ?_⟩
      · show r1.fired ++ q1.fired = pre ++ (r2.fired ++ q1'.fired)
        rw [hf, s1.2.1]
        simp
      · rw [s1.1]
        exact set_eqv s1.2.2 _ _
  · cases x1 : rec r2.heap (got r2.heap (u32 (get_loc r2.term + 2))) with
    | none => rw [x1] at h; simp at h
    | some q1' =>
      rw [x1] at h
      obtain ⟨q1, y1, s1⟩ := opt_sim_some_right (hrec r1.heap _ _ hh) q1' x1
      rw [y1]
      refine ⟨_, rfl, ?_⟩
      rw [← Option.some.inj h]
      refine ⟨rfl, ?_, ?_⟩
      · show r1.fired ++ q1.fired = pre ++ (r2.fired ++ q1'.fired)
        rw [hf, s1.2.1]
        simp
      · rw [s1.1]
        exact set_eqv s1.2.2 _ _
  · refine ⟨_, rfl, ?_⟩
    rw [← Option.some.inj h]
    exact ⟨ht, hf, hh⟩

/-! ## Identity application (C13) -/

/-- The first three loop passes of `reduce` on `(λx.x) a`: push the
application, fire `APP_LAM`, dereference the bound variable. -/
theorem reduce_app_id_prefix (fuel : Nat) (heap : Heap) (t L a : Nat)
    (ht : get_tag t = APP) (hlam : get_tag (got heap (get_loc t)) = LAM)
    (hL : get_loc (got heap (get_loc t)) = L)
    (hv : get_tag (got heap (u32 (L + 1))) = VAR)
    (hvl : get_loc (got heap (u32 (L + 1))) = L)
    (hA1 : got heap (u32 (get_loc t + 1)) = a) (ha : get_tag a ≠ SUB) :
    reduce (fuel + 3) heap t =
      (reduce_loop fuel (set (inc_itr (stk_set heap 0 t)).1 L a) 0 a).map
        (fun r => ⟨r.heap, r.term, Rule.APP_LAM :: r.fired⟩) := by
  have s1 : reduce_iter heap 0 t =
      .go none (stk_set heap 0 t) 1 (got heap (get_loc t)) := by
    rw [reduce_iter_app heap 0 t ht, u32_get_loc_add_zero]
    rfl
  have s2 := reduce_iter_app_lam_eq (stk_set heap 0 t) 1 (got heap (get_loc t)) t
    (by decide) (stk_set_stk_self _ _ _) ht hlam
  rw [hL, got_stk_set, got_stk_set, hA1] at s2
  have k3 : get_key (got heap (u32 (L + 1))) = L := by
    rw [(get_key_loc _).1 (Or.inl hv), hvl]
  have c3 : got (set (inc_itr (stk_set heap 0 t)).1 L a) L = a := got_set_eq _ _ _ _ rfl
  have s3 : reduce_iter (set (inc_itr (stk_set heap 0 t)).1 L a) 0
      (got heap (u32 (L + 1))) = .go none (set (inc_itr (stk_set heap 0 t)).1 L a) 0 a := by
    rw [reduce_iter_var_deref _ 0 _ hv (by rw [k3, c3]; exact ha), k3, c3]
  unfold reduce
  rw [reduce_loop_go_none (fuel + 2) heap 0 t _ _ _ s1,
    reduce_loop_go (fuel + 1) _ 1 _ _ _ _ _ s2,
    reduce_loop_go_none fuel _ 0 _ _ _ _ s3]
  rfl

theorem option_map_eq_some {f : Run → Run} {o : Option Run} {r : Run}
    (h : o.map f = some r) : ∃ q, o = some q ∧ r = f q := by
  cases o with
  | none => simp at h
  | some q => exact ⟨q, rfl, (Option.some.inj h).symm⟩

/-- C13: on a heap holding `A = [LAM(L), a]` and `L = [_, VAR(L)]`, with the
tag of `a` not `SUB`, `normal` of `APP(A)` behaves as `normal` of `a` started
from the heap in which cell `L` holds `a`: one terminates exactly when the
other does, and then they return the same term, the same arena cells and
frontier, and the former fires exactly one rule more (`APP_LAM`, first). -/
theorem normal_app_id (heap : Heap) (t L a : Nat)
    (ht : get_tag t = APP) (hlam : get_tag (got heap (get_loc t)) = LAM)
    (hL : get_loc (got heap (get_loc t)) = L)
    (hv : get_tag (got heap (u32 (L + 1))) = VAR)
    (hvl : get_loc (got heap (u32 (L + 1))) = L)
    (hA1 : got heap (u32 (get_loc t + 1)) = a) (ha : get_tag a ≠ SUB) :
    ((∃ fuel r, normal fuel heap t = some r) ↔
      (∃ fuel r', normal fuel (set heap L a) a = some r')) ∧
    ∀ (fuel fuel' : Nat) (r r' : Run), normal fuel heap t = some r →
      normal fuel' (set heap L a) a = some r' →
      r.term = r'.term ∧ (∀ i, got r.heap i = got r'.heap i) ∧
      r.heap.end_ = r'.heap.end_ ∧ r.fired = Rule.APP_LAM :: r'.fired ∧
      r.fired.length = r'.fired.length + 1 ∧
      (heap.itr < 2 ^ 64 → r.heap.itr = u64 (r'.heap.itr + 1)) := by
  have hpre := fun fuel => reduce_app_id_prefix fuel heap t L a ht hlam hL hv hvl hA1 ha
  have heqv : heap_eqv (set (inc_itr (stk_set heap 0 t)).1 L a) (set heap L a) := ⟨rfl, rfl⟩
  have hempty : ∀ (h1 h2 : Heap), stk_agree h1 h2 0 :=
    fun _ _ _ hi => absurd hi (Nat.not_lt_zero _)
  -- left to right, with the relation between the two results
  have fwd : ∀ (fuel : Nat) (r : Run), normal fuel heap t = some r →
      ∃ r', normal (fuel + 3) (set heap L a) a = some r' ∧ run_sim [Rule.APP_LAM] r r' := by
    intro fuel r hrun
    obtain ⟨n, r0, hn, hred, hbody⟩ :=
      normal_some (fuel + 3) heap t r (normal_mono fuel 3 heap t r hrun)
    have hn' : n = fuel + 2 := by omega
    subst hn'
    obtain ⟨m, hm⟩ : ∃ m, fuel = m + 1 := by
      cases fuel with
      | zero => simp [normal] at hrun
      | succ m => exact ⟨m, rfl⟩
    subst hm
    rw [show m + 1 + 2 = m + 3 from rfl, hpre m] at hred
    obtain ⟨q, hq, hr0⟩ := option_map_eq_some hred
    obtain ⟨q', hq', hsim⟩ := opt_sim_some_left
      (reduce_loop_sim m _ _ 0 a heqv (hempty _ _)) q hq
    have hred' : reduce (m + 3) (set heap L a) a = some q' :=
      reduce_mono m 3 (set heap L a) a q' hq'
    have hsim0 : run_sim [Rule.APP_LAM] r0 q' := by
      rw [hr0]
      exact ⟨hsim.1, by show Rule.APP_LAM :: q.fired = _; rw [hsim.2.1]; rfl, hsim.2.2⟩
    obtain ⟨r', hb', hs'⟩ := normal_body_sim (normal (m + 3)) (normal_sim (m + 3))
      [Rule.APP_LAM] r0 q' r hsim0 hbody
    refine ⟨r', ?_, hs'⟩
    rw [show m + 1 + 3 = m + 3 + 1 from rfl, normal_succ_eq, hred', Option.some_bind]
    exact hb'
  have bwd : ∀ (fuel : Nat) (r' : Run), normal fuel (set heap L a) a = some r' →
      ∃ r, normal (fuel + 4) heap t = some r := by
    intro fuel r' hrun
    obtain ⟨m, q1, hm, hred1, _⟩ := normal_some fuel _ a r' hrun
    subst hm
    have hred2 : reduce (m + 1) (set heap L a) a = some q1 :=
      reduce_mono m 1 (set heap L a) a q1 hred1
    obtain ⟨n, q', hn, hred', hbody'⟩ :=
      normal_some (m + 1 + 4) _ a r' (normal_mono (m + 1) 4 _ a r' hrun)
    have hn' : n = m + 4 := by omega
    subst hn'
    have hqq : q' = q1 := reduce_loop_det (m + 4) m _ 0 a q' q1 hred' hred1
    subst hqq
    obtain ⟨q, hq, hsim⟩ := opt_sim_some_right
      (reduce_loop_sim (m + 1) _ _ 0 a heqv (hempty _ _)) q' hred2
    have hred : reduce (m + 4) heap t =
        some ⟨q.heap, q.term, Rule.APP_LAM :: q.fired⟩ := by
      rw [show m + 4 = m + 1 + 3 from rfl, hpre (m + 1), hq]
      rfl
    have hsim0 : run_sim [Rule.APP_LAM] ⟨q.heap, q.term, Rule.APP_LAM :: q.fired⟩ q' :=
      ⟨hsim.1, by show Rule.APP_LAM :: q.fired = _; rw [hsim.2.1]; rfl, hsim.2.2⟩
    obtain ⟨r, hb, _⟩ := normal_body_sim_rev (normal (m + 4)) (normal_sim (m + 4))
      [Rule.APP_LAM] _ q' r' hsim0 hbody'
    refine ⟨r, ?_⟩
    rw [show m + 1 + 4 = m + 4 + 1 from rfl, normal_succ_eq, hred, Option.some_bind]
    exact hb
  refine ⟨⟨?_, ?_⟩, ?_⟩
  · rintro ⟨fuel, r, hrun⟩
    obtain ⟨r', hr', _⟩ := fwd fuel r hrun
    exact ⟨_, r', hr'⟩
  · rintro ⟨fuel, r', hrun⟩
    obtain ⟨r, hr⟩ := bwd fuel r' hrun
    exact ⟨_, r, hr⟩
  · intro fuel fuel' r r' hrun hrun'
    obtain ⟨r'', hr'', hs⟩ := fwd fuel r hrun
    have hdet : r'' = r' := normal_det _ _ _ a r'' r' hr'' hrun'
    subst hdet
    obtain ⟨hterm, hfired, hmem, hend⟩ := hs
    refine ⟨hterm, fun i => by unfold got; rw [hmem], hend, hfired, ?_, ?_⟩
    · rw [hfired]; simp
    · intro hi
      have c1 := normal_counts fuel heap t r hi hrun
      have c2 := normal_counts fuel' (set heap L a) a r'' hi hrun'
      rw [c1, c2, hfired, u64_add_u64]
      rfl

theorem normal_app_id_witness :
    ∃ r r', normal 7 heap_id (new_term APP 0 0) = some r ∧
      normal 4 (set heap_id 2 (new_term ERA 0 0)) (new_term ERA 0 0) = some r' ∧
      r.term = r'.term ∧ r.fired.length = r'.fired.length + 1 :=
  have hrun : normal 7 heap_id (new_term APP 0 0) =
      some ((normal 7 heap_id (new_term APP 0 0)).get (by decide)) :=
    (Option.some_get _).symm
  have hrun' : normal 4 (set heap_id 2 (new_term ERA 0 0)) (new_term ERA 0 0) =
      some ((normal 4 (set heap_id 2 (new_term ERA 0 0)) (new_term ERA 0 0)).get
        (by decide)) :=
    (Option.some_get _).symm
  have h := (normal_app_id heap_id (new_term APP 0 0) 2 (new_term ERA 0 0) (by decide)
    (by decide) (by decide) (by decide) (by decide) (by decide) (by decide)).2
    7 4 _ _ hrun hrun'
  ⟨_, _, hrun, hrun', h.1, h.2.2.2.2.1⟩

/-- The heap `reduce_dup_lam` leaves when the allocation does not wrap: twelve
stores over the old heap with `end` advanced by 9 and `itr` stepped. -/
theorem reduce_dup_lam_nf (heap : Heap) (dup lam e d l : Nat)
    (he : heap.end_ = e) (hlt : e + 9 < 2 ^ 32)
    (hd : get_loc dup = d) (hl : get_loc lam = l)
    (hd1 : d + 1 < 2 ^ 32) (hl1 : l + 1 < 2 ^ 32) :
    (reduce_dup_lam heap dup lam).1 =
      set (set (set (set (set (set (set (set (set (set (set (set
        { heap with end_ := e + 9, itr := u64 (heap.itr + 1) }
        e (new_term SUB 0 0)) (e + 1) (new_term SUB 0 0)) (e + 2) (got heap (l + 1)))
        (e + 3) (new_term SUB 0 0)) (e + 4) (new_term DP0 0 e))
        (e + 5) (new_term SUB 0 0)) (e + 6) (new_term DP1 0 e))
        (e + 7) (new_term VAR 0 (e + 3))) (e + 8) (new_term VAR 0 (e + 5)))
        d (new_term LAM 0 (e + 3))) (d + 1) (new_term LAM 0 (e + 5)))
        l (new_term SUP 0 (e + 7)) ∧
    (reduce_dup_lam heap dup lam).2 =
      got (reduce_dup_lam heap dup lam).1 (u32 (d + if get_tag dup = DP0 then 0 else 1)) := by
  subst he hd hl
  constructor
  · simp (disch := omega) only [reduce_dup_lam, inc_itr, alloc_node, u32_of_lt, u64_of_lt,
      u32_get_loc, Nat.add_assoc, Nat.reduceAdd, Nat.add_zero]
    rfl
  · rfl

/-! ## Duplicated identity (C16) -/

theorem reduce_dup_sup_eq (heap : Heap) (dup sup : Nat) :
    reduce_dup_sup heap dup sup =
      (set (set (inc_itr heap).1 (get_loc dup) (got heap (get_loc sup)))
          (u32 (get_loc dup + 1)) (got heap (u32 (get_loc sup + 1))),
        got (set (set (inc_itr heap).1 (get_loc dup) (got heap (get_loc sup)))
          (u32 (get_loc dup + 1)) (got heap (u32 (get_loc sup + 1))))
          (u32 (get_loc dup + if get_tag dup = DP0 then 0 else 1))) := by
  unfold reduce_dup_sup
  simp only [u32_get_loc_add_zero]
  rfl

/-- The cells `reduce_dup_lam` leaves when the allocation does not wrap and
the two nodes lie below the frontier, apart from each other. -/
theorem reduce_dup_lam_cells (heap : Heap) (dup lam e d l : Nat)
    (he : heap.end_ = e) (hlt : e + 9 < 2 ^ 32)
    (hd : get_loc dup = d) (hl : get_loc lam = l)
    (hde : d + 1 < e) (hle : l + 1 < e) (hld : l ≠ d) (hld1 : l ≠ d + 1) :
    (reduce_dup_lam heap dup lam).1.stk = heap.stk ∧
    (reduce_dup_lam heap dup lam).1.end_ = e + 9 ∧
    got (reduce_dup_lam heap dup lam).1 e = new_term SUB 0 0 ∧
    got (reduce_dup_lam heap dup lam).1 (e + 2) = got heap (l + 1) ∧
    got (reduce_dup_lam heap dup lam).1 (e + 4) = new_term DP0 0 e ∧
    got (reduce_dup_lam heap dup lam).1 (e + 6) = new_term DP1 0 e ∧
    got (reduce_dup_lam heap dup lam).1 (e + 7) = new_term VAR 0 (e + 3) ∧
    got (reduce_dup_lam heap dup lam).1 (e + 8) = new_term VAR 0 (e + 5) ∧
    got (reduce_dup_lam heap dup lam).1 d = new_term LAM 0 (e + 3) ∧
    got (reduce_dup_lam heap dup lam).1 (d + 1) = new_term LAM 0 (e + 5) ∧
    got (reduce_dup_lam heap dup lam).1 l = new_term SUP 0 (e + 7) ∧
    (∀ i, i < e → i ≠ d → i ≠ d + 1 → i ≠ l →
      got (reduce_dup_lam heap dup lam).1 i = got heap i) ∧
    (get_tag dup = DP0 → (reduce_dup_lam heap dup lam).2 = new_term LAM 0 (e + 3)) := by
  obtain ⟨n1, n2⟩ := reduce_dup_lam_nf heap dup lam e d l he hlt hd hl (by omega) (by omega)
  have hD : got (reduce_dup_lam heap dup lam).1 d = new_term LAM 0 (e + 3) := by
    rw [n1]; simp (disch := omega) only [got_set_ne, got_set_eq]
  have hbase : ∀ i, got { heap with end_ := e + 9, itr := u64 (heap.itr + 1) } i =
      got heap i := fun _ => rfl
  refine ⟨(rule_stk heap dup lam).2.2.2.2.1, ?_, ?_, ?_, ?_, ?_, ?_, ?_, hD, ?_, ?_, ?_, ?_⟩
  · rw [n1]; simp only [set_heap_end]
  · rw [n1]; simp (disch := omega) only [got_set_ne, got_set_eq]
  · rw [n1]; simp (disch := omega) only [got_set_ne, got_set_eq]
  · rw [n1]; simp (disch := omega) only [got_set_ne, got_set_eq]
  · rw [n1]; simp (disch := omega) only [got_set_ne, got_set_eq]
  · rw [n1]; simp (disch := omega) only [got_set_ne, got_set_eq]
  · rw [n1]; simp (disch := omega) only [got_set_ne, got_set_eq]
  · rw [n1]; simp (disch := omega) only [got_set_ne, got_set_eq]
  · rw [n1]; simp (disch := omega) only [got_set_ne, got_set_eq]
  · intro i h1 h2 h3 h4
    rw [n1]; simp (disch := omega) only [got_set_ne, hbase]
  · intro h
    rw [n2, if_pos h, Nat.add_zero, u32_of_lt (by omega), hD]

/-- Passes 4 to 9 of the first run of C16, from the heap `H` that `DUP_LAM`
left: `APP(A0)` meets the copy `LAM(e + 3)`, whose body `DP0(e)` resolves
through `DUP_SUP` to the bound variable. -/
theorem dup_id_first_tail (fuel : Nat) (H : Heap) (e L A0 a : Nat)
    (hlt : e + 9 < 2 ^ 32) (hA0 : A0 + 1 < e) (hL : L + 1 < e)
    (k0 : H.stk 0 = new_term APP 0 A0)
    (cA01 : got H (A0 + 1) = a) (ce : got H e = new_term SUB 0 0)
    (ce2 : got H (e + 2) = new_term VAR 0 L) (ce4 : got H (e + 4) = new_term DP0 0 e)
    (ce7 : got H (e + 7) = new_term VAR 0 (e + 3))
    (ce8 : got H (e + 8) = new_term VAR 0 (e + 5))
    (cL : got H L = new_term SUP 0 (e + 7))
    (ha : get_tag a = ERA ∨ get_tag a = LAM ∨ get_tag a = SUP) :
    ∃ H7, reduce_loop (fuel + 6) H 1 (new_term LAM 0 (e + 3)) =
        some ⟨H7, a, [Rule.APP_LAM, Rule.DUP_SUP]⟩ ∧
      H7.end_ = H.end_ ∧ got H7 (e + 1) = new_term VAR 0 (e + 5) ∧
      (∀ i, i ≠ e → i ≠ e + 1 → i ≠ e + 3 → got H7 i = got H i) := by
  have fA := new_term_fields APP 0 A0 (by decide) (by decide) (by omega)
  have fv := new_term_fields VAR 0 L (by decide) (by decide) (by omega)
  have fs := new_term_fields SUB 0 0 (by decide) (by decide) (by decide)
  have fl3 := new_term_fields LAM 0 (e + 3) (by decide) (by decide) (by omega)
  have fd0 := new_term_fields DP0 0 e (by decide) (by decide) (by omega)
  have fsp := new_term_fields SUP 0 (e + 7) (by decide) (by decide) (by omega)
  have fv3 := new_term_fields VAR 0 (e + 3) (by decide) (by decide) (by omega)
  -- pass 4: `APP(A0)` meets the copy `LAM(e + 3)`
  have s4 := reduce_iter_app_lam_eq H 1 (new_term LAM 0 (e + 3))
    (new_term APP 0 A0) (by decide) k0 fA.1 fl3.1
  rw [fl3.2.2, fA.2.2, u32_of_lt (by omega : A0 + 1 < 2 ^ 32),
    u32_of_lt (by omega : e + 3 + 1 < 2 ^ 32), cA01, ce4, show 1 - 1 = 0 from rfl] at s4
  obtain ⟨H4, hH4⟩ : ∃ G, G = set (inc_itr H).1 (e + 3) a := ⟨_, rfl⟩
  rw [← hH4] at s4
  have c4 : ∀ i, i ≠ e + 3 → got H4 i = got H i := by
    intro i hi
    rw [hH4, got_set_ne _ _ _ _ hi, got_inc_itr]
  have c4a : got H4 (e + 3) = a := by rw [hH4, got_set_eq _ _ _ _ rfl]
  have e4 : H4.end_ = H.end_ := by rw [hH4]; rfl
  -- pass 5: `DP0(e)` is unresolved: push it, descend into its body
  have k5 : get_key (new_term DP0 0 e) = e := by
    rw [(get_key_loc _).1 (Or.inr fd0.1), fd0.2.2]
  have s5 : reduce_iter H4 0 (new_term DP0 0 e) =
      .go none (stk_set H4 0 (new_term DP0 0 e)) 1 (new_term VAR 0 L) := by
    rw [reduce_iter_dup_push _ 0 _ (Or.inl fd0.1)
      (by rw [k5, c4 _ (by omega), ce]; exact fs.1)]
    rw [fd0.2.2, u32_of_lt (by omega : e + 2 < 2 ^ 32), c4 _ (by omega), ce2]
    rfl
  obtain ⟨H5, hH5⟩ : ∃ G, G = stk_set H4 0 (new_term DP0 0 e) := ⟨_, rfl⟩
  rw [← hH5] at s5
  have c5 : ∀ i, got H5 i = got H4 i := fun i => by rw [hH5]; rfl
  have k50 : H5.stk 0 = new_term DP0 0 e := by rw [hH5, stk_set_stk_self]
  -- pass 6: `VAR(L)` dereferences to `SUP(e + 7)`
  have k6 : get_key (new_term VAR 0 L) = L := by
    rw [(get_key_loc _).1 (Or.inl fv.1), fv.2.2]
  have c5L : got H5 L = new_term SUP 0 (e + 7) := by rw [c5, c4 _ (by omega), cL]
  have s6 : reduce_iter H5 1 (new_term VAR 0 L) =
      .go none H5 1 (new_term SUP 0 (e + 7)) := by
    rw [reduce_iter_var_deref _ 1 _ fv.1 (by rw [k6, c5L, fsp.1]; decide), k6, c5L]
  -- pass 7: `DP0(e)` meets `SUP(e + 7)`
  have s7 := reduce_iter_dup_sup H5 1 (new_term SUP 0 (e + 7)) (by decide)
    (by rw [show 1 - 1 = 0 from rfl, k50]; exact Or.inl fd0.1) fsp.1
  rw [show 1 - 1 = 0 from rfl, k50, reduce_dup_sup_eq] at s7
  simp (disch := omega) only [fd0.2.2, fsp.2.2, fd0.1, if_true, Nat.add_zero, u32_of_lt,
    c5, c4, ce7, ce8, got_set_ne, got_set_eq] at s7
  obtain ⟨H7, hH7⟩ : ∃ G, G = set (set (inc_itr H5).1 e (new_term VAR 0 (e + 3)))
      (e + 1) (new_term VAR 0 (e + 5)) := ⟨_, rfl⟩
  rw [← hH7] at s7
  have c7 : ∀ i, i ≠ e → i ≠ e + 1 → got H7 i = got H4 i := by
    intro i h1 h2
    rw [hH7, got_set_ne _ _ _ _ h2, got_set_ne _ _ _ _ h1, got_inc_itr, c5]
  -- pass 8: `VAR(e + 3)` dereferences to `a`; pass 9: `a` on an empty stack
  have k8 : get_key (new_term VAR 0 (e + 3)) = e + 3 := by
    rw [(get_key_loc _).1 (Or.inl fv3.1), fv3.2.2]
  have c7a : got H7 (e + 3) = a := by rw [c7 _ (by omega) (by omega), c4a]
  have hasub : get_tag a ≠ SUB := by
    rcases ha with h | h | h <;> rw [h] <;> decide
  have s8 : reduce_iter H7 0 (new_term VAR 0 (e + 3)) = .go none H7 0 a := by
    rw [reduce_iter_var_deref _ 0 _ fv3.1 (by rw [k8, c7a]; exact hasub), k8, c7a]
  obtain ⟨p1, p2, p3⟩ := passive_of_tag a ha
  have s9 := reduce_iter_passive_empty H7 a p1 p2 p3
  have r9 := reduce_loop_stop fuel H7 0 a H7 a s9
  have r8 := reduce_loop_go_some (fuel + 1) _ _ _ _ _ _ _ _ s8 r9
  have r7 := reduce_loop_go_some (fuel + 2) _ _ _ _ _ _ _ _ s7 r8
  have r6 := reduce_loop_go_some (fuel + 3) _ _ _ _ _ _ _ _ s6 r7
  have r5 := reduce_loop_go_some (fuel + 4) _ _ _ _ _ _ _ _ s5 r6
  have r4 := reduce_loop_go_some (fuel + 5) _ _ _ _ _ _ _ _ s4 r5
  refine ⟨H7, r4, ?_, ?_, ?_⟩
  · rw [hH7]
    show H5.end_ = H.end_
    rw [hH5]
    exact e4
  · rw [hH7, got_set_eq _ _ _ _ rfl]
  · intro i h1 h2 h3
    rw [c7 _ h1 h2, c4 _ h3]


/-- The first run of C16: `reduce` of `APP(A0)`, where cell `A0` holds
`DP0(D)`, the duplicator `D` is unresolved and its body is `λx.x`. -/
theorem dup_id_first (fuel : Nat) (heap : Heap) (e D L A0 a : Nat)
    (he : heap.end_ = e) (hlt : e + 9 < 2 ^ 32)
    (hD : D + 2 < e) (hL : L + 1 < e) (hA0 : A0 + 1 < e)
    (dDL : D + 2 < L ∨ L + 1 < D) (dDA0 : D + 2 < A0 ∨ A0 + 1 < D)
    (dLA0 : L + 1 < A0 ∨ A0 + 1 < L)
    (cD0 : got heap D = new_term SUB 0 0)
    (cD2 : got heap (D + 2) = new_term LAM 0 L)
    (cL1 : got heap (L + 1) = new_term VAR 0 L)
    (cA00 : got heap A0 = new_term DP0 0 D) (cA01 : got heap (A0 + 1) = a)
    (ha : get_tag a = ERA ∨ get_tag a = LAM ∨ get_tag a = SUP) :
    ∃ r0, reduce (fuel + 9) heap (new_term APP 0 A0) = some r0 ∧ r0.term = a ∧
      r0.fired = [Rule.DUP_LAM, Rule.APP_LAM, Rule.DUP_SUP] ∧
      r0.heap.end_ = e + 9 ∧
      got r0.heap (D + 1) = new_term LAM 0 (e + 5) ∧
      got r0.heap (e + 6) = new_term DP1 0 e ∧
      got r0.heap (e + 1) = new_term VAR 0 (e + 5) ∧
      (∀ i, i < e → i ≠ D → i ≠ D + 1 → i ≠ L → got r0.heap i = got heap i) := by
  have fA := new_term_fields APP 0 A0 (by decide) (by decide) (by omega)
  have fD := new_term_fields DP0 0 D (by decide) (by decide) (by omega)
  have fl := new_term_fields LAM 0 L (by decide) (by decide) (by omega)
  have fs := new_term_fields SUB 0 0 (by decide) (by decide) (by decide)
  -- pass 1: push `APP(A0)`
  have s1 : reduce_iter heap 0 (new_term APP 0 A0) =
      .go none (stk_set heap 0 (new_term APP 0 A0)) 1 (new_term DP0 0 D) := by
    rw [reduce_iter_app heap 0 _ fA.1]
    simp (disch := omega) only [fA.2.2, u32_of_lt, Nat.add_zero, Nat.zero_add, cA00]
  -- pass 2: `DP0(D)` is unresolved: push it, descend into its body
  have k2 : get_key (new_term DP0 0 D) = D := by
    rw [(get_key_loc _).1 (Or.inr fD.1), fD.2.2]
  have s2 : reduce_iter (stk_set heap 0 (new_term APP 0 A0)) 1 (new_term DP0 0 D) =
      .go none (stk_set (stk_set heap 0 (new_term APP 0 A0)) 1 (new_term DP0 0 D)) 2
        (new_term LAM 0 L) := by
    rw [reduce_iter_dup_push _ 1 _ (Or.inl fD.1) (by rw [k2, got_stk_set, cD0]; exact fs.1)]
    simp (disch := omega) only [fD.2.2, u32_of_lt, Nat.reduceAdd, got_stk_set, cD2]
  obtain ⟨H2, hH2⟩ : ∃ G, G = stk_set (stk_set heap 0 (new_term APP 0 A0)) 1
      (new_term DP0 0 D) := ⟨_, rfl⟩
  rw [← hH2] at s2
  have k20 : H2.stk 0 = new_term APP 0 A0 := by
    rw [hH2, stk_set_stk_ne _ _ _ _ (by decide), stk_set_stk_self]
  have k21 : H2.stk 1 = new_term DP0 0 D := by rw [hH2, stk_set_stk_self]
  have c2 : ∀ i, got H2 i = got heap i := fun i => by rw [hH2]; rfl
  have e2 : H2.end_ = e := by rw [hH2]; exact he
  -- pass 3: `DP0(D)` meets `LAM(L)`
  have s3 := reduce_iter_dup_lam H2 2 (new_term LAM 0 L) (by decide)
    (by rw [show 2 - 1 = 1 from rfl, k21]; exact Or.inl fD.1) fl.1
  rw [show 2 - 1 = 1 from rfl, k21] at s3
  obtain ⟨q1, q2, q3, q4, q5, q6, q7, q8, q9, q10, q11, q12, q13⟩ :=
    reduce_dup_lam_cells H2 (new_term DP0 0 D) (new_term LAM 0 L) e D L e2 hlt fD.2.2
      fl.2.2 (by omega) hL (by omega) (by omega)
  rw [q13 fD.1] at s3
  obtain ⟨H3, hH3⟩ : ∃ G, G = (reduce_dup_lam H2 (new_term DP0 0 D)
      (new_term LAM 0 L)).1 := ⟨_, rfl⟩
  rw [← hH3] at s3 q1 q2 q3 q4 q5 q6 q7 q8 q9 q10 q11 q12
  -- passes 4 to 9
  obtain ⟨H7, r4, t1, t2, t3⟩ := dup_id_first_tail fuel H3 e L A0 a hlt hA0 hL
    (by rw [q1, k20]) (by rw [q12 _ hA0 (by omega) (by omega) (by omega), c2, cA01])
    q3 (by rw [q4, c2, cL1]) q5 q7 q8 q11 ha
  have r3 := reduce_loop_go_some (fuel + 6) _ _ _ _ _ _ _ _ s3 r4
  have r2 := reduce_loop_go_some (fuel + 7) _ _ _ _ _ _ _ _ s2 r3
  have r1 : reduce (fuel + 9) heap (new_term APP 0 A0) =
      some ⟨H7, a, [Rule.DUP_LAM, Rule.APP_LAM, Rule.DUP_SUP]⟩ :=
    reduce_loop_go_some (fuel + 8) _ _ _ _ _ _ _ _ s1 r2
  refine ⟨_, r1, rfl, rfl, ?_, ?_, ?_, t2, ?_⟩
  · show H7.end_ = e + 9
    rw [t1, q2]
  · show got H7 (D + 1) = _
    rw [t3 _ (by omega) (by omega) (by omega), q10]
  · show got H7 (e + 6) = _
    rw [t3 _ (by omega) (by omega) (by omega), q6]
  · intro i h1 h2 h3 h4
    show got H7 i = _
    rw [t3 _ (by omega) (by omega) (by omega), q12 i h1 h2 h3 h4, c2]

/-- The second run of C16: `reduce` of `APP(A1)`, where cell `A1` holds
`DP1(D)` and the duplicator `D` has been resolved by the first run. -/
theorem dup_id_second (fuel : Nat) (H : Heap) (e D A1 b : Nat)
    (hlt : e + 9 < 2 ^ 32) (hD : D + 2 < e) (hA1 : A1 + 1 < e)
    (cA10 : got H A1 = new_term DP1 0 D) (cA11 : got H (A1 + 1) = b)
    (cD1 : got H (D + 1) = new_term LAM 0 (e + 5))
    (ce6 : got H (e + 6) = new_term DP1 0 e)
    (ce1 : got H (e + 1) = new_term VAR 0 (e + 5))
    (hb : get_tag b = ERA ∨ get_tag b = LAM ∨ get_tag b = SUP) :
    ∃ r1, reduce (fuel + 6) H (new_term APP 0 A1) = some r1 ∧ r1.term = b ∧
      r1.fired = [Rule.APP_LAM] ∧ r1.heap.end_ = H.end_ := by
  have fA := new_term_fields APP 0 A1 (by decide) (by decide) (by omega)
  have fD := new_term_fields DP1 0 D (by decide) (by decide) (by omega)
  have fl5 := new_term_fields LAM 0 (e + 5) (by decide) (by decide) (by omega)
  have fd1 := new_term_fields DP1 0 e (by decide) (by decide) (by omega)
  have fv5 := new_term_fields VAR 0 (e + 5) (by decide) (by decide) (by omega)
  -- pass 1: push `APP(A1)`
  have s1 : reduce_iter H 0 (new_term APP 0 A1) =
      .go none (stk_set H 0 (new_term APP 0 A1)) 1 (new_term DP1 0 D) := by
    rw [reduce_iter_app H 0 _ fA.1]
    simp (disch := omega) only [fA.2.2, u32_of_lt, Nat.add_zero, Nat.zero_add, cA10]
  obtain ⟨G1, hG1⟩ : ∃ G, G = stk_set H 0 (new_term APP 0 A1) := ⟨_, rfl⟩
  rw [← hG1] at s1
  have c1 : ∀ i, got G1 i = got H i := fun i => by rw [hG1]; rfl
  have k10 : G1.stk 0 = new_term APP 0 A1 := by rw [hG1, stk_set_stk_self]
  -- pass 2: `DP1(D)` dereferences to the copy `LAM(e + 5)`
  have k2 : get_key (new_term DP1 0 D) = D + 1 := by
    rw [(get_key_loc _).2 fD.1, fD.2.2, u32_of_lt (by omega)]
  have s2 : reduce_iter G1 1 (new_term DP1 0 D) = .go none G1 1 (new_term LAM 0 (e + 5)) := by
    rw [reduce_iter_dup_deref _ 1 _ (Or.inr fD.1) (by rw [k2, c1, cD1, fl5.1]; decide),
      k2, c1, cD1]
  -- pass 3: `APP(A1)` meets `LAM(e + 5)`
  have s3 := reduce_iter_app_lam_eq G1 1 (new_term LAM 0 (e + 5))
    (new_term APP 0 A1) (by decide) k10 fA.1 fl5.1
  rw [fl5.2.2, fA.2.2, u32_of_lt (by omega : A1 + 1 < 2 ^ 32),
    u32_of_lt (by omega : e + 5 + 1 < 2 ^ 32), c1, c1, cA11, ce6,
    show 1 - 1 = 0 from rfl] at s3
  obtain ⟨G3, hG3⟩ : ∃ G, G = set (inc_itr G1).1 (e + 5) b := ⟨_, rfl⟩
  rw [← hG3] at s3
  have c3 : ∀ i, i ≠ e + 5 → got G3 i = got H i := by
    intro i hi
    rw [hG3, got_set_ne _ _ _ _ hi, got_inc_itr, c1]
  have c3b : got G3 (e + 5) = b := by rw [hG3, got_set_eq _ _ _ _ rfl]
  -- pass 4: `DP1(e)` dereferences to `VAR(e + 5)`
  have k4 : get_key (new_term DP1 0 e) = e + 1 := by
    rw [(get_key_loc _).2 fd1.1, fd1.2.2, u32_of_lt (by omega)]
  have s4 : reduce_iter G3 0 (new_term DP1 0 e) = .go none G3 0 (new_term VAR 0 (e + 5)) := by
    rw [reduce_iter_dup_deref _ 0 _ (Or.inr fd1.1)
      (by rw [k4, c3 _ (by omega), ce1, fv5.1]; decide), k4, c3 _ (by omega), ce1]
  -- pass 5: `VAR(e + 5)` dereferences to `b`; pass 6: `b` on an empty stack
  have k5 : get_key (new_term VAR 0 (e + 5)) = e + 5 := by
    rw [(get_key_loc _).1 (Or.inl fv5.1), fv5.2.2]
  have hbsub : get_tag b ≠ SUB := by
    rcases hb with h | h | h <;> rw [h] <;> decide
  have s5 : reduce_iter G3 0 (new_term VAR 0 (e + 5)) = .go none G3 0 b := by
    rw [reduce_iter_var_deref _ 0 _ fv5.1 (by rw [k5, c3b]; exact hbsub), k5, c3b]
  obtain ⟨p1, p2, p3⟩ := passive_of_tag b hb
  have s6 := reduce_iter_passive_empty G3 b p1 p2 p3
  have r6 := reduce_loop_stop fuel G3 0 b G3 b s6
  have r5 := reduce_loop_go_some (fuel + 1) _ _ _ _ _ _ _ _ s5 r6
  have r4 := reduce_loop_go_some (fuel + 2) _ _ _ _ _ _ _ _ s4 r5
  have r3 := reduce_loop_go_some (fuel + 3) _ _ _ _ _ _ _ _ s3 r4
  have r2 := reduce_loop_go_some (fuel + 4) _ _ _ _ _ _ _ _ s2 r3
  have r1 : reduce (fuel + 6) H (new_term APP 0 A1) = some ⟨G3, b, [Rule.APP_LAM]⟩ :=
    reduce_loop_go_some (fuel + 5) _ _ _ _ _ _ _ _ s1 r2
  refine ⟨_, r1, rfl, rfl, ?_⟩
  show G3.end_ = H.end_
  rw [hG3, hG1]
  rfl


/-- C16 (as amended): on a heap with frontier `e`, `e + 9 < 2^32`, holding
`D = [SUB, _, LAM(L)]`, `L = [_, VAR(L)]`, `A0 = [DP0(D), a]` and
`A1 = [DP1(D), b]` at disjoint locations below the frontier, with `a` and `b`
of tag `ERA`, `LAM` or `SUP`: `reduce` of `APP(A0)` terminates and returns
`a`, and `reduce` of `APP(A1)` on the resulting heap terminates and returns
`b`; the two runs fire `DUP_LAM`, `APP_LAM`, `DUP_SUP` and then `APP_LAM`, so
the lambda is copied by exactly one `DUP_LAM` firing, and the frontier ends
at `e + 9`. -/
theorem dup_id_apply (fuel0 fuel1 : Nat) (heap : Heap) (e D L A0 A1 a b : Nat)
    (he : heap.end_ = e) (hlt : e + 9 < 2 ^ 32)
    (hD : D + 2 < e) (hL : L + 1 < e) (hA0 : A0 + 1 < e) (hA1 : A1 + 1 < e)
    (dDL : D + 2 < L ∨ L + 1 < D) (dDA0 : D + 2 < A0 ∨ A0 + 1 < D)
    (dLA0 : L + 1 < A0 ∨ A0 + 1 < L) (dDA1 : D + 2 < A1 ∨ A1 + 1 < D)
    (dLA1 : L + 1 < A1 ∨ A1 + 1 < L)
    (cD0 : got heap D = new_term SUB 0 0)
    (cD2 : got heap (D + 2) = new_term LAM 0 L)
    (cL1 : got heap (L + 1) = new_term VAR 0 L)
    (cA00 : got heap A0 = new_term DP0 0 D) (cA01 : got heap (A0 + 1) = a)
    (cA10 : got heap A1 = new_term DP1 0 D) (cA11 : got heap (A1 + 1) = b)
    (ha : get_tag a = ERA ∨ get_tag a = LAM ∨ get_tag a = SUP)
    (hb : get_tag b = ERA ∨ get_tag b = LAM ∨ get_tag b = SUP) :
    ∃ r0 r1, reduce (fuel0 + 9) heap (new_term APP 0 A0) = some r0 ∧ r0.term = a ∧
      reduce (fuel1 + 6) r0.heap (new_term APP 0 A1) = some r1 ∧ r1.term = b ∧
      r0.fired = [Rule.DUP_LAM, Rule.APP_LAM, Rule.DUP_SUP] ∧
      r1.fired = [Rule.APP_LAM] ∧
      (r0.fired ++ r1.fired).count Rule.DUP_LAM = 1 ∧
      r0.heap.end_ = e + 9 ∧ r1.heap.end_ = e + 9 := by
  obtain ⟨r0, h0, t0, f0, e0, c1, c2, c3, c4⟩ := dup_id_first fuel0 heap e D L A0 a he hlt
    hD hL hA0 dDL dDA0 dLA0 cD0 cD2 cL1 cA00 cA01 ha
  obtain ⟨r1, h1, t1, f1, e1⟩ := dup_id_second fuel1 r0.heap e D A1 b hlt hD hA1
    (by rw [c4 A1 (by omega) (by omega) (by omega) (by omega), cA10])
    (by rw [c4 (A1 + 1) (by omega) (by omega) (by omega) (by omega), cA11])
    c1 c2 c3 hb
  refine ⟨r0, r1, h0, t0, h1, t1, f0, f1, ?_, e0, ?_⟩
  · rw [f0, f1]; decide
  · rw [e1, e0]

theorem dup_id_apply_witness :
    ∃ r0 r1, reduce 9 (heap_dup 9) (new_term APP 0 0) = some r0 ∧
      r0.term = new_term ERA 0 0 ∧
      reduce 6 r0.heap (new_term APP 0 2) = some r1 ∧ r1.term = new_term ERA 0 1 ∧
      r1.heap.end_ = 9 + 9 :=
  have h := dup_id_apply 0 0 (heap_dup 9) 9 4 7 0 2 (new_term ERA 0 0) (new_term ERA 0 1)
    rfl (by decide) (by decide) (by decide) (by decide) (by decide) (by decide)
    (by decide) (by decide) (by decide) (by decide) rfl rfl rfl rfl rfl rfl rfl
    (Or.inl (by decide)) (Or.inl (by decide))
  h.elim fun r0 h' => h'.elim fun r1 hr =>
    ⟨r0, r1, hr.1, hr.2.1, hr.2.2.1, hr.2.2.2.1, hr.2.2.2.2.2.2.2.2⟩

/-- C16 as stated fails when fewer than 9 cells are left above the frontier:
with the frontier at `2^32 - 4` the allocations of `DUP_LAM` wrap round to
cells 0 to 4, the argument cell of `A0` is overwritten, and `reduce` of
`APP(A0)` returns `VAR(2^32 - 1)` and not the argument `ERA`. -/
theorem dup_id_apply_counterexample :
    (heap_dup (2 ^ 32 - 4)).end_ = 2 ^ 32 - 4 ∧
    got (heap_dup (2 ^ 32 - 4)) 1 = new_term ERA 0 0 ∧
    (reduce 9 (heap_dup (2 ^ 32 - 4)) (new_term APP 0 0)).map
        (fun r => (r.term, r.fired)) =
      some (new_term VAR 0 (2 ^ 32 - 1), [Rule.DUP_LAM, Rule.APP_LAM, Rule.DUP_SUP]) ∧
    new_term VAR 0 (2 ^ 32 - 1) ≠ new_term ERA 0 0 := by
  decide

/-! ## The states of a run of `reduce` -/

theorem reduce_state_succ (n : Nat) (heap : Heap) (spos next : Nat) (fired : Option Rule)
    (heap1 : Heap) (spos1 next1 : Nat)
    (hstep : reduce_iter heap spos next = .go fired heap1 spos1 next1) :
    reduce_state (n + 1) heap spos next = reduce_state n heap1 spos1 next1 := by
  rw [reduce_state, hstep]

theorem reduce_state_stop (n : Nat) (heap : Heap) (spos next : Nat) (heap1 : Heap)
    (term : Nat) (hstep : reduce_iter heap spos next = .stop heap1 term) :
    reduce_state (n + 1) heap spos next = none := by
  rw [reduce_state, hstep]

/-- The stack invariant holds in every state a run passes through. -/
theorem reduce_state_ok (n : Nat) :
    ∀ (heap : Heap) (spos next : Nat) (h : Heap) (s x : Nat), stack_ok heap spos →
      reduce_state n heap spos next = some (h, s, x) → stack_ok h s := by
  induction n with
  | zero =>
    intro heap spos next h s x hs hr
    simp only [reduce_state, Option.some.injEq, Prod.mk.injEq] at hr
    obtain ⟨rfl, rfl, rfl⟩ := hr
    exact hs
  | succ n ih =>
    intro heap spos next h s x hs hr
    have hc := reduce_iter_sound heap spos next hs
    cases hstep : reduce_iter heap spos next with
    | stop heap1 term =>
      rw [reduce_state_stop n heap spos next heap1 term hstep] at hr
      exact absurd hr (by simp)
    | go fired heap1 spos1 next1 =>
      rw [reduce_state_succ n heap spos next fired heap1 spos1 next1 hstep] at hr
      rw [hstep] at hc
      exact ih heap1 spos1 next1 h s x hc hr

/-- A run that returns has a last state: the one whose pass returns. -/
theorem reduce_loop_last (fuel : Nat) :
    ∀ (heap : Heap) (spos next : Nat) (r : Run),
      reduce_loop fuel heap spos next = some r →
      ∃ n h s x, n < fuel ∧ reduce_state n heap spos next = some (h, s, x) ∧
        reduce_iter h s x = .stop r.heap r.term := by
  induction fuel with
  | zero => intro heap spos next r h; simp [reduce_loop] at h
  | succ k ih =>
    intro heap spos next r h
    cases hstep : reduce_iter heap spos next with
    | stop heap1 term =>
      rw [reduce_loop_stop k heap spos next heap1 term hstep] at h
      simp only [Option.some.injEq] at h
      subst h
      exact ⟨0, heap, spos, next, Nat.succ_pos k, rfl, hstep⟩
    | go fired heap1 spos1 next1 =>
      rw [reduce_loop_go k heap spos next fired heap1 spos1 next1 hstep] at h
      obtain ⟨r1, hr1, rfl⟩ := option_map_eq_some h
      obtain ⟨n, h0, s, x, hn, hst, hlast⟩ := ih heap1 spos1 next1 r1 hr1
      exact ⟨n + 1, h0, s, x, Nat.succ_lt_succ hn,
        (reduce_state_succ n heap spos next fired heap1 spos1 next1 hstep).trans hst, hlast⟩

theorem host_slot_app (host : Nat) (h : get_tag host = APP) :
    host_slot host = u32 (get_loc host + 0) := by
  unfold host_slot
  rw [if_pos h]

theorem host_slot_dup (host : Nat) (h : get_tag host = DP0 ∨ get_tag host = DP1) :
    host_slot host = u32 (get_loc host + 2) := by
  unfold host_slot
  rw [if_neg (dup_host_not_app host h)]

/-- The code after the outer `switch`, reached with a live host on top of the
stack: one `set` at the host's write-back site, and `path[0]` is returned. -/
theorem reduce_exit_host (heap : Heap) (spos next : Nat) (hs : spos ≠ 0)
    (hh : get_tag (heap.stk (spos - 1)) = APP ∨ get_tag (heap.stk (spos - 1)) = DP0 ∨
      get_tag (heap.stk (spos - 1)) = DP1) :
    reduce_exit heap spos next =
      .stop (set heap (host_slot (heap.stk (spos - 1))) next) (heap.stk 0) := by
  unfold reduce_exit
  rw [if_neg hs]
  dsimp only
  rcases hh with h | h | h
  · rw [if_pos h, host_slot_app _ h]
    rfl
  · have h1 : ¬ get_tag (heap.stk (spos - 1)) = APP := by rw [h]; decide
    rw [if_neg h1, if_pos h, host_slot_dup _ (Or.inl h)]
    rfl
  · have h1 : ¬ get_tag (heap.stk (spos - 1)) = APP := by rw [h]; decide
    have h2 : ¬ get_tag (heap.stk (spos - 1)) = DP0 := by rw [h]; decide
    rw [if_neg h1, if_neg h2, if_pos h, host_slot_dup _ (Or.inr h)]
    rfl

theorem reduce_exit_not_go (heap : Heap) (spos next : Nat) (fired : Option Rule)
    (heap1 : Heap) (spos1 next1 : Nat) :
    reduce_exit heap spos next ≠ .go fired heap1 spos1 next1 := by
  intro h
  by_cases hs : spos = 0
  · subst hs
    rw [reduce_exit_zero] at h
    exact Step.noConfusion h
  · obtain ⟨h2, he, _⟩ := reduce_exit_pos heap spos next hs
    rw [he] at h
    exact Step.noConfusion h

/-- A pass that neither fires a rule nor returns writes no arena cell. -/
theorem reduce_iter_quiet (heap : Heap) (spos next : Nat) (heap1 : Heap) (spos1 next1 : Nat)
    (hstep : reduce_iter heap spos next = .go none heap1 spos1 next1) :
    ∀ i, got heap1 i = got heap i := by
  revert hstep
  apply reduce_iter_cases
    (P := fun st => st = .go none heap1 spos1 next1 → ∀ i, got heap1 i = got heap i)
    heap spos next
  · intro _ h i
    injection h with _ h1 _ _
    rw [← h1]; rfl
  · intro _ _ h i
    injection h with _ h1 _ _
    rw [← h1]; rfl
  · intro _ _ h i
    injection h with _ h1 _ _
    rw [← h1]
  · intro _ _ h; exact absurd h (reduce_exit_not_go _ _ _ _ _ _ _)
  · intro _ _ _ _ _ h; exact absurd h (reduce_exit_not_go _ _ _ _ _ _ _)
  · intro _ _ _ h; injection h with h0 _ _ _; exact Option.noConfusion h0
  · intro _ _ _ h; injection h with h0 _ _ _; exact Option.noConfusion h0
  · intro _ _ _ h; injection h with h0 _ _ _; exact Option.noConfusion h0
  · intro _ _ _ h; injection h with h0 _ _ _; exact Option.noConfusion h0
  · intro _ _ _ h; injection h with h0 _ _ _; exact Option.noConfusion h0
  · intro _ _ _ h; injection h with h0 _ _ _; exact Option.noConfusion h0
  · intro _ _ _ _ _ _ h; exact absurd h (reduce_exit_not_go _ _ _ _ _ _ _)

/-- A pass that returns has left the outer `switch` by `break`, with the
stack position `spos` (from the `VAR` case) or with `spos - 1` (from the
`default` case, which has popped a host unless the stack was empty). -/
theorem reduce_iter_stop_exit (heap : Heap) (spos next : Nat) (heap1 : Heap) (term : Nat)
    (hstep : reduce_iter heap spos next = .stop heap1 term) :
    ∃ e, (get_tag next = VAR ∧ e = spos ∨ get_tag next ≠ VAR ∧ e = spos - 1) ∧
      reduce_iter heap spos next = reduce_exit heap e next := by
  revert hstep
  apply reduce_iter_cases
    (P := fun st => st = .stop heap1 term →
      ∃ e, (get_tag next = VAR ∧ e = spos ∨ get_tag next ≠ VAR ∧ e = spos - 1) ∧
        st = reduce_exit heap e next)
    heap spos next
  · intro _ h; exact Step.noConfusion h
  · intro _ _ h; exact Step.noConfusion h
  · intro _ _ h; exact Step.noConfusion h
  · intro hv _ _; exact ⟨spos, Or.inl ⟨hv, rfl⟩, rfl⟩
  · intro _ _ _ hv h0 _
    refine ⟨spos - 1, Or.inr ⟨hv, rfl⟩, ?_⟩
    rw [h0]
  · intro _ _ _ h; exact Step.noConfusion h
  · intro _ _ _ h; exact Step.noConfusion h
  · intro _ _ _ h; exact Step.noConfusion h
  · intro _ _ _ h; exact Step.noConfusion h
  · intro _ _ _ h; exact Step.noConfusion h
  · intro _ _ _ h; exact Step.noConfusion h
  · intro _ _ _ hv _ _ _; exact ⟨spos - 1, Or.inr ⟨hv, rfl⟩, rfl⟩

/-- With a host of tag `APP`, `DP0` or `DP1` on top of a non-empty stack, a
cursor of tag `ERA`, `LAM` or `SUP` fires the rule of the pair. -/
theorem reduce_iter_fires (heap : Heap) (spos next : Nat) (hs : spos ≠ 0)
    (hp : get_tag (heap.stk (spos - 1)) = APP ∨ get_tag (heap.stk (spos - 1)) = DP0 ∨
      get_tag (heap.stk (spos - 1)) = DP1)
    (ht : get_tag next = ERA ∨ get_tag next = LAM ∨ get_tag next = SUP) :
    (get_tag (heap.stk (spos - 1)) = APP ∧ get_tag next = ERA ∧
      reduce_iter heap spos next = .go (some .APP_ERA)
        (reduce_app_era heap (heap.stk (spos - 1)) next).1 (spos - 1)
        (reduce_app_era heap (heap.stk (spos - 1)) next).2) ∨
    (get_tag (heap.stk (spos - 1)) = APP ∧ get_tag next = LAM ∧
      reduce_iter heap spos next = .go (some .APP_LAM)
        (reduce_app_lam heap (heap.stk (spos - 1)) next).1 (spos - 1)
        (reduce_app_lam heap (heap.stk (spos - 1)) next).2) ∨
    (get_tag (heap.stk (spos - 1)) = APP ∧ get_tag next = SUP ∧
      reduce_iter heap spos next = .go (some .APP_SUP)
        (reduce_app_sup heap (heap.stk (spos - 1)) next).1 (spos - 1)
        (reduce_app_sup heap (heap.stk (spos - 1)) next).2) ∨
    ((get_tag (heap.stk (spos - 1)) = DP0 ∨ get_tag (heap.stk (spos - 1)) = DP1) ∧
      get_tag next = ERA ∧
      reduce_iter heap spos next = .go (some .DUP_ERA)
        (reduce_dup_era heap (heap.stk (spos - 1)) next).1 (spos - 1)
        (reduce_dup_era heap (heap.stk (spos - 1)) next).2) ∨
    ((get_tag (heap.stk (spos - 1)) = DP0 ∨ get_tag (heap.stk (spos - 1)) = DP1) ∧
      get_tag next = LAM ∧
      reduce_iter heap spos next = .go (some .DUP_LAM)
        (reduce_dup_lam heap (heap.stk (spos - 1)) next).1 (spos - 1)
        (reduce_dup_lam heap (heap.stk (spos - 1)) next).2) ∨
    ((get_tag (heap.stk (spos - 1)) = DP0 ∨ get_tag (heap.stk (spos - 1)) = DP1) ∧
      get_tag next = SUP ∧
      reduce_iter heap spos next = .go (some .DUP_SUP)
        (reduce_dup_sup heap (heap.stk (spos - 1)) next).1 (spos - 1)
        (reduce_dup_sup heap (heap.stk (spos - 1)) next).2) := by
  rcases hp with hp | hp | hp
  · rcases ht with ht | ht | ht
    · exact Or.inl ⟨hp, ht, reduce_iter_app_era heap spos next hs hp ht⟩
    · exact Or.inr (Or.inl ⟨hp, ht, reduce_iter_app_lam heap spos next hs hp ht⟩)
    · exact Or.inr (Or.inr (Or.inl ⟨hp, ht, reduce_iter_app_sup heap spos next hs hp ht⟩))
  · rcases ht with ht | ht | ht
    · exact Or.inr (Or.inr (Or.inr (Or.inl
        ⟨Or.inl hp, ht, reduce_iter_dup_era heap spos next hs (Or.inl hp) ht⟩)))
    · exact Or.inr (Or.inr (Or.inr (Or.inr (Or.inl
        ⟨Or.inl hp, ht, reduce_iter_dup_lam heap spos next hs (Or.inl hp) ht⟩))))
    · exact Or.inr (Or.inr (Or.inr (Or.inr (Or.inr
        ⟨Or.inl hp, ht, reduce_iter_dup_sup heap spos next hs (Or.inl hp) ht⟩))))
  · rcases ht with ht | ht | ht
    · exact Or.inr (Or.inr (Or.inr (Or.inl
        ⟨Or.inr hp, ht, reduce_iter_dup_era heap spos next hs (Or.inr hp) ht⟩)))
    · exact Or.inr (Or.inr (Or.inr (Or.inr (Or.inl
        ⟨Or.inr hp, ht, reduce_iter_dup_lam heap spos next hs (Or.inr hp) ht⟩))))
    · exact Or.inr (Or.inr (Or.inr (Or.inr (Or.inr
        ⟨Or.inr hp, ht, reduce_iter_dup_sup heap spos next hs (Or.inr hp) ht⟩))))

theorem stack_ok_zero (heap : Heap) : stack_ok heap 0 :=
  fun _ hi => absurd hi (Nat.not_lt_zero _)

/-! ## Spine write-back (C21) -/

/-- A pass that returns from a non-empty stack on a cursor that is not a
`VAR` has found no redex: the tag of the cursor is none of `APP`, `DP0`,
`DP1`, `ERA`, `LAM`, `SUP`. -/
theorem reduce_iter_stop_tag (heap : Heap) (spos next : Nat) (heap1 : Heap) (term : Nat)
    (hok : stack_ok heap spos) (hs : spos ≠ 0) (hv : get_tag next ≠ VAR)
    (hstep : reduce_iter heap spos next = .stop heap1 term) :
    get_tag next ≠ APP ∧ get_tag next ≠ DP0 ∧ get_tag next ≠ DP1 ∧
      get_tag next ≠ ERA ∧ get_tag next ≠ LAM ∧ get_tag next ≠ SUP := by
  have hh := hok (spos - 1) (by omega)
  revert hstep
  apply reduce_iter_cases
    (P := fun st => st = .stop heap1 term →
      get_tag next ≠ APP ∧ get_tag next ≠ DP0 ∧ get_tag next ≠ DP1 ∧
        get_tag next ≠ ERA ∧ get_tag next ≠ LAM ∧ get_tag next ≠ SUP)
    heap spos next
  · intro _ h; exact Step.noConfusion h
  · intro _ _ h; exact Step.noConfusion h
  · intro _ _ h; exact Step.noConfusion h
  · intro h _ _; exact absurd h hv
  · intro _ _ _ _ h0 _; exact absurd h0 hs
  · intro _ _ _ h; exact Step.noConfusion h
  · intro _ _ _ h; exact Step.noConfusion h
  · intro _ _ _ h; exact Step.noConfusion h
  · intro _ _ _ h; exact Step.noConfusion h
  · intro _ _ _ h; exact Step.noConfusion h
  · intro _ _ _ h; exact Step.noConfusion h
  · intro h1 h2 h3 _ _ hn _
    exact ⟨h1, h2, h3, fun h => hn ⟨hh, Or.inl h⟩, fun h => hn ⟨hh, Or.inr (Or.inl h)⟩,
      fun h => hn ⟨hh, Or.inr (Or.inr h)⟩⟩

/-- C21 (as amended): a pass of the loop that neither fires a rule nor returns
writes no arena cell.  A run of `reduce` that returns has a last state
`(h, s, x)`: the heap, the stack position and the cursor at the head of the
pass that returns.  When the stack is empty (`s = 0`) nothing is written and
the cursor `x` is returned.  When the stack is not empty and `x` is a `VAR`
(whose binder cell then holds `SUB`), the top host `path[s - 1]` has tag
`APP`, `DP0` or `DP1`, the final heap is `h` after the single write of `x` at
that host's site (location + 0 for `APP`, location + 2 for `DP0` and `DP1`),
the stack entries are unchanged, `path[0]` is returned, and every other cell
keeps its content: so does the site of each deeper host that is not that same
cell.  The only other way to return is from a non-empty stack on a cursor
whose tag is none of `APP`, `DP0`, `DP1`, `VAR`, `ERA`, `LAM`, `SUP`, which
forms no redex with the host above it. -/
theorem reduce_write_back (fuel : Nat) (heap : Heap) (term : Nat) (r : Run)
    (hrun : reduce fuel heap term = some r) :
    (∀ (h : Heap) (s x : Nat) (h1 : Heap) (s1 x1 : Nat),
      reduce_iter h s x = .go none h1 s1 x1 → ∀ i, got h1 i = got h i) ∧
    ∃ n h s x, n < fuel ∧ reduce_state n heap 0 term = some (h, s, x) ∧
      reduce_iter h s x = .stop r.heap r.term ∧
      (s = 0 → r.heap = h ∧ r.term = x) ∧
      (s ≠ 0 → get_tag x = VAR →
        get_tag (got h (get_key x)) = SUB ∧
        (get_tag (h.stk (s - 1)) = APP ∨ get_tag (h.stk (s - 1)) = DP0 ∨
          get_tag (h.stk (s - 1)) = DP1) ∧
        r.heap = set h (host_slot (h.stk (s - 1))) x ∧
        r.term = h.stk 0 ∧
        r.heap.stk = h.stk ∧
        got r.heap (host_slot (h.stk (s - 1))) = x ∧
        (∀ i, i ≠ host_slot (h.stk (s - 1)) → got r.heap i = got h i) ∧
        (∀ j, j + 1 < s → host_slot (h.stk j) ≠ host_slot (h.stk (s - 1)) →
          got r.heap (host_slot (h.stk j)) = got h (host_slot (h.stk j)))) ∧
      (s ≠ 0 → get_tag x ≠ VAR →
        get_tag x ≠ APP ∧ get_tag x ≠ DP0 ∧ get_tag x ≠ DP1 ∧
          get_tag x ≠ ERA ∧ get_tag x ≠ LAM ∧ get_tag x ≠ SUP) := by
  refine ⟨fun h s x h1 s1 x1 hq => reduce_iter_quiet h s x h1 s1 x1 hq, ?_⟩
  obtain ⟨n, h, s, x, hn, hst, hlast⟩ := reduce_loop_last fuel heap 0 term r hrun
  have hok : stack_ok h s := reduce_state_ok n heap 0 term h s x (stack_ok_zero heap) hst
  obtain ⟨e, he, hexit⟩ := reduce_iter_stop_exit h s x r.heap r.term hlast
  refine ⟨n, h, s, x, hn, hst, hlast, ?_, ?_, ?_⟩
  · intro hs0
    have he0 : e = 0 := by
      rcases he with ⟨_, rfl⟩ | ⟨_, rfl⟩ <;> omega
    subst he0
    rw [hexit, reduce_exit_zero] at hlast
    injection hlast with h1 h2
    exact ⟨h1.symm, h2.symm⟩
  · intro hs0 hv
    have hes : e = s := by
      rcases he with ⟨_, rfl⟩ | ⟨hne, _⟩
      · rfl
      · exact absurd hv hne
    subst hes
    have hh := hok (e - 1) (by omega)
    have hsub : get_tag (got h (get_key x)) = SUB := by
      by_contra hb
      rw [reduce_iter_var_deref h e x hv hb] at hlast
      exact Step.noConfusion hlast
    rw [hexit, reduce_exit_host h e x hs0 hh] at hlast
    injection hlast with h1 h2
    have hfr : ∀ i, i ≠ host_slot (h.stk (e - 1)) → got r.heap i = got h i := by
      intro i hi
      rw [← h1]
      exact got_set_ne h _ x i hi
    refine ⟨hsub, hh, h1.symm, h2.symm, ?_, ?_, hfr, fun j _ hj => hfr _ hj⟩
    · rw [← h1]; rfl
    · rw [← h1]
      exact got_set_eq h _ x _ rfl
  · intro hs0 hv
    exact reduce_iter_stop_tag h s x r.heap r.term hok hs0 hv hlast

theorem reduce_write_back_witness :
    ∃ r, reduce 2 heap_ex (new_term APP 0 15) = some r ∧
      r.term = new_term APP 0 15 ∧ got r.heap 15 = new_term VAR 0 14 ∧
      ∃ n h s x, n < 2 ∧ reduce_state n heap_ex 0 (new_term APP 0 15) = some (h, s, x) ∧
        reduce_iter h s x = .stop r.heap r.term :=
  have hrun : reduce 2 heap_ex (new_term APP 0 15) =
      some ((reduce 2 heap_ex (new_term APP 0 15)).get (by decide)) :=
    (Option.some_get _).symm
  ⟨_, hrun, by decide, by decide,
    (reduce_write_back 2 heap_ex (new_term APP 0 15) _ hrun).2.elim fun n h1 =>
      h1.elim fun h h2 => h2.elim fun s h3 => h3.elim fun x h5 =>
        ⟨n, h, s, x, h5.1, h5.2.1, h5.2.2.1⟩⟩

/-- C21 as stated fails on a term that forms no redex under two hosts at
disjoint nodes.  On `heap_stuck`, `reduce` of `APP(10)` pushes `APP(10)` and
`APP(12)` and returns at its third pass; before that pass the stack holds
`path[0] = APP(10)` and `path[1] = APP(12)`, whose sites are cells 10 and 12,
and the cursor is the `SUB` term of cell 12.  The run fires no rule, returns
`path[0]` and leaves the cursor in cell 10: both hosts were popped and the
site of the deeper host `path[0]` was overwritten. -/
theorem reduce_write_back_counterexample :
    ∃ st r, reduce_state 2 heap_stuck 0 (new_term APP 0 10) = some st ∧
      st.2.1 = 2 ∧ st.2.2 = new_term SUB 0 0 ∧
      st.1.stk 0 = new_term APP 0 10 ∧ st.1.stk 1 = new_term APP 0 12 ∧
      host_slot (st.1.stk 0) = 10 ∧ host_slot (st.1.stk 1) = 12 ∧
      got st.1 10 = new_term APP 0 12 ∧ got st.1 12 = new_term SUB 0 0 ∧
      reduce 3 heap_stuck (new_term APP 0 10) = some r ∧
      r.term = new_term APP 0 10 ∧
      r.fired = [] ∧
      got r.heap 10 = new_term SUB 0 0 ∧
      got r.heap (host_slot (st.1.stk 0)) ≠ got st.1 (host_slot (st.1.stk 0)) :=
  ⟨(reduce_state 2 heap_stuck 0 (new_term APP 0 10)).get (by decide),
    (reduce 3 heap_stuck (new_term APP 0 10)).get (by decide),
    (Option.some_get _).symm, by decide, by decide, by decide, by decide, by decide,
    by decide, by decide, by decide, (Option.some_get _).symm, by decide, by decide,
    by decide, by decide⟩

/-- Two hosts can have the same write-back site.  On `heap_alias`, `reduce` of
`APP(11)` returns at its seventh pass on the unbound `VAR(50)`; before that
pass the stack holds `APP(11)` twice (`path[0]` and `path[1]`) and cell 11,
the site of both, holds `DP0(30)`; the single write leaves `VAR(50)` there. -/
theorem reduce_shared_site :
    ∃ st r, reduce_state 6 heap_alias 0 (new_term APP 0 11) = some st ∧
      st.2.1 = 2 ∧ st.2.2 = new_term VAR 0 50 ∧
      st.1.stk 0 = new_term APP 0 11 ∧ st.1.stk 1 = new_term APP 0 11 ∧
      host_slot (st.1.stk 0) = 11 ∧ host_slot (st.1.stk 1) = 11 ∧
      got st.1 11 = new_term DP0 0 30 ∧
      reduce 7 heap_alias (new_term APP 0 11) = some r ∧
      r.term = new_term APP 0 11 ∧
      r.fired = [Rule.DUP_SUP, Rule.DUP_SUP] ∧
      got r.heap 11 = new_term VAR 0 50 ∧
      got r.heap (host_slot (st.1.stk 0)) ≠ got st.1 (host_slot (st.1.stk 0)) :=
  ⟨(reduce_state 6 heap_alias 0 (new_term APP 0 11)).get (by decide),
    (reduce 7 heap_alias (new_term APP 0 11)).get (by decide),
    (Option.some_get _).symm, by decide, by decide, by decide, by decide, by decide,
    by decide, by decide, (Option.some_get _).symm, by decide, by decide, by decide,
    by decide⟩

/-! ## The stack invariant (C22) -/

/-- C22: in every state `(h, s, x)` that a run of `reduce` passes through (any
heap, any term, terminating or not), each live stack entry, of index below
`s`, has tag `APP`, `DP0` or `DP1`.  Hence, when the stack is not empty, the
host popped by the `default` case has one of these three tags, so the inner
`default: break` on its tag is not reached; a cursor of tag `ERA`, `LAM` or
`SUP` then fires exactly one of the six rules, the one of the pair; and when
the code after the `switch` is reached with a non-empty stack (position `s`
from the `VAR` case, `s - 1` from the `default` case), the host it pops has one
of the three tags, so one of the three cases of the write-back `switch` runs. -/
theorem reduce_stack_invariant (n : Nat) (heap : Heap) (term : Nat) (h : Heap) (s x : Nat)
    (hreach : reduce_state n heap 0 term = some (h, s, x)) :
    stack_ok h s ∧
    (s ≠ 0 →
      get_tag (h.stk (s - 1)) = APP ∨ get_tag (h.stk (s - 1)) = DP0 ∨
        get_tag (h.stk (s - 1)) = DP1) ∧
    (s ≠ 0 → get_tag x = ERA ∨ get_tag x = LAM ∨ get_tag x = SUP →
      (∃! rule : Rule, ∃ h1 s1 x1, reduce_iter h s x = .go (some rule) h1 s1 x1) ∧
      ((get_tag (h.stk (s - 1)) = APP ∧ get_tag x = ERA ∧
          reduce_iter h s x = .go (some .APP_ERA)
            (reduce_app_era h (h.stk (s - 1)) x).1 (s - 1)
            (reduce_app_era h (h.stk (s - 1)) x).2) ∨
        (get_tag (h.stk (s - 1)) = APP ∧ get_tag x = LAM ∧
          reduce_iter h s x = .go (some .APP_LAM)
            (reduce_app_lam h (h.stk (s - 1)) x).1 (s - 1)
            (reduce_app_lam h (h.stk (s - 1)) x).2) ∨
        (get_tag (h.stk (s - 1)) = APP ∧ get_tag x = SUP ∧
          reduce_iter h s x = .go (some .APP_SUP)
            (reduce_app_sup h (h.stk (s - 1)) x).1 (s - 1)
            (reduce_app_sup h (h.stk (s - 1)) x).2) ∨
        ((get_tag (h.stk (s - 1)) = DP0 ∨ get_tag (h.stk (s - 1)) = DP1) ∧
          get_tag x = ERA ∧
          reduce_iter h s x = .go (some .DUP_ERA)
            (reduce_dup_era h (h.stk (s - 1)) x).1 (s - 1)
            (reduce_dup_era h (h.stk (s - 1)) x).2) ∨
        ((get_tag (h.stk (s - 1)) = DP0 ∨ get_tag (h.stk (s - 1)) = DP1) ∧
          get_tag x = LAM ∧
          reduce_iter h s x = .go (some .DUP_LAM)
            (reduce_dup_lam h (h.stk (s - 1)) x).1 (s - 1)
            (reduce_dup_lam h (h.stk (s - 1)) x).2) ∨
        ((get_tag (h.stk (s - 1)) = DP0 ∨ get_tag (h.stk (s - 1)) = DP1) ∧
          get_tag x = SUP ∧
          reduce_iter h s x = .go (some .DUP_SUP)
            (reduce_dup_sup h (h.stk (s - 1)) x).1 (s - 1)
            (reduce_dup_sup h (h.stk (s - 1)) x).2))) ∧
    (∀ e, get_tag x = VAR ∧ e = s ∨ get_tag x ≠ VAR ∧ e = s - 1 → e ≠ 0 →
      (get_tag (h.stk (e - 1)) = APP ∨ get_tag (h.stk (e - 1)) = DP0 ∨
        get_tag (h.stk (e - 1)) = DP1) ∧
      reduce_exit h e x = .stop (set h (host_slot (h.stk (e - 1))) x) (h.stk 0)) := by
  have hok : stack_ok h s := reduce_state_ok n heap 0 term h s x (stack_ok_zero heap) hreach
  have htop : s ≠ 0 → get_tag (h.stk (s - 1)) = APP ∨ get_tag (h.stk (s - 1)) = DP0 ∨
      get_tag (h.stk (s - 1)) = DP1 := fun hs => hok (s - 1) (by omega)
  refine ⟨hok, htop, ?_, ?_⟩
  · intro hs hx
    have hf := reduce_iter_fires h s x hs (htop hs) hx
    refine ⟨?_, hf⟩
    have huniq : ∀ (rule : Rule) (g : Heap) (p c : Nat),
        reduce_iter h s x = .go (some rule) g p c →
        ∃! rule : Rule, ∃ h1 s1 x1, reduce_iter h s x = .go (some rule) h1 s1 x1 := by
      intro rule g p c heq
      refine ⟨rule, ⟨g, p, c, heq⟩, ?_⟩
      rintro rule2 ⟨g2, p2, c2, heq2⟩
      rw [heq] at heq2
      injection heq2 with h0 _ _ _
      injection h0 with h0
      exact h0.symm
    rcases hf with hf | hf | hf | hf | hf | hf <;> exact huniq _ _ _ _ hf.2.2
  · intro e he he0
    have hlt : e - 1 < s := by
      rcases he with ⟨_, rfl⟩ | ⟨_, rfl⟩ <;> omega
    have hh := hok (e - 1) hlt
    exact ⟨hh, reduce_exit_host h e x he0 hh⟩

theorem reduce_stack_invariant_witness :
    reduce_state 1 heap_ex 0 (new_term APP 0 10) =
      some (stk_set heap_ex 0 (new_term APP 0 10), 1, new_term LAM 0 14) ∧
    stack_ok (stk_set heap_ex 0 (new_term APP 0 10)) 1 ∧
    ∃! rule : Rule, ∃ h1 s1 x1,
      reduce_iter (stk_set heap_ex 0 (new_term APP 0 10)) 1 (new_term LAM 0 14) =
        .go (some rule) h1 s1 x1 :=
  have h := reduce_stack_invariant 1 heap_ex (new_term APP 0 10)
    (stk_set heap_ex 0 (new_term APP 0 10)) 1 (new_term LAM 0 14) rfl
  ⟨rfl, h.1, (h.2.2.1 (by decide) (Or.inr (Or.inl (by decide)))).1⟩

/-! ## The empty cell (C23) -/

theorem lor_eq_zero (a b : Nat) : a ||| b = 0 ↔ a = 0 ∧ b = 0 := by
  constructor
  · intro h
    have hb : ∀ i, (a.testBit i || b.testBit i) = false := by
      intro i
      rw [← Nat.testBit_or, h, Nat.zero_testBit]
    constructor <;> apply Nat.eq_of_testBit_eq <;> intro i <;>
      rw [Nat.zero_testBit] <;> have := hb i <;> revert this <;>
      cases a.testBit i <;> cases b.testBit i <;> simp
  · rintro ⟨rfl, rfl⟩
    rfl

theorem new_term_eq_zero (tag lab loc : Nat) :
    new_term tag lab loc = 0 ↔ tag = 0 ∧ lab = 0 ∧ loc = 0 := by
  unfold new_term
  have h8 : (2 : Nat) ^ 8 ≠ 0 := by decide
  have h32 : (2 : Nat) ^ 32 ≠ 0 := by decide
  simp only [lor_eq_zero, Nat.shiftLeft_eq, Nat.mul_eq_zero, and_assoc, h8, h32, or_false]

theorem print_heap_mem (heap : Heap) (e : Nat × Nat × Nat × Nat) (he : e ∈ print_heap heap) :
    e.1 < get_end heap ∧ got heap e.1 ≠ 0 ∧
      e.2 = (get_tag (got heap e.1), get_lab (got heap e.1), get_loc (got heap e.1)) := by
  unfold print_heap at he
  simp only [List.mem_filterMap, List.mem_range] at he
  obtain ⟨i, hi, hm⟩ := he
  by_cases h0 : got heap i ≠ 0
  · rw [if_pos h0] at hm
    simp only [Option.some.injEq] at hm
    subst hm
    exact ⟨hi, h0, rfl⟩
  · rw [if_neg h0] at hm
    exact absurd hm (by simp)

/-- C23: `VOID` is an encoded term.  For every tag, label and location,
`new_term tag lab loc` is `VOID` (the all-zero word) exactly when `tag = DP0`,
`lab = 0` and `loc = 0`; so `VOID` is `new_term DP0 0 0`, it decodes to tag
`DP0`, label 0 and location 0, and `print_heap` prints no line for a cell that
holds `new_term DP0 0 0`, as for an empty cell. -/
theorem void_is_dp0 :
    (∀ tag lab loc : Nat, new_term tag lab loc = VOID ↔ tag = DP0 ∧ lab = 0 ∧ loc = 0) ∧
    new_term DP0 0 0 = VOID ∧
    get_tag VOID = DP0 ∧ get_lab VOID = 0 ∧ get_loc VOID = 0 ∧
    (∀ (heap : Heap) (i : Nat), got heap i = new_term DP0 0 0 →
      ∀ e, e ∈ print_heap heap → e.1 ≠ i) ∧
    (∀ (heap : Heap) (i : Nat), got heap i = VOID →
      ∀ e, e ∈ print_heap heap → e.1 ≠ i) := by
  have hv : new_term DP0 0 0 = VOID := by decide
  have hskip : ∀ (heap : Heap) (i : Nat), got heap i = VOID →
      ∀ e, e ∈ print_heap heap → e.1 ≠ i := by
    intro heap i hi e he heq
    have h := (print_heap_mem heap e he).2.1
    rw [heq, hi] at h
    exact h rfl
  refine ⟨fun tag lab loc => new_term_eq_zero tag lab loc, hv, by decide, by decide,
    by decide, ?_, hskip⟩
  intro heap i hi
  exact hskip heap i (hi.trans hv)

/-! ## Labels wider than 24 bits (C24) -/

theorem new_term_wide (tag lab loc : Nat) :
    new_term tag lab loc = new_term tag (lab % 2 ^ 24) (loc ||| lab >>> 24) := by
  unfold new_term
  apply Nat.eq_of_testBit_eq
  intro i
  simp only [Nat.testBit_or, Nat.testBit_shiftLeft, Nat.testBit_shiftRight, Nat.testBit_mod_two_pow]
  by_cases h8 : 8 ≤ i
  · by_cases h32 : 32 ≤ i
    · have e1 : 24 + (i - 32) = i - 8 := by omega
      have e2 : ¬ (i - 8 < 24) := by omega
      simp [h8, h32, e1, e2]
      cases tag.testBit i <;> cases lab.testBit (i - 8) <;> cases loc.testBit (i - 32) <;> rfl
    · have e2 : i - 8 < 24 := by omega
      simp [h8, h32, e2]
  · simp [h8, show ¬ 32 ≤ i by omega]

/-- C24: `new_term` does not mask its label.  For a tag of 8 bits and a label
and a location of 32 bits (the C types `Tag`, `Lab`, `Loc`), the location
decoded from `new_term tag lab loc` is `loc OR (lab >> 24)`, the label decoded
is `lab mod 2^24`, and the tag decoded is `tag`; and there is a label of at
least 2^24 for which the decoded location is not the location passed in. -/
theorem new_term_label_unmasked (tag lab loc : Nat)
    (ht : tag < 2 ^ 8) (hl : lab < 2 ^ 32) (hc : loc < 2 ^ 32) :
    get_loc (new_term tag lab loc) = loc ||| lab >>> 24 ∧
    get_lab (new_term tag lab loc) = lab % 2 ^ 24 ∧
    get_tag (new_term tag lab loc) = tag ∧
    ∃ lab0 loc0, 2 ^ 24 ≤ lab0 ∧ lab0 < 2 ^ 32 ∧ loc0 < 2 ^ 32 ∧
      get_loc (new_term tag lab0 loc0) ≠ loc0 := by
  have key : ∀ l c, l < 2 ^ 32 → c < 2 ^ 32 →
      get_tag (new_term tag l c) = tag ∧ get_lab (new_term tag l c) = l % 2 ^ 24 ∧
        get_loc (new_term tag l c) = c ||| l >>> 24 := by
    intro l c hl1 hc1
    have hs : l >>> 24 < 2 ^ 32 := by
      rw [Nat.shiftRight_eq_div_pow]
      exact lt_of_le_of_lt (Nat.div_le_self _ _) hl1
    rw [new_term_wide tag l c]
    exact new_term_fields tag (l % 2 ^ 24) (c ||| l >>> 24) ht
      (Nat.mod_lt _ (by decide)) (Nat.or_lt_two_pow hc1 hs)
  obtain ⟨k1, k2, k3⟩ := key lab loc hl hc
  refine ⟨k3, k2, k1, 2 ^ 24, 0, le_refl _, by decide, by decide, ?_⟩
  rw [(key (2 ^ 24) 0 (by decide) (by decide)).2.2]
  decide

theorem new_term_label_unmasked_witness :
    get_loc (new_term 6 (2 ^ 24 + 5) 6) = 7 ∧ get_lab (new_term 6 (2 ^ 24 + 5) 6) = 5 ∧
    get_tag (new_term 6 (2 ^ 24 + 5) 6) = 6 :=
  have h := new_term_label_unmasked 6 (2 ^ 24 + 5) 6 (by decide) (by decide) (by decide)
  ⟨h.1.trans (by decide), h.2.1.trans (by decide), h.2.2.1⟩

end HVML
